import Mathlib

/-!
# BasicCompiler: scanner, precedence table, recursive-descent parser and driver

A shallow embedding of `src/BasicCompiler/BasicCompiler.cpp`.

* The process-wide variables of the program (`lastChar`, `identifier`, `numberValue`,
  `currentToken`, `BinopPrecedence`) together with the unread part of standard input and
  the text written to the diagnostic stream form the record `State`; every function of
  the program becomes a function on `State`.
* `int` values are `Int`; standard input is a list of characters, each standing for one
  byte, which `getchar` returns as its code `0 ≤ c`; end of input is `EOF = -1` and
  persists once reached.
* Loops that read input are recursive functions on the unread input; the recursive
  functions of the parser carry a fuel argument (the depth of the call tree they may
  use) and answer `none` when it is exhausted.  `some (none, s)` is a returned null
  pointer, `some (some e, s)` a returned node.
-/

namespace BasicCompiler

/-! ## `<cctype>` in the "C" locale and `<cstdio>` -/

/-- End-of-file value returned by `getchar`. -/
def EOF : Int := -1

/-- White space of the "C" locale: space, `\t`, `\n`, `\v`, `\f`, `\r`. -/
def isspace (c : Int) : Bool := decide (c = 32 ∨ (9 ≤ c ∧ c ≤ 13))

/-- Decimal digits `'0'..'9'`. -/
def isdigit (c : Int) : Bool := decide (48 ≤ c ∧ c ≤ 57)

/-- Letters `'A'..'Z'` and `'a'..'z'`. -/
def isalpha (c : Int) : Bool := decide ((65 ≤ c ∧ c ≤ 90) ∨ (97 ≤ c ∧ c ≤ 122))

/-- Letters and digits. -/
def isalnum (c : Int) : Bool := isalpha c || isdigit c

/-- Seven-bit codes `0..127`. -/
def isascii (c : Int) : Bool := decide (0 ≤ c ∧ c ≤ 127)

/-- Conversion of an `int` holding a character code to `char`. -/
def toChar (c : Int) : Char := Char.ofNat c.toNat

/-- One call of `getchar()` on the unread input: the character read (or `EOF`) and the
input that remains. -/
def getchar : List Char → Int × List Char
  | [] => (EOF, [])
  | c :: cs => ((c.toNat : Int), cs)

/-- Value of a run of decimal digits. -/
def digitsValue (ds : List Char) : Nat :=
  ds.foldl (fun acc d => 10 * acc + (d.toNat - 48)) 0

/-- The C library function `strtod` on a text made of digits and `'.'` (the only texts the
scanner passes to it): the value of the longest initial part of the form
`digits [ '.' digits ]` holding at least one digit, and `0` when there is none.  The value
is the exact decimal one; rounding to the nearest `double` is not represented. -/
def strtod (text : List Char) : Rat :=
  let intPart := text.takeWhile Char.isDigit
  let fracPart :=
    match text.dropWhile Char.isDigit with
    | '.' :: rest => rest.takeWhile Char.isDigit
    | _ => []
  if intPart = [] ∧ fracPart = [] then 0
  else mkRat (digitsValue (intPart ++ fracPart)) (10 ^ fracPart.length)

/-! ## Tokens and program state -/

def EOFToken : Int := -1
def defToken : Int := -2
def externToken : Int := -3
def identifierToken : Int := -4
def numberToken : Int := -5

/-- The variables of the program, the unread standard input and the diagnostic stream. -/
structure State where
  /-- Characters of standard input not yet read by `getchar`. -/
  input : List Char
  /-- The `static int lastChar` of `GetToken`. -/
  lastChar : Int
  /-- The global `std::string identifier`. -/
  identifier : List Char
  /-- The global `double numberValue`. -/
  numberValue : Rat
  /-- The `static int currentToken`. -/
  currentToken : Int
  /-- The `std::map<char, int> BinopPrecedence`, as the list of its entries. -/
  BinopPrecedence : List (Int × Int)
  /-- What has been written to `stderr`, one entry for each `fprintf`. -/
  stderr : List String
deriving DecidableEq

/-- State of the program when `main` is entered, reading `input` from standard input. -/
def initialState (input : List Char) : State :=
  { input := input, lastChar := 32, identifier := [], numberValue := 0,
    currentToken := 0, BinopPrecedence := [], stderr := [] }

/-! ## Scanner -/

/-- The loop `while (isspace(lastChar)) lastChar = getchar();`: the final `lastChar` and
the input that remains. -/
def skipSpaces (lastChar : Int) : List Char → Int × List Char
  | [] => if isspace lastChar then (EOF, []) else (lastChar, [])
  | c :: cs => if isspace lastChar then skipSpaces (c.toNat : Int) cs else (lastChar, c :: cs)

/-- The loop `while (isalnum((lastChar = getchar()))) identifier += lastChar;`: the final
`identifier`, `lastChar` and input. -/
def readIdentifier (identifier : List Char) : List Char → List Char × Int × List Char
  | [] => (identifier, EOF, [])
  | c :: cs =>
    if isalnum (c.toNat : Int) then readIdentifier (identifier ++ [toChar (c.toNat : Int)]) cs
    else (identifier, (c.toNat : Int), cs)

/-- The loop
`while (isdigit(lastChar) || lastChar == '.') { number += lastChar; lastChar = getchar(); }`:
the final `number`, `lastChar` and input. -/
def readNumber (number : List Char) (lastChar : Int) : List Char → List Char × Int × List Char
  | [] =>
    if isdigit lastChar || lastChar == 46 then (number ++ [toChar lastChar], EOF, [])
    else (number, lastChar, [])
  | c :: cs =>
    if isdigit lastChar || lastChar == 46 then
      readNumber (number ++ [toChar lastChar]) (c.toNat : Int) cs
    else (number, lastChar, c :: cs)

/-- The loop
`while (lastChar != EOF && lastChar != '\n' && lastChar != '\r') lastChar = getchar();`. -/
def skipComment (lastChar : Int) : List Char → Int × List Char
  | [] => if lastChar != EOF && lastChar != 10 && lastChar != 13 then (EOF, []) else (lastChar, [])
  | c :: cs =>
    if lastChar != EOF && lastChar != 10 && lastChar != 13 then skipComment (c.toNat : Int) cs
    else (lastChar, c :: cs)

/-- The body of `GetToken`; `fuel` bounds the depth of the recursion `return GetToken();`
that follows a comment. -/
def GetTokenFuel : Nat → State → Option (Int × State)
  | 0, _ => none
  | fuel + 1, s =>
    let sp := skipSpaces s.lastChar s.input
    if isalpha sp.1 then
      -- identifier creation
      let r := readIdentifier [toChar sp.1] sp.2
      let s1 := { s with identifier := r.1, lastChar := r.2.1, input := r.2.2 }
      if r.1 = ['d', 'e', 'f'] then some (defToken, s1)
      else if r.1 = ['e', 'x', 't', 'e', 'r', 'n'] then some (externToken, s1)
      else some (identifierToken, s1)
    else if isdigit sp.1 || sp.1 == 46 then
      -- number literal creation
      let r := readNumber [toChar sp.1] sp.1 sp.2
      some (numberToken, { s with numberValue := strtod r.1, lastChar := r.2.1, input := r.2.2 })
    else if sp.1 == 35 then
      -- ignoring comments
      let r := skipComment sp.1 sp.2
      if r.1 != EOF then GetTokenFuel fuel { s with lastChar := r.1, input := r.2 }
      else some (EOFToken, { s with lastChar := r.1, input := r.2 })
    else if sp.1 == EOF then some (EOFToken, { s with lastChar := sp.1, input := sp.2 })
    else
      let g := getchar sp.2
      some (sp.1, { s with lastChar := g.1, input := g.2 })

/-- Source function `GetToken()`: the token returned and the state afterwards.  One unit
of fuel for each
unread character and one more always suffice (`GetTokenFuel_length`). -/
def GetToken (s : State) : Int × State :=
  (GetTokenFuel (s.input.length + 1) s).getD (EOFToken, s)

/-- Source function `getNextToken()`: `return currentToken = GetToken();`. -/
def getNextToken (s : State) : State :=
  { (GetToken s).2 with currentToken := (GetToken s).1 }

/-! ## Abstract syntax tree -/

/-- Modelled from the spec: the expression node classes declared in `AST.h`, which is not
among the sources.  `NumberExpr { value }`, `VariableExpr { name }`,
`BinaryExpr { op, lhs, rhs }` and `CallExpr { callee, args }`, named after the
constructors called in `BasicCompiler.cpp`. -/
inductive ExprAST where
  | NumberExprAST (value : Rat)
  | VariableExprAST (name : List Char)
  | BinaryExprAST (op : Char) (lhs rhs : ExprAST)
  | CallExprAST (callee : List Char) (args : List ExprAST)

/-- Modelled from the spec: the class `PrototypeAST` of `AST.h`,
`Prototype { name, params }`. -/
structure PrototypeAST where
  name : List Char
  params : List (List Char)
deriving DecidableEq

/-- Modelled from the spec: the class `FunctionAST` of `AST.h`,
`Function { prototype, body }`. -/
structure FunctionAST where
  proto : PrototypeAST
  body : ExprAST

/-! ## Precedence table -/

/-- Entries of a `std::map<char, int>` after storing `value` under `key`; entries are
kept in the order of their keys. -/
def mapInsert (key value : Int) : List (Int × Int) → List (Int × Int)
  | [] => [(key, value)]
  | e :: m =>
    if key < e.1 then (key, value) :: e :: m
    else if key = e.1 then (key, value) :: m
    else e :: mapInsert key value m

/-- The expression `m[key]` of `std::map`: the value stored under `key` and the map
afterwards; a key that is missing is inserted with the value `0`. -/
def mapIndex (m : List (Int × Int)) (key : Int) : Int × List (Int × Int) :=
  match m.lookup key with
  | some v => (v, m)
  | none => (0, mapInsert key 0 m)

/-- Source function `GetTokPrecedence()`: the precedence of the pending binary operator
token. -/
def GetTokPrecedence (s : State) : Int × State :=
  if !isascii s.currentToken then (-1, s)
  else
    -- Make sure it's a declared binop.
    let r := mapIndex s.BinopPrecedence s.currentToken
    let s1 := { s with BinopPrecedence := r.2 }
    if r.1 ≤ 0 then (-1, s1) else (r.1, s1)

/-- The assignments `BinopPrecedence['<'] = 10; ...` at the start of `main`. -/
def installBinops (s : State) : State :=
  { s with BinopPrecedence :=
      mapInsert 94 50 (mapInsert 37 40 (mapInsert 42 40 (mapInsert 47 40
        (mapInsert 45 20 (mapInsert 43 20 (mapInsert 60 10 s.BinopPrecedence)))))) }

/-! ## Parser -/

/-- Source function `LogError(Str)` and `LogErrorP(Str)`: one line on `stderr`; the
caller returns the
null pointer. -/
def LogError (Str : String) (s : State) : State :=
  { s with stderr := s.stderr ++ ["Error: " ++ Str ++ "\n"] }

/-- Source function `ParseNumberExpr()`. -/
def ParseNumberExpr (s : State) : Option ExprAST × State :=
  (some (ExprAST.NumberExprAST s.numberValue), getNextToken s)

mutual

/-- Source function `ParseParenExpr()`: parenexpr ::= '(' expression ')'. -/
def ParseParenExpr : Nat → State → Option (Option ExprAST × State)
  | 0, _ => none
  | fuel + 1, s =>
    let s1 := getNextToken s -- eat (.
    match ParseExpression fuel s1 with
    | none => none
    | some (none, s2) => some (none, s2)
    | some (some V, s2) =>
      if s2.currentToken != 41 then some (none, LogError "expected ')'" s2)
      else some (some V, getNextToken s2) -- eat ).

/-- The loop `while (true)` of `ParseIdentifierExpr` collecting the arguments of a call;
it is left at the `break` with the arguments, or by a `return` of the null pointer. -/
def ParseIdentifierExprLoop :
    Nat → List ExprAST → State → Option (Option (List ExprAST) × State)
  | 0, _, _ => none
  | fuel + 1, Args, s =>
    match ParseExpression fuel s with
    | none => none
    | some (none, s1) => some (none, s1)
    | some (some Arg, s1) =>
      if s1.currentToken == 41 then some (some (Args ++ [Arg]), s1)
      else if s1.currentToken != 44 then
        some (none, LogError "Expected ')' or ',' in argument list" s1)
      else ParseIdentifierExprLoop fuel (Args ++ [Arg]) (getNextToken s1)

/-- Source function `ParseIdentifierExpr()`: identifier, or identifier '(' expression*
')'. -/
def ParseIdentifierExpr : Nat → State → Option (Option ExprAST × State)
  | 0, _ => none
  | fuel + 1, s =>
    let IdName := s.identifier
    let s1 := getNextToken s -- eat identifier.
    if s1.currentToken != 40 then some (some (ExprAST.VariableExprAST IdName), s1)
    else
      -- Call.
      let s2 := getNextToken s1 -- eat (
      if s2.currentToken != 41 then
        match ParseIdentifierExprLoop fuel [] s2 with
        | none => none
        | some (none, s3) => some (none, s3)
        | some (some Args, s3) => some (some (ExprAST.CallExprAST IdName Args), getNextToken s3)
      else some (some (ExprAST.CallExprAST IdName []), getNextToken s2)

/-- Source function `ParsePrimary()`: identifierexpr, numberexpr or parenexpr. -/
def ParsePrimary : Nat → State → Option (Option ExprAST × State)
  | 0, _ => none
  | fuel + 1, s =>
    if s.currentToken = identifierToken then ParseIdentifierExpr fuel s
    else if s.currentToken = numberToken then some (ParseNumberExpr s)
    else if s.currentToken = 40 then ParseParenExpr fuel s
    else some (none, LogError "unknown token when expecting an expression" s)

/-- Source function `ParseBinOpRHS(ExprPrec, LHS)`; one call is one turn of its `while
(true)` loop, the
next turn being the call that ends each branch. -/
def ParseBinOpRHS : Nat → Int → ExprAST → State → Option (Option ExprAST × State)
  | 0, _, _, _ => none
  | fuel + 1, ExprPrec, LHS, s =>
    let p := GetTokPrecedence s
    let TokPrec := p.1
    if TokPrec < ExprPrec then some (some LHS, p.2)
    else
      -- Okay, we know this is a binop.
      let BinOp := p.2.currentToken
      let s1 := getNextToken p.2 -- eat binop
      match ParsePrimary fuel s1 with
      | none => none
      | some (none, s2) => some (none, s2)
      | some (some RHS, s2) =>
        let q := GetTokPrecedence s2
        let NextPrec := q.1
        if TokPrec < NextPrec then
          match ParseBinOpRHS fuel (TokPrec + 1) RHS q.2 with
          | none => none
          | some (none, s3) => some (none, s3)
          | some (some RHS1, s3) =>
            ParseBinOpRHS fuel ExprPrec (ExprAST.BinaryExprAST (toChar BinOp) LHS RHS1) s3
        else ParseBinOpRHS fuel ExprPrec (ExprAST.BinaryExprAST (toChar BinOp) LHS RHS) q.2

/-- Source function `ParseExpression()`: expression ::= primary binoprhs. -/
def ParseExpression : Nat → State → Option (Option ExprAST × State)
  | 0, _ => none
  | fuel + 1, s =>
    match ParsePrimary fuel s with
    | none => none
    | some (none, s1) => some (none, s1)
    | some (some LHS, s1) => ParseBinOpRHS fuel 0 LHS s1

end

/-- The loop `while (getNextToken() == identifierToken) ArgNames.push_back(identifier);`
of `ParsePrototype`. -/
def ParsePrototypeLoop : Nat → List (List Char) → State → Option (List (List Char) × State)
  | 0, _, _ => none
  | fuel + 1, ArgNames, s =>
    let s1 := getNextToken s
    if s1.currentToken == identifierToken then
      ParsePrototypeLoop fuel (ArgNames ++ [s1.identifier]) s1
    else some (ArgNames, s1)

/-- Source function `ParsePrototype()`: prototype ::= id '(' id* ')'. -/
def ParsePrototype (fuel : Nat) (s : State) : Option (Option PrototypeAST × State) :=
  if s.currentToken != identifierToken then
    some (none, LogError "Expected function name in prototype" s)
  else
    let FnName := s.identifier
    let s1 := getNextToken s
    if s1.currentToken != 40 then some (none, LogError "Expected '(' in prototype" s1)
    else
      match ParsePrototypeLoop fuel [] s1 with
      | none => none
      | some (ArgNames, s2) =>
        if s2.currentToken != 41 then some (none, LogError "Expected ')' in prototype" s2)
        else some (some { name := FnName, params := ArgNames }, getNextToken s2) -- eat ')'.

/-- Source function `ParseDefinition()`: definition ::= 'def' prototype expression. -/
def ParseDefinition (fuel : Nat) (s : State) : Option (Option FunctionAST × State) :=
  let s1 := getNextToken s -- eat def.
  match ParsePrototype fuel s1 with
  | none => none
  | some (none, s2) => some (none, s2)
  | some (some Proto, s2) =>
    match ParseExpression fuel s2 with
    | none => none
    | some (none, s3) => some (none, s3)
    | some (some E, s3) => some (some { proto := Proto, body := E }, s3)

/-- Source function `ParseTopLevelExpr()`: toplevelexpr ::= expression. -/
def ParseTopLevelExpr (fuel : Nat) (s : State) : Option (Option FunctionAST × State) :=
  match ParseExpression fuel s with
  | none => none
  | some (none, s1) => some (none, s1)
  | some (some E, s1) =>
    -- Make an anonymous proto.
    some (some { proto := { name := "__anon_expr".toList, params := [] }, body := E }, s1)

/-- Source function `ParseExtern()`: external ::= 'extern' prototype. -/
def ParseExtern (fuel : Nat) (s : State) : Option (Option PrototypeAST × State) :=
  ParsePrototype fuel (getNextToken s) -- eat extern.

/-! ## Top-level parsing and driver -/

/-- The call `fprintf(stderr, text)`. -/
def fprintf (text : String) (s : State) : State :=
  { s with stderr := s.stderr ++ [text] }

/-- Source function `HandleDefinition()`. -/
def HandleDefinition (fuel : Nat) (s : State) : Option State :=
  match ParseDefinition fuel s with
  | none => none
  | some (some _, s1) => some (fprintf "Parsed a function definition.\n" s1)
  | some (none, s1) => some (getNextToken s1) -- Skip token for error recovery.

/-- Source function `HandleExtern()`. -/
def HandleExtern (fuel : Nat) (s : State) : Option State :=
  match ParseExtern fuel s with
  | none => none
  | some (some _, s1) => some (fprintf "Parsed an extern\n" s1)
  | some (none, s1) => some (getNextToken s1) -- Skip token for error recovery.

/-- Source function `HandleTopLevelExpression()`. -/
def HandleTopLevelExpression (fuel : Nat) (s : State) : Option State :=
  match ParseTopLevelExpr fuel s with
  | none => none
  | some (some _, s1) => some (fprintf "Parsed a top-level expr\n" s1)
  | some (none, s1) => some (getNextToken s1) -- Skip token for error recovery.

/-- Source function `MainLoop()`: top ::= definition | external | expression | ';'.  One
call is one turn
of the `while (true)` loop. -/
def MainLoop : Nat → State → Option State
  | 0, _ => none
  | fuel + 1, s =>
    let s0 := fprintf "ready> " s
    if s0.currentToken = EOFToken then some s0
    else if s0.currentToken = 59 then MainLoop fuel (getNextToken s0)
    else if s0.currentToken = defToken then
      match HandleDefinition fuel s0 with
      | none => none
      | some s1 => MainLoop fuel s1
    else if s0.currentToken = externToken then
      match HandleExtern fuel s0 with
      | none => none
      | some s1 => MainLoop fuel s1
    else
      match HandleTopLevelExpression fuel s0 with
      | none => none
      | some s1 => MainLoop fuel s1

/-- Source function `main()` reading `input` from standard input: the state when it
returns. -/
def main (fuel : Nat) (input : List Char) : Option State :=
  -- Install standard binary operators, prime the first token, run the main loop.
  MainLoop fuel (getNextToken (fprintf "ready> " (installBinops (initialState input))))

/-! ## Notions used to state the properties -/

/-- The declared bindings of the binary operators, `<` = 10, `+` = `-` = 20,
`/` = `*` = `%` = 40, `^` = 50, and `-1` for every other token value. -/
def declaredPrecedence (tok : Int) : Int :=
  if tok = 60 then 10
  else if tok = 43 ∨ tok = 45 then 20
  else if tok = 47 ∨ tok = 42 ∨ tok = 37 then 40
  else if tok = 94 then 50
  else -1

/-- What `GetTokPrecedence` makes of the entry stored under `key` in the table `m`. -/
def tablePrecedence (m : List (Int × Int)) (key : Int) : Int :=
  match m.lookup key with
  | some v => if v ≤ 0 then -1 else v
  | none => -1

/-- The table holds the declared operators with their precedences, and nothing else with
a positive value. -/
def TableOK (m : List (Int × Int)) : Prop :=
  ∀ k, tablePrecedence m k = declaredPrecedence k

/-- The token of the data model: a tagged value. -/
inductive Token where
  | endOfInput
  | keywordDef
  | keywordExtern
  | identifier (name : List Char)
  | number (value : Rat)
  | character (code : Int)
deriving DecidableEq

/-- The token that the value `tok` returned by `GetToken` denotes in the state `s` left by
that call. -/
def tokenOf (tok : Int) (s : State) : Token :=
  if tok = EOFToken then Token.endOfInput
  else if tok = defToken then Token.keywordDef
  else if tok = externToken then Token.keywordExtern
  else if tok = identifierToken then Token.identifier s.identifier
  else if tok = numberToken then Token.number s.numberValue
  else Token.character tok

/-- The tokens produced by `n` successive calls of `GetToken`. -/
def scan : Nat → State → List Token
  | 0, _ => []
  | n + 1, s => tokenOf (GetToken s).1 (GetToken s).2 :: scan n (GetToken s).2

/-- The call of `f` in the state `s` returns `r` and leaves the state `s1`: some amount
of fuel is enough for it. -/
def Returns {α : Type} (f : Nat → State → Option (α × State)) (s : State) (r : α)
    (s1 : State) : Prop :=
  ∃ fuel, f fuel s = some (r, s1)

/-- Number of characters in the pending character `lc` and the unread input `inp`. -/
def charsLeft (lc : Int) (inp : List Char) : Nat :=
  inp.length + (if lc = EOF then 0 else 1)

/-- Number of characters the scanner can still hand out: the unread input and the
pending character. -/
def scanSize (s : State) : Nat :=
  charsLeft s.lastChar s.input

/-- Number of tokens the parser can still see, at most: the lookahead unless it is the
end of input, and one for each character left to the scanner. -/
def parseSize (s : State) : Nat :=
  scanSize s + (if s.currentToken = EOFToken then 0 else 1)

/-- The state in which `main` enters `MainLoop` when standard input holds `text`: the
operators are installed and the first token is the lookahead (the prompt, which `main`
also prints, is left out). -/
def startState (text : String) : State :=
  getNextToken (installBinops (initialState text.toList))

/-- The relation `ReadsIdentifiers s ps s1`: the tokens that follow the lookahead of `s`
are the
identifiers `ps`, in this order; `s1` is the state reached when the last of them is the
lookahead (`s` itself when there is none). -/
def ReadsIdentifiers : State → List (List Char) → State → Prop
  | s, [], s1 => s1 = s
  | s, p :: ps, s1 =>
    (getNextToken s).currentToken = identifierToken ∧ (getNextToken s).identifier = p ∧
      ReadsIdentifiers (getNextToken s) ps s1

/-- The relation `ParsesArguments s Es s1`: from the state `s` the argument expressions
of a call,
separated by `,`, parse one after the other to the nodes `Es` (at least one), and `s1` is
the state after the last of them, with `)` as lookahead. -/
def ParsesArguments : State → List ExprAST → State → Prop
  | _, [], _ => False
  | s, [E], s1 => Returns ParseExpression s (some E) s1 ∧ s1.currentToken = 41
  | s, E :: E2 :: Es, s1 =>
    ∃ t, Returns ParseExpression s (some E) t ∧ t.currentToken = 44 ∧
      ParsesArguments (getNextToken t) (E2 :: Es) s1

/-- The relation `CallArguments s Es s1`: the argument list of a call read from the state
`s`, whose
lookahead is the token after `(`: either `)` at once and no argument, or the arguments
`Es`; `s1` is the state with the closing `)` as lookahead. -/
def CallArguments (s : State) (Es : List ExprAST) (s1 : State) : Prop :=
  match Es with
  | [] => s.currentToken = 41 ∧ s1 = s
  | E :: Es => ParsesArguments s (E :: Es) s1

/-- The relation `ThreeOperands s0 A op1 B op2 C s5`: read from the state `s0`, the
tokens are
`a op1 b op2 c`, where `a`, `b`, `c` are primary expressions that `ParsePrimary` turns
into the nodes `A`, `B`, `C` and `op1`, `op2` are single tokens; `s5` is the state after
`c`. -/
def ThreeOperands (s0 : State) (A : ExprAST) (op1 : Int) (B : ExprAST) (op2 : Int)
    (C : ExprAST) (s5 : State) : Prop :=
  ∃ s1 s3, Returns ParsePrimary s0 (some A) s1 ∧ s1.currentToken = op1 ∧
    Returns ParsePrimary (getNextToken s1) (some B) s3 ∧ s3.currentToken = op2 ∧
    Returns ParsePrimary (getNextToken s3) (some C) s5

/-- What a call that started in `s` and ended in `s1` has written to `stderr`: exactly one
line `Error: <message>` when it `failed`, nothing otherwise. -/
def Reported (s : State) (failed : Bool) (s1 : State) : Prop :=
  if failed then ∃ msg : String, s1.stderr = s.stderr ++ ["Error: " ++ msg ++ "\n"]
  else s1.stderr = s.stderr

/-- Every returning call of `f` reports exactly one error when it returns no result and
none when it returns a result. -/
def ReportsOnce {α : Type} (f : Nat → State → Option (Option α × State)) : Prop :=
  ∀ fuel s r s1, f fuel s = some (r, s1) → Reported s r.isNone s1

/-- Texts made of white space and comments only.  A comment starts at `#` and runs to the
first `\n` or `\r`, or to the end of the text; `inComment` tells whether the text starts
inside a comment. -/
def onlyBlank : Bool → List Char → Bool
  | _, [] => true
  | true, c :: cs =>
    if (c.toNat : Int) = 10 ∨ (c.toNat : Int) = 13 then onlyBlank false cs
    else onlyBlank true cs
  | false, c :: cs =>
    if isspace (c.toNat : Int) then onlyBlank false cs
    else if (c.toNat : Int) = 35 then onlyBlank true cs
    else false

/-- The table `b` holds every entry of the table `a`, and besides these only keys with
the value 0. -/
def TableKeeps (a b : List (Int × Int)) : Prop :=
  ∀ k, (∀ v, a.lookup k = some v → b.lookup k = some v) ∧
    (a.lookup k = none → b.lookup k = none ∨ b.lookup k = some 0)

mutual
/-- The property `P` holds at every node of the tree. -/
def EveryNode (P : ExprAST → Prop) : ExprAST → Prop
  | ExprAST.NumberExprAST v => P (ExprAST.NumberExprAST v)
  | ExprAST.VariableExprAST n => P (ExprAST.VariableExprAST n)
  | ExprAST.BinaryExprAST op l r =>
    P (ExprAST.BinaryExprAST op l r) ∧ EveryNode P l ∧ EveryNode P r
  | ExprAST.CallExprAST c args => P (ExprAST.CallExprAST c args) ∧ EveryNodeList P args
/-- The property `P` holds at every node of every tree of the list. -/
def EveryNodeList (P : ExprAST → Prop) : List ExprAST → Prop
  | [] => True
  | e :: es => EveryNode P e ∧ EveryNodeList P es
end

/-- Declared precedence of the operator character of a `BinaryExpr`. -/
def opPrecedence (op : Char) : Int := declaredPrecedence (op.toNat : Int)

/-- The operator of a `BinaryExpr` node, `none` for the other nodes. -/
def rootOperator : ExprAST → Option Char
  | ExprAST.BinaryExprAST op _ _ => some op
  | _ => none

/-- At a `BinaryExpr` node: its operator is a declared binary operator. -/
def DeclaredAt : ExprAST → Prop
  | ExprAST.BinaryExprAST op _ _ => 0 < opPrecedence op
  | _ => True

/-- The token stream read from the state `s`, the lookahead first, is made only of
identifiers, numeric literals and declared binary operators, up to the end of input. -/
def OperandsAndOperators (s : State) : Prop :=
  ∀ k : Nat,
    (getNextToken^[k] s).currentToken = identifierToken ∨
    (getNextToken^[k] s).currentToken = numberToken ∨
    0 < declaredPrecedence (getNextToken^[k] s).currentToken ∨
    (getNextToken^[k] s).currentToken = EOFToken

/-- At a `BinaryExpr` node: a right child that is a `BinaryExpr` has an operator of
strictly greater precedence, a left child that is a `BinaryExpr` has an operator of
greater or equal precedence. -/
def ClimbedAt : ExprAST → Prop
  | ExprAST.BinaryExprAST op l r =>
    (∀ opr, rootOperator r = some opr → opPrecedence op < opPrecedence opr) ∧
    (∀ opl, rootOperator l = some opl → opPrecedence op ≤ opPrecedence opl)
  | _ => True

/-- The state `base` with the pending character `l` and the unread input `i`. -/
def withScan (base : State) (l : Int) (i : List Char) : State :=
  { base with lastChar := l, input := i }

/-- The token that `GetToken` returns for the identifier text `ident`. -/
def keywordToken (ident : List Char) : Int :=
  if ident = ['d', 'e', 'f'] then defToken
  else if ident = ['e', 'x', 't', 'e', 'r', 'n'] then externToken
  else identifierToken

/-- The text `c` holds neither `\n` nor `\r`. -/
def NoLineEnd (c : List Char) : Prop :=
  ∀ x ∈ c, (x.toNat : Int) ≠ 10 ∧ (x.toNat : Int) ≠ 13

/-- The text `s2` is empty or begins with `\n` or `\r`. -/
def AtLineEnd (s2 : List Char) : Prop :=
  s2 = [] ∨ ∃ n t, s2 = n :: t ∧ ((n.toNat : Int) = 10 ∨ (n.toNat : Int) = 13)

/-- Two scanner positions (pending character and unread input) of which the first has
the comment `#c` still to read where the second has nothing: the comment lies ahead in
the input, or its `#` is the pending character, or it is behind and the positions are
the same. -/
def CommentRel (c s2 : List Char) (a b : Int × List Char) : Prop :=
  (a.1 = b.1 ∧ ∃ p, a.2 = p ++ '#' :: (c ++ s2) ∧ b.2 = p ++ s2) ∨
  (a.1 = 35 ∧ a.2 = c ++ s2 ∧ b = getchar s2) ∨
  a = b

/-! # Properties -/

/-! ## Characters and the precedence table -/

@[simp] theorem toChar_toNat (c : Char) : toChar (c.toNat : Int) = c := by
  simp [toChar]

theorem lookup_cons_if (k a b : Int) (m : List (Int × Int)) :
    List.lookup k ((a, b) :: m) = if k = a then some b else List.lookup k m := by
  by_cases h : k = a
  · subst h; simp [List.lookup]
  · have hb : (k == a) = false := by simpa using h
    simp [List.lookup, hb, h]

theorem installed_table (s : State) (h : s.BinopPrecedence = []) :
    (installBinops s).BinopPrecedence =
      [(37, 40), (42, 40), (43, 20), (45, 20), (47, 40), (60, 10), (94, 50)] := by
  simp [installBinops, h]; decide

theorem tablePrecedence_installed (k : Int) :
    tablePrecedence [(37, 40), (42, 40), (43, 20), (45, 20), (47, 40), (60, 10), (94, 50)] k
      = declaredPrecedence k := by
  unfold tablePrecedence declaredPrecedence
  simp only [lookup_cons_if, List.lookup_nil]
  by_cases h1 : k = 37
  · subst h1; decide
  by_cases h2 : k = 42
  · subst h2; decide
  by_cases h3 : k = 43
  · subst h3; decide
  by_cases h4 : k = 45
  · subst h4; decide
  by_cases h5 : k = 47
  · subst h5; decide
  by_cases h6 : k = 60
  · subst h6; decide
  by_cases h7 : k = 94
  · subst h7; decide
  simp [h1, h2, h3, h4, h5, h6, h7]

theorem lookup_mapInsert (key value k : Int) (m : List (Int × Int)) :
    (mapInsert key value m).lookup k = if k = key then some value else m.lookup k := by
  induction m with
  | nil => simp [mapInsert, lookup_cons_if]
  | cons e m ih =>
    obtain ⟨a, b⟩ := e
    unfold mapInsert
    by_cases h1 : key < a
    · simp [h1, lookup_cons_if]
    · by_cases h2 : key = a
      · subst h2
        by_cases h : k = key <;> simp [lookup_cons_if, h]
      · simp only [h1, h2, if_false, lookup_cons_if, ih]
        by_cases h : k = key
        · subst h; simp [h2]
        · simp [h]

theorem GetTokPrecedence_fst (s : State) :
    (GetTokPrecedence s).1 =
      if isascii s.currentToken then tablePrecedence s.BinopPrecedence s.currentToken
      else -1 := by
  unfold GetTokPrecedence tablePrecedence mapIndex
  by_cases ha : isascii s.currentToken = true
  · simp only [ha]
    cases hl : s.BinopPrecedence.lookup s.currentToken with
    | none => simp
    | some v => by_cases hv : v ≤ 0 <;> simp [hv]
  · simp [ha]

theorem declaredPrecedence_not_ascii (k : Int) (h : isascii k = false) :
    declaredPrecedence k = -1 := by
  unfold declaredPrecedence
  simp [isascii] at h
  have h1 : k ≠ 60 := by omega
  have h2 : k ≠ 43 := by omega
  have h3 : k ≠ 45 := by omega
  have h4 : k ≠ 47 := by omega
  have h5 : k ≠ 42 := by omega
  have h6 : k ≠ 37 := by omega
  have h7 : k ≠ 94 := by omega
  simp [h1, h2, h3, h4, h5, h6, h7]

theorem GetTokPrecedence_TableOK (s : State) (h : TableOK s.BinopPrecedence) :
    (GetTokPrecedence s).1 = declaredPrecedence s.currentToken := by
  rw [GetTokPrecedence_fst]
  by_cases ha : isascii s.currentToken = true
  · simp [ha, h s.currentToken]
  · simp [ha, declaredPrecedence_not_ascii s.currentToken (by simpa using ha)]

/-! ## The scanner always returns -/

theorem skipSpaces_length (lc : Int) (inp : List Char) :
    (skipSpaces lc inp).2.length ≤ inp.length := by
  induction inp generalizing lc with
  | nil => unfold skipSpaces; split <;> simp
  | cons c cs ih =>
    unfold skipSpaces
    split
    · exact Nat.le_succ_of_le (ih _)
    · simp

theorem skipComment_length_le (lc : Int) (inp : List Char) :
    (skipComment lc inp).2.length ≤ inp.length := by
  induction inp generalizing lc with
  | nil => unfold skipComment; split <;> simp
  | cons c cs ih =>
    unfold skipComment
    split
    · exact Nat.le_succ_of_le (ih _)
    · simp

theorem skipComment_length (lc : Int) (inp : List Char)
    (h : (lc != EOF && lc != 10 && lc != 13) = true)
    (hr : (skipComment lc inp).1 ≠ EOF) :
    (skipComment lc inp).2.length < inp.length := by
  cases inp with
  | nil => simp [skipComment, h] at hr
  | cons c cs =>
    simp only [skipComment, h, if_true, List.length_cons]
    exact Nat.lt_succ_of_le (skipComment_length_le _ _)

theorem GetTokenFuel_succ (fuel : Nat) (s : State) (r : Int × State)
    (h : GetTokenFuel fuel s = some r) : GetTokenFuel (fuel + 1) s = some r := by
  induction fuel generalizing s with
  | zero => simp [GetTokenFuel] at h
  | succ n ih =>
    unfold GetTokenFuel at h ⊢
    simp only at h ⊢
    split
    · simpa [*] using h
    · split
      · simpa [*] using h
      · split
        · split
          · rename_i h1 h2 h3 h4
            simp only [h1, h2, h3, h4, if_true] at h
            exact ih _ h
          · simpa [*] using h
        · simpa [*] using h

theorem GetTokenFuel_mono (n m : Nat) (s : State) (r : Int × State)
    (h : GetTokenFuel n s = some r) (hnm : n ≤ m) : GetTokenFuel m s = some r := by
  induction hnm with
  | refl => exact h
  | step _ ih => exact GetTokenFuel_succ _ _ _ ih

/-- The recursion of `GetToken` after a comment is at most as deep as the unread input
is long: the scanner returns a token on every input. -/
theorem GetTokenFuel_length (fuel : Nat) (s : State) (h : s.input.length < fuel) :
    ∃ r, GetTokenFuel fuel s = some r := by
  induction fuel generalizing s with
  | zero => omega
  | succ n ih =>
    unfold GetTokenFuel
    simp only
    split
    · split
      · exact ⟨_, rfl⟩
      · split <;> exact ⟨_, rfl⟩
    · split
      · exact ⟨_, rfl⟩
      · split
        · split
          · rename_i h1 h2 h3 h4
            apply ih
            have hc : (skipSpaces s.lastChar s.input).1 = 35 := by simpa using h3
            have := skipComment_length (skipSpaces s.lastChar s.input).1
              (skipSpaces s.lastChar s.input).2 (by rw [hc]; decide) (by simpa using h4)
            have := skipSpaces_length s.lastChar s.input
            simp only
            omega
          · exact ⟨_, rfl⟩
        · split <;> exact ⟨_, rfl⟩

theorem GetToken_of_fuel (fuel : Nat) (s : State) (r : Int × State)
    (h : GetTokenFuel fuel s = some r) : GetToken s = r := by
  obtain ⟨r1, hr1⟩ := GetTokenFuel_length (s.input.length + 1) s (Nat.lt_succ_self _)
  have h1 := GetTokenFuel_mono _ (max fuel (s.input.length + 1)) s r h (le_max_left _ _)
  have h2 := GetTokenFuel_mono _ (max fuel (s.input.length + 1)) s r1 hr1 (le_max_right _ _)
  rw [h1] at h2
  injection h2 with h2
  simp [GetToken, hr1, h2]

/-- The body of `GetToken` as it is written in the source, without fuel. -/
theorem GetToken_unfold (s : State) :
    GetToken s =
      (let sp := skipSpaces s.lastChar s.input
       if isalpha sp.1 then
         let r := readIdentifier [toChar sp.1] sp.2
         let s1 := { s with identifier := r.1, lastChar := r.2.1, input := r.2.2 }
         if r.1 = ['d', 'e', 'f'] then (defToken, s1)
         else if r.1 = ['e', 'x', 't', 'e', 'r', 'n'] then (externToken, s1)
         else (identifierToken, s1)
       else if isdigit sp.1 || sp.1 == 46 then
         let r := readNumber [toChar sp.1] sp.1 sp.2
         (numberToken, { s with numberValue := strtod r.1, lastChar := r.2.1, input := r.2.2 })
       else if sp.1 == 35 then
         let r := skipComment sp.1 sp.2
         if r.1 != EOF then GetToken { s with lastChar := r.1, input := r.2 }
         else (EOFToken, { s with lastChar := r.1, input := r.2 })
       else if sp.1 == EOF then (EOFToken, { s with lastChar := sp.1, input := sp.2 })
       else
         let g := getchar sp.2
         (sp.1, { s with lastChar := g.1, input := g.2 })) := by
  obtain ⟨r1, hr1⟩ := GetTokenFuel_length (s.input.length + 1) s (Nat.lt_succ_self _)
  rw [GetToken_of_fuel _ _ _ hr1]
  unfold GetTokenFuel at hr1
  simp only at hr1 ⊢
  split
  · split
    · simp_all
    · split <;> simp_all
  · split
    · simp_all
    · split
      · split
        · rename_i h1 h2 h3 h4
          simp only [h1, h2, h3, h4, if_true] at hr1
          exact (GetToken_of_fuel _ _ _ hr1).symm
        · simp_all
      · split <;> simp_all

/-! ## What a call of the scanner consumes -/

theorem readIdentifier_eq (acc inp : List Char) :
    readIdentifier acc inp =
      (acc ++ inp.takeWhile (fun c => isalnum (c.toNat : Int)),
        getchar (inp.dropWhile (fun c => isalnum (c.toNat : Int)))) := by
  induction inp generalizing acc with
  | nil => simp [readIdentifier, getchar]
  | cons c cs ih =>
    by_cases h : isalnum (c.toNat : Int) = true
    · simp [readIdentifier, h, ih, List.takeWhile_cons, List.dropWhile_cons]
    · simp [readIdentifier, h, List.takeWhile_cons, List.dropWhile_cons, getchar]

theorem charsLeft_toNat (c : Char) (inp : List Char) :
    charsLeft (c.toNat : Int) inp = inp.length + 1 := by
  have : (c.toNat : Int) ≠ EOF := by unfold EOF; omega
  simp [charsLeft, this]

theorem charsLeft_le (lc : Int) (inp : List Char) : charsLeft lc inp ≤ inp.length + 1 := by
  unfold charsLeft; split <;> omega

theorem charsLeft_getchar (inp : List Char) :
    charsLeft (getchar inp).1 (getchar inp).2 = inp.length := by
  cases inp with
  | nil => simp [getchar, charsLeft]
  | cons c cs => simp [getchar, charsLeft_toNat]

theorem charsLeft_skipSpaces (lc : Int) (inp : List Char) :
    charsLeft (skipSpaces lc inp).1 (skipSpaces lc inp).2 ≤ charsLeft lc inp := by
  induction inp generalizing lc with
  | nil =>
    unfold skipSpaces
    split
    · simp [charsLeft]
    · exact le_refl _
  | cons c cs ih =>
    unfold skipSpaces
    split
    · rename_i h
      have hne : lc ≠ EOF := by
        intro h1; rw [h1] at h; revert h; decide
      have := ih (c.toNat : Int)
      rw [charsLeft_toNat] at this
      simp only [charsLeft, hne, if_false, List.length_cons] at this ⊢
      omega
    · exact le_refl _

theorem charsLeft_skipComment (lc : Int) (inp : List Char) :
    charsLeft (skipComment lc inp).1 (skipComment lc inp).2 ≤ charsLeft lc inp := by
  induction inp generalizing lc with
  | nil =>
    unfold skipComment
    split
    · simp [charsLeft]
    · exact le_refl _
  | cons c cs ih =>
    unfold skipComment
    split
    · rename_i h
      have hne : lc ≠ EOF := by
        intro h1; rw [h1] at h; revert h; decide
      have := ih (c.toNat : Int)
      rw [charsLeft_toNat] at this
      simp only [charsLeft, hne, if_false, List.length_cons] at this ⊢
      omega
    · exact le_refl _

theorem charsLeft_skipComment_lt (lc : Int) (inp : List Char)
    (h : (lc != EOF && lc != 10 && lc != 13) = true) :
    charsLeft (skipComment lc inp).1 (skipComment lc inp).2 < charsLeft lc inp := by
  have hne : lc ≠ EOF := by
    intro h1; rw [h1] at h; revert h; decide
  cases inp with
  | nil => simp [skipComment, h, charsLeft, hne]
  | cons c cs =>
    have := charsLeft_skipComment (c.toNat : Int) cs
    rw [charsLeft_toNat] at this
    simp only [skipComment, h, if_true]
    simp only [charsLeft, hne, if_false, List.length_cons] at this ⊢
    omega

theorem charsLeft_readIdentifier (acc : List Char) (inp : List Char) :
    charsLeft (readIdentifier acc inp).2.1 (readIdentifier acc inp).2.2 ≤ inp.length := by
  rw [readIdentifier_eq]
  simp only [charsLeft_getchar]
  exact (List.dropWhile_sublist _).length_le

theorem charsLeft_readNumber (acc : List Char) (lc : Int) (inp : List Char) :
    charsLeft (readNumber acc lc inp).2.1 (readNumber acc lc inp).2.2 ≤ charsLeft lc inp := by
  induction inp generalizing lc acc with
  | nil =>
    unfold readNumber
    split
    · simp [charsLeft]
    · exact le_refl _
  | cons c cs ih =>
    unfold readNumber
    split
    · rename_i h
      have hne : lc ≠ EOF := by
        intro h1; rw [h1] at h; revert h; decide
      have := ih (acc ++ [toChar lc]) (c.toNat : Int)
      rw [charsLeft_toNat] at this
      simp only [charsLeft, hne, if_false, List.length_cons] at this ⊢
      omega
    · exact le_refl _

theorem charsLeft_readNumber_lt (acc : List Char) (lc : Int) (inp : List Char)
    (h : (isdigit lc || lc == 46) = true) :
    charsLeft (readNumber acc lc inp).2.1 (readNumber acc lc inp).2.2 < charsLeft lc inp := by
  have hne : lc ≠ EOF := by
    intro h1; rw [h1] at h; revert h; decide
  cases inp with
  | nil => simp [readNumber, h, charsLeft, hne]
  | cons c cs =>
    have := charsLeft_readNumber (acc ++ [toChar lc]) (c.toNat : Int) cs
    rw [charsLeft_toNat] at this
    simp only [readNumber, h, if_true]
    simp only [charsLeft, hne, if_false, List.length_cons] at this ⊢
    omega

/-- What `GetToken` leaves alone, and what it consumes: a call never adds characters, and
a call that returns a token other than end of input consumes at least one. -/
theorem GetTokenFuel_effect (fuel : Nat) (s : State) (r : Int × State)
    (h : GetTokenFuel fuel s = some r) :
    r.2.BinopPrecedence = s.BinopPrecedence ∧ r.2.stderr = s.stderr ∧
    r.2.currentToken = s.currentToken ∧
    charsLeft r.2.lastChar r.2.input ≤ charsLeft s.lastChar s.input ∧
    (r.1 ≠ EOFToken → charsLeft r.2.lastChar r.2.input < charsLeft s.lastChar s.input) := by
  induction fuel generalizing s with
  | zero => simp [GetTokenFuel] at h
  | succ n ih =>
    unfold GetTokenFuel at h
    simp only at h
    have hsp := charsLeft_skipSpaces s.lastChar s.input
    split at h
    · rename_i ha
      have hne : (skipSpaces s.lastChar s.input).1 ≠ EOF := by
        intro h1; rw [h1] at ha; revert ha; decide
      have hid := charsLeft_readIdentifier [toChar (skipSpaces s.lastChar s.input).1]
        (skipSpaces s.lastChar s.input).2
      have hlt : charsLeft
          (readIdentifier [toChar (skipSpaces s.lastChar s.input).1]
            (skipSpaces s.lastChar s.input).2).2.1
          (readIdentifier [toChar (skipSpaces s.lastChar s.input).1]
            (skipSpaces s.lastChar s.input).2).2.2 < charsLeft s.lastChar s.input := by
        have : charsLeft (skipSpaces s.lastChar s.input).1 (skipSpaces s.lastChar s.input).2
            = (skipSpaces s.lastChar s.input).2.length + 1 := by
          simp [charsLeft, hne]
        omega
      split at h
      · injection h with h; subst h
        exact ⟨rfl, rfl, rfl, le_of_lt hlt, fun _ => hlt⟩
      · split at h
        · injection h with h; subst h
          exact ⟨rfl, rfl, rfl, le_of_lt hlt, fun _ => hlt⟩
        · injection h with h; subst h
          exact ⟨rfl, rfl, rfl, le_of_lt hlt, fun _ => hlt⟩
    · split at h
      · rename_i hd
        injection h with h; subst h
        have hlt := charsLeft_readNumber_lt [toChar (skipSpaces s.lastChar s.input).1]
          (skipSpaces s.lastChar s.input).1 (skipSpaces s.lastChar s.input).2 hd
        exact ⟨rfl, rfl, rfl, by simp only; omega, fun _ => by simp only; omega⟩
      · split at h
        · rename_i hc
          have hc35 : (skipSpaces s.lastChar s.input).1 = 35 := by simpa using hc
          have hlt := charsLeft_skipComment_lt (skipSpaces s.lastChar s.input).1
            (skipSpaces s.lastChar s.input).2 (by rw [hc35]; decide)
          split at h
          · obtain ⟨h1, h2, h3, h4, h5⟩ := ih _ h
            simp only at h1 h2 h3 h4 h5
            exact ⟨h1, h2, h3, by omega, fun hr => by have := h5 hr; omega⟩
          · injection h with h; subst h
            exact ⟨rfl, rfl, rfl, by simp only; omega, fun _ => by simp only; omega⟩
        · split at h
          · injection h with h; subst h
            exact ⟨rfl, rfl, rfl, hsp, fun hr => absurd rfl hr⟩
          · rename_i hne
            have hne1 : (skipSpaces s.lastChar s.input).1 ≠ EOF := by simpa using hne
            injection h with h; subst h
            have hg := charsLeft_getchar (skipSpaces s.lastChar s.input).2
            have : charsLeft (skipSpaces s.lastChar s.input).1 (skipSpaces s.lastChar s.input).2
                = (skipSpaces s.lastChar s.input).2.length + 1 := by
              simp [charsLeft, hne1]
            exact ⟨rfl, rfl, rfl, by simp only; omega, fun _ => by simp only; omega⟩

theorem GetTokPrecedence_snd (s : State) :
    (GetTokPrecedence s).2 =
      { s with BinopPrecedence := (GetTokPrecedence s).2.BinopPrecedence } := by
  unfold GetTokPrecedence
  split
  · rfl
  · simp only
    split <;> rfl

theorem tablePrecedence_mapIndex (m : List (Int × Int)) (key k : Int) :
    tablePrecedence (mapIndex m key).2 k = tablePrecedence m k := by
  unfold mapIndex
  cases hl : m.lookup key with
  | some v => rfl
  | none =>
    simp only
    unfold tablePrecedence
    rw [lookup_mapInsert]
    by_cases hk : k = key
    · subst hk; simp [hl]
    · simp [hk]

theorem tablePrecedence_GetTokPrecedence (s : State) (k : Int) :
    tablePrecedence (GetTokPrecedence s).2.BinopPrecedence k
      = tablePrecedence s.BinopPrecedence k := by
  unfold GetTokPrecedence
  split
  · rfl
  · simp only
    split <;> exact tablePrecedence_mapIndex _ _ _

theorem GetTokPrecedence_pos (s : State) (h : 0 < (GetTokPrecedence s).1) :
    (GetTokPrecedence s).2 = s := by
  unfold GetTokPrecedence at h ⊢
  split
  · rfl
  · rename_i ha
    simp only [ha] at h
    unfold mapIndex at h ⊢
    cases hl : s.BinopPrecedence.lookup s.currentToken with
    | some v => simp only; split <;> rfl
    | none => simp [hl] at h

theorem GetTokPrecedence_idem (s : State) :
    GetTokPrecedence (GetTokPrecedence s).2 = GetTokPrecedence s := by
  by_cases ha : isascii s.currentToken = true
  · cases hl : s.BinopPrecedence.lookup s.currentToken with
    | some v =>
      have : (GetTokPrecedence s).2 = s := by
        simp only [GetTokPrecedence, ha, mapIndex, hl]
        simp only [Bool.not_true, Bool.false_eq_true, if_false]
        split <;> rfl
      rw [this]
    | none =>
      have h2 : (GetTokPrecedence s).2
          = { s with BinopPrecedence := mapInsert s.currentToken 0 s.BinopPrecedence } := by
        simp [GetTokPrecedence, ha, mapIndex, hl]
      have h1 : GetTokPrecedence s
          = (-1, { s with BinopPrecedence := mapInsert s.currentToken 0 s.BinopPrecedence }) := by
        simp [GetTokPrecedence, ha, mapIndex, hl]
      rw [h2, h1]
      simp [GetTokPrecedence, ha, mapIndex, lookup_mapInsert]
  · have : (GetTokPrecedence s).2 = s := by
      simp [GetTokPrecedence, ha]
    rw [this]

theorem GetToken_effect (s : State) :
    (GetToken s).2.BinopPrecedence = s.BinopPrecedence ∧ (GetToken s).2.stderr = s.stderr ∧
    (GetToken s).2.currentToken = s.currentToken ∧
    scanSize (GetToken s).2 ≤ scanSize s ∧
    ((GetToken s).1 ≠ EOFToken → scanSize (GetToken s).2 < scanSize s) := by
  obtain ⟨r, hr⟩ := GetTokenFuel_length (s.input.length + 1) s (Nat.lt_succ_self _)
  rw [GetToken_of_fuel _ _ _ hr]
  exact GetTokenFuel_effect _ _ _ hr

@[simp] theorem getNextToken_BinopPrecedence (s : State) :
    (getNextToken s).BinopPrecedence = s.BinopPrecedence := (GetToken_effect s).1

@[simp] theorem getNextToken_stderr (s : State) :
    (getNextToken s).stderr = s.stderr := (GetToken_effect s).2.1

theorem parseSize_getNextToken (s : State) :
    parseSize (getNextToken s) ≤ parseSize s ∧
    (s.currentToken ≠ EOFToken → parseSize (getNextToken s) < parseSize s) := by
  obtain ⟨_, _, _, h4, h5⟩ := GetToken_effect s
  have e : scanSize (getNextToken s) = scanSize (GetToken s).2 := rfl
  have e2 : (getNextToken s).currentToken = (GetToken s).1 := rfl
  unfold parseSize
  rw [e, e2]
  by_cases ht : (GetToken s).1 = EOFToken
  · simp only [ht, if_true]
    constructor
    · omega
    · intro hc; simp only [hc, if_false]; omega
  · have := h5 ht
    simp only [ht, if_false]
    constructor
    · split <;> omega
    · intro hc; simp only [hc, if_false]; omega

theorem parseSize_GetTokPrecedence (s : State) :
    parseSize (GetTokPrecedence s).2 = parseSize s := by
  rw [GetTokPrecedence_snd]; rfl

@[simp] theorem GetTokPrecedence_currentToken (s : State) :
    (GetTokPrecedence s).2.currentToken = s.currentToken := by
  rw [GetTokPrecedence_snd]

@[simp] theorem GetTokPrecedence_stderr (s : State) :
    (GetTokPrecedence s).2.stderr = s.stderr := by
  rw [GetTokPrecedence_snd]

/-! ## Fuel of the parsing functions -/

/-- One more unit of fuel does not change what the parsing functions return. -/
theorem parse_fuel_succ (n : Nat) :
    (∀ s r, ParseParenExpr n s = some r → ParseParenExpr (n + 1) s = some r) ∧
    (∀ Args s r, ParseIdentifierExprLoop n Args s = some r →
      ParseIdentifierExprLoop (n + 1) Args s = some r) ∧
    (∀ s r, ParseIdentifierExpr n s = some r → ParseIdentifierExpr (n + 1) s = some r) ∧
    (∀ s r, ParsePrimary n s = some r → ParsePrimary (n + 1) s = some r) ∧
    (∀ p L s r, ParseBinOpRHS n p L s = some r → ParseBinOpRHS (n + 1) p L s = some r) ∧
    (∀ s r, ParseExpression n s = some r → ParseExpression (n + 1) s = some r) := by
  induction n with
  | zero =>
    refine ⟨?_, ?_, ?_, ?_, ?_, ?_⟩ <;> intros <;> rename_i h <;>
      simp [ParseParenExpr, ParseIdentifierExprLoop, ParseIdentifierExpr, ParsePrimary,
        ParseBinOpRHS, ParseExpression] at h
  | succ n ih =>
    obtain ⟨ihParen, ihLoop, ihIdent, ihPrim, ihBin, ihExpr⟩ := ih
    refine ⟨?_, ?_, ?_, ?_, ?_, ?_⟩
    · intro s r h
      rw [ParseParenExpr] at h ⊢
      cases hE : ParseExpression n (getNextToken s) with
      | none => simp [hE] at h
      | some x => rw [ihExpr _ _ hE]; simpa [hE] using h
    · intro Args s r h
      rw [ParseIdentifierExprLoop] at h ⊢
      cases hE : ParseExpression n s with
      | none => simp [hE] at h
      | some x =>
        rw [ihExpr _ _ hE]
        rw [hE] at h
        obtain ⟨o, s1⟩ := x
        cases o with
        | none => simpa using h
        | some Arg =>
          simp only at h ⊢
          split
          · simp_all
          · split
            · simp_all
            · apply ihLoop
              simpa [*] using h
    · intro s r h
      rw [ParseIdentifierExpr] at h ⊢
      simp only at h ⊢
      split
      · simp_all
      · split
        · cases hE : ParseIdentifierExprLoop n [] (getNextToken (getNextToken s)) with
          | none => simp_all
          | some x => rw [ihLoop _ _ _ hE]; simp_all
        · simp_all
    · intro s r h
      rw [ParsePrimary] at h ⊢
      split
      · apply ihIdent; simpa [*] using h
      · split
        · simp_all
        · split
          · apply ihParen; simpa [*] using h
          · simp_all
    · intro p L s r h
      rw [ParseBinOpRHS] at h ⊢
      simp only at h ⊢
      split
      · simp_all
      · rename_i hlt
        simp only [hlt, if_false] at h
        cases hP : ParsePrimary n (getNextToken (GetTokPrecedence s).2) with
        | none => simp [hP] at h
        | some x =>
          rw [ihPrim _ _ hP]
          rw [hP] at h
          obtain ⟨o, s2⟩ := x
          cases o with
          | none => simpa using h
          | some RHS =>
            simp only at h ⊢
            split
            · rename_i hlt2
              simp only [hlt2, if_true] at h
              cases hB : ParseBinOpRHS n ((GetTokPrecedence s).1 + 1) RHS
                  (GetTokPrecedence s2).2 with
              | none => simp [hB] at h
              | some y =>
                rw [ihBin _ _ _ _ hB]
                rw [hB] at h
                obtain ⟨o2, s3⟩ := y
                cases o2 with
                | none => simpa using h
                | some RHS1 => exact ihBin _ _ _ _ h
            · rename_i hlt2
              simp only [hlt2, if_false] at h
              exact ihBin _ _ _ _ h
    · intro s r h
      rw [ParseExpression] at h ⊢
      cases hP : ParsePrimary n s with
      | none => simp [hP] at h
      | some x =>
        rw [ihPrim _ _ hP]
        rw [hP] at h
        obtain ⟨o, s1⟩ := x
        cases o with
        | none => simpa using h
        | some LHS => exact ihBin _ _ _ _ h

theorem parse_fuel_mono (n m : Nat) (hnm : n ≤ m) :
    (∀ s r, ParseParenExpr n s = some r → ParseParenExpr m s = some r) ∧
    (∀ Args s r, ParseIdentifierExprLoop n Args s = some r →
      ParseIdentifierExprLoop m Args s = some r) ∧
    (∀ s r, ParseIdentifierExpr n s = some r → ParseIdentifierExpr m s = some r) ∧
    (∀ s r, ParsePrimary n s = some r → ParsePrimary m s = some r) ∧
    (∀ p L s r, ParseBinOpRHS n p L s = some r → ParseBinOpRHS m p L s = some r) ∧
    (∀ s r, ParseExpression n s = some r → ParseExpression m s = some r) := by
  induction hnm with
  | refl => exact ⟨fun _ _ h => h, fun _ _ _ h => h, fun _ _ h => h, fun _ _ h => h,
      fun _ _ _ _ h => h, fun _ _ h => h⟩
  | step _ ih =>
    obtain ⟨h1, h2, h3, h4, h5, h6⟩ := ih
    obtain ⟨g1, g2, g3, g4, g5, g6⟩ := parse_fuel_succ _
    exact ⟨fun s r h => g1 s r (h1 s r h), fun a s r h => g2 a s r (h2 a s r h),
      fun s r h => g3 s r (h3 s r h), fun s r h => g4 s r (h4 s r h),
      fun p L s r h => g5 p L s r (h5 p L s r h), fun s r h => g6 s r (h6 s r h)⟩

theorem ParsePrimary_mono {n m : Nat} {s : State} {r : Option ExprAST × State}
    (h : ParsePrimary n s = some r) (hnm : n ≤ m) : ParsePrimary m s = some r :=
  (parse_fuel_mono n m hnm).2.2.2.1 s r h

theorem ParseExpression_mono {n m : Nat} {s : State} {r : Option ExprAST × State}
    (h : ParseExpression n s = some r) (hnm : n ≤ m) : ParseExpression m s = some r :=
  (parse_fuel_mono n m hnm).2.2.2.2.2 s r h

theorem ParseBinOpRHS_mono {n m : Nat} {p : Int} {L : ExprAST} {s : State}
    {r : Option ExprAST × State}
    (h : ParseBinOpRHS n p L s = some r) (hnm : n ≤ m) : ParseBinOpRHS m p L s = some r :=
  (parse_fuel_mono n m hnm).2.2.2.2.1 p L s r h

theorem ParseIdentifierExprLoop_mono {n m : Nat} {Args : List ExprAST} {s : State}
    {r : Option (List ExprAST) × State}
    (h : ParseIdentifierExprLoop n Args s = some r) (hnm : n ≤ m) :
    ParseIdentifierExprLoop m Args s = some r :=
  (parse_fuel_mono n m hnm).2.1 Args s r h

/-- A relation between states that is transitive and holds across the three
elementary steps of the parser holds between the state in which a parsing function is
called and the state in which it returns. -/
theorem parse_relates (R : State → State → Prop)
    (htrans : ∀ a b c, R a b → R b c → R a c)
    (hnext : ∀ s, R s (getNextToken s)) (hprec : ∀ s, R s (GetTokPrecedence s).2)
    (hlog : ∀ msg s, R s (LogError msg s)) (n : Nat) :
    (∀ s r, ParseParenExpr n s = some r → R s r.2) ∧
    (∀ Args s r, ParseIdentifierExprLoop n Args s = some r → R s r.2) ∧
    (∀ s r, ParseIdentifierExpr n s = some r → R s r.2) ∧
    (∀ s r, ParsePrimary n s = some r → R s r.2) ∧
    (∀ p L s r, ParseBinOpRHS n p L s = some r → R s r.2) ∧
    (∀ s r, ParseExpression n s = some r → R s r.2) := by
  induction n with
  | zero =>
    refine ⟨?_, ?_, ?_, ?_, ?_, ?_⟩ <;> intros <;> rename_i h <;>
      simp [ParseParenExpr, ParseIdentifierExprLoop, ParseIdentifierExpr, ParsePrimary,
        ParseBinOpRHS, ParseExpression] at h
  | succ n ih =>
    obtain ⟨ihParen, ihLoop, ihIdent, ihPrim, ihBin, ihExpr⟩ := ih
    refine ⟨?_, ?_, ?_, ?_, ?_, ?_⟩
    · intro s r h
      rw [ParseParenExpr] at h
      cases hE : ParseExpression n (getNextToken s) with
      | none => simp [hE] at h
      | some x =>
        have h1 := htrans _ _ _ (hnext s) (ihExpr _ _ hE)
        rw [hE] at h
        obtain ⟨o, s2⟩ := x
        cases o with
        | none => simp only [Option.some.injEq] at h; subst h; exact h1
        | some V =>
          simp only at h
          split at h
          · simp only [Option.some.injEq] at h; subst h
            exact htrans _ _ _ h1 (hlog _ _)
          · simp only [Option.some.injEq] at h; subst h
            exact htrans _ _ _ h1 (hnext _)
    · intro Args s r h
      rw [ParseIdentifierExprLoop] at h
      cases hE : ParseExpression n s with
      | none => simp [hE] at h
      | some x =>
        have h1 := ihExpr _ _ hE
        rw [hE] at h
        obtain ⟨o, s1⟩ := x
        cases o with
        | none => simp only [Option.some.injEq] at h; subst h; exact h1
        | some Arg =>
          simp only at h
          split at h
          · simp only [Option.some.injEq] at h; subst h; exact h1
          · split at h
            · simp only [Option.some.injEq] at h; subst h
              exact htrans _ _ _ h1 (hlog _ _)
            · exact htrans _ _ _ h1 (htrans _ _ _ (hnext _) (ihLoop _ _ _ h))
    · intro s r h
      rw [ParseIdentifierExpr] at h
      simp only at h
      split at h
      · simp only [Option.some.injEq] at h; subst h; exact hnext _
      · have h2 := htrans _ _ _ (hnext s) (hnext (getNextToken s))
        split at h
        · cases hE : ParseIdentifierExprLoop n [] (getNextToken (getNextToken s)) with
          | none => simp [hE] at h
          | some x =>
            have h3 := htrans _ _ _ h2 (ihLoop _ _ _ hE)
            rw [hE] at h
            obtain ⟨o, s3⟩ := x
            cases o with
            | none => simp only [Option.some.injEq] at h; subst h; exact h3
            | some Args =>
              simp only [Option.some.injEq] at h; subst h
              exact htrans _ _ _ h3 (hnext _)
        · simp only [Option.some.injEq] at h; subst h
          exact htrans _ _ _ h2 (hnext _)
    · intro s r h
      rw [ParsePrimary] at h
      split at h
      · exact ihIdent _ _ h
      · split at h
        · simp only [Option.some.injEq] at h; subst h; exact hnext _
        · split at h
          · exact ihParen _ _ h
          · simp only [Option.some.injEq] at h; subst h; exact hlog _ _
    · intro p L s r h
      rw [ParseBinOpRHS] at h
      simp only at h
      split at h
      · simp only [Option.some.injEq] at h; subst h; exact hprec _
      · cases hP : ParsePrimary n (getNextToken (GetTokPrecedence s).2) with
        | none => simp [hP] at h
        | some x =>
          have h1 := htrans _ _ _ (htrans _ _ _ (hprec s) (hnext _)) (ihPrim _ _ hP)
          rw [hP] at h
          obtain ⟨o, s2⟩ := x
          cases o with
          | none => simp only [Option.some.injEq] at h; subst h; exact h1
          | some RHS =>
            simp only at h
            have h2 := htrans _ _ _ h1 (hprec s2)
            split at h
            · cases hB : ParseBinOpRHS n ((GetTokPrecedence s).1 + 1) RHS
                  (GetTokPrecedence s2).2 with
              | none => simp [hB] at h
              | some y =>
                have h3 := htrans _ _ _ h2 (ihBin _ _ _ _ hB)
                rw [hB] at h
                obtain ⟨o2, s3⟩ := y
                cases o2 with
                | none => simp only [Option.some.injEq] at h; subst h; exact h3
                | some RHS1 => exact htrans _ _ _ h3 (ihBin _ _ _ _ h)
            · exact htrans _ _ _ h2 (ihBin _ _ _ _ h)
    · intro s r h
      rw [ParseExpression] at h
      cases hP : ParsePrimary n s with
      | none => simp [hP] at h
      | some x =>
        have h1 := ihPrim _ _ hP
        rw [hP] at h
        obtain ⟨o, s1⟩ := x
        cases o with
        | none => simp only [Option.some.injEq] at h; subst h; exact h1
        | some LHS => exact htrans _ _ _ h1 (ihBin _ _ _ _ h)

/-! ## The precedence table during parsing -/

theorem parse_tablePrecedence (n : Nat) :
    (∀ s r, ParseParenExpr n s = some r →
      ∀ k, tablePrecedence r.2.BinopPrecedence k = tablePrecedence s.BinopPrecedence k) ∧
    (∀ Args s r, ParseIdentifierExprLoop n Args s = some r →
      ∀ k, tablePrecedence r.2.BinopPrecedence k = tablePrecedence s.BinopPrecedence k) ∧
    (∀ s r, ParseIdentifierExpr n s = some r →
      ∀ k, tablePrecedence r.2.BinopPrecedence k = tablePrecedence s.BinopPrecedence k) ∧
    (∀ s r, ParsePrimary n s = some r →
      ∀ k, tablePrecedence r.2.BinopPrecedence k = tablePrecedence s.BinopPrecedence k) ∧
    (∀ p L s r, ParseBinOpRHS n p L s = some r →
      ∀ k, tablePrecedence r.2.BinopPrecedence k = tablePrecedence s.BinopPrecedence k) ∧
    (∀ s r, ParseExpression n s = some r →
      ∀ k, tablePrecedence r.2.BinopPrecedence k = tablePrecedence s.BinopPrecedence k) :=
  parse_relates
    (fun a b => ∀ k, tablePrecedence b.BinopPrecedence k = tablePrecedence a.BinopPrecedence k)
    (fun _ _ _ h1 h2 k => (h2 k).trans (h1 k))
    (fun s k => by rw [getNextToken_BinopPrecedence])
    (fun s k => tablePrecedence_GetTokPrecedence s k)
    (fun _ _ _ => rfl) n

theorem ParsePrimary_TableOK {s : State} {r : Option ExprAST} {s1 : State}
    (h : Returns ParsePrimary s r s1) (hok : TableOK s.BinopPrecedence) :
    TableOK s1.BinopPrecedence := by
  obtain ⟨n, hn⟩ := h
  intro k
  rw [(parse_tablePrecedence n).2.2.2.1 s _ hn k]
  exact hok k

theorem getNextToken_TableOK {s : State} (hok : TableOK s.BinopPrecedence) :
    TableOK (getNextToken s).BinopPrecedence := by
  rw [getNextToken_BinopPrecedence]; exact hok

/-- At a declared operator the lookup returns its precedence and changes nothing. -/
theorem GetTokPrecedence_operator (s : State) (hok : TableOK s.BinopPrecedence)
    (hpos : 0 < declaredPrecedence s.currentToken) :
    GetTokPrecedence s = (declaredPrecedence s.currentToken, s) := by
  have h1 := GetTokPrecedence_TableOK s hok
  have h2 := GetTokPrecedence_pos s (by rw [h1]; exact hpos)
  exact Prod.ext h1 h2

/-- The loop of `ParseBinOpRHS` is left when the lookahead binds less tightly. -/
theorem ParseBinOpRHS_stop (n : Nat) (p : Int) (L : ExprAST) (s : State)
    (h : (GetTokPrecedence s).1 < p) :
    ParseBinOpRHS (n + 1) p L s = some (some L, (GetTokPrecedence s).2) := by
  rw [ParseBinOpRHS]; simp [h]

/-- Grouping to the right: `A op1 (B op2 C)` when `op2` binds more tightly than `op1`. -/
theorem ParseExpression_groups_right (s0 s5 : State) (A B C : ExprAST) (op1 op2 : Int)
    (hok : TableOK s0.BinopPrecedence)
    (h1 : 0 < declaredPrecedence op1)
    (h12 : declaredPrecedence op1 < declaredPrecedence op2)
    (hend : declaredPrecedence s5.currentToken = -1)
    (h : ThreeOperands s0 A op1 B op2 C s5) :
    Returns ParseExpression s0
      (some (ExprAST.BinaryExprAST (toChar op1) A (ExprAST.BinaryExprAST (toChar op2) B C)))
      (GetTokPrecedence s5).2 := by
  obtain ⟨s1, s3, ⟨nA, hA⟩, ht1, ⟨nB, hB⟩, ht3, ⟨nC, hC⟩⟩ := h
  have ok1 : TableOK s1.BinopPrecedence := ParsePrimary_TableOK ⟨nA, hA⟩ hok
  have ok3 : TableOK s3.BinopPrecedence :=
    ParsePrimary_TableOK ⟨nB, hB⟩ (getNextToken_TableOK ok1)
  have ok5 : TableOK s5.BinopPrecedence :=
    ParsePrimary_TableOK ⟨nC, hC⟩ (getNextToken_TableOK ok3)
  have g1 := GetTokPrecedence_operator s1 ok1 (by rw [ht1]; exact h1)
  have g3 := GetTokPrecedence_operator s3 ok3 (by rw [ht3]; omega)
  have g5 : (GetTokPrecedence s5).1 = -1 := by
    rw [GetTokPrecedence_TableOK s5 ok5, hend]
  rw [ht1] at g1
  rw [ht3] at g3
  let N := max nA (max nB nC)
  have hA1 : ParsePrimary (N + 3) s0 = some (some A, s1) :=
    ParsePrimary_mono hA (by omega)
  have hB1 : ParsePrimary (N + 2) (getNextToken s1) = some (some B, s3) :=
    ParsePrimary_mono hB (by omega)
  have hC1 : ParsePrimary (N + 1) (getNextToken s3) = some (some C, s5) :=
    ParsePrimary_mono hC (by omega)
  -- the inner call `ParseBinOpRHS(TokPrec + 1, RHS)`
  have inner : ParseBinOpRHS (N + 2) (declaredPrecedence op1 + 1) B s3
      = some (some (ExprAST.BinaryExprAST (toChar op2) B C), (GetTokPrecedence s5).2) := by
    rw [ParseBinOpRHS]
    simp only [g3, hC1, g5]
    have e1 : ¬ declaredPrecedence op2 < declaredPrecedence op1 + 1 := by omega
    have e2 : ¬ declaredPrecedence op2 < -1 := by omega
    simp only [e1, e2, if_false, ht3]
    rw [ParseBinOpRHS_stop _ _ _ _ (by rw [GetTokPrecedence_idem, g5]; omega),
      GetTokPrecedence_idem]
  refine ⟨N + 4, ?_⟩
  rw [ParseExpression, hA1]
  simp only
  rw [ParseBinOpRHS]
  simp only [g1, hB1, g3]
  have e0 : ¬ declaredPrecedence op1 < 0 := by omega
  simp only [e0, h12, if_false, if_true, inner, ht1]
  rw [ParseBinOpRHS_stop _ _ _ _ (by rw [GetTokPrecedence_idem, g5]; omega),
    GetTokPrecedence_idem]

/-- Grouping to the left: `(A op1 B) op2 C` when `op2` does not bind more tightly than
`op1`. -/
theorem ParseExpression_groups_left (s0 s5 : State) (A B C : ExprAST) (op1 op2 : Int)
    (hok : TableOK s0.BinopPrecedence)
    (h2 : 0 < declaredPrecedence op2)
    (h21 : declaredPrecedence op2 ≤ declaredPrecedence op1)
    (hend : declaredPrecedence s5.currentToken = -1)
    (h : ThreeOperands s0 A op1 B op2 C s5) :
    Returns ParseExpression s0
      (some (ExprAST.BinaryExprAST (toChar op2) (ExprAST.BinaryExprAST (toChar op1) A B) C))
      (GetTokPrecedence s5).2 := by
  obtain ⟨s1, s3, ⟨nA, hA⟩, ht1, ⟨nB, hB⟩, ht3, ⟨nC, hC⟩⟩ := h
  have ok1 : TableOK s1.BinopPrecedence := ParsePrimary_TableOK ⟨nA, hA⟩ hok
  have ok3 : TableOK s3.BinopPrecedence :=
    ParsePrimary_TableOK ⟨nB, hB⟩ (getNextToken_TableOK ok1)
  have ok5 : TableOK s5.BinopPrecedence :=
    ParsePrimary_TableOK ⟨nC, hC⟩ (getNextToken_TableOK ok3)
  have g1 := GetTokPrecedence_operator s1 ok1 (by rw [ht1]; omega)
  have g3 := GetTokPrecedence_operator s3 ok3 (by rw [ht3]; exact h2)
  have g5 : (GetTokPrecedence s5).1 = -1 := by
    rw [GetTokPrecedence_TableOK s5 ok5, hend]
  rw [ht1] at g1
  rw [ht3] at g3
  let N := max nA (max nB nC)
  have hA1 : ParsePrimary (N + 3) s0 = some (some A, s1) :=
    ParsePrimary_mono hA (by omega)
  have hB1 : ParsePrimary (N + 2) (getNextToken s1) = some (some B, s3) :=
    ParsePrimary_mono hB (by omega)
  have hC1 : ParsePrimary (N + 1) (getNextToken s3) = some (some C, s5) :=
    ParsePrimary_mono hC (by omega)
  refine ⟨N + 4, ?_⟩
  rw [ParseExpression, hA1]
  simp only
  rw [ParseBinOpRHS]
  simp only [g1, hB1, g3]
  have e0 : ¬ declaredPrecedence op1 < 0 := by omega
  have e1 : ¬ declaredPrecedence op1 < declaredPrecedence op2 := by omega
  simp only [e0, e1, if_false, ht1]
  rw [ParseBinOpRHS]
  simp only [g3, hC1, g5]
  have e2 : ¬ declaredPrecedence op2 < 0 := by omega
  have e3 : ¬ declaredPrecedence op2 < -1 := by omega
  simp only [e2, e3, if_false, ht3]
  rw [ParseBinOpRHS_stop _ _ _ _ (by rw [GetTokPrecedence_idem, g5]; omega),
    GetTokPrecedence_idem]

/-! ## Diagnostics of the parsing functions -/

theorem Reported_of_stderr_eq {s s1 s2 : State} {b : Bool} (h : s1.stderr = s.stderr)
    (h2 : Reported s1 b s2) : Reported s b s2 := by
  unfold Reported at h2 ⊢
  rw [h] at h2
  exact h2

theorem Reported_LogError (msg : String) (s : State) : Reported s true (LogError msg s) :=
  ⟨msg, rfl⟩

theorem Reported_then_LogError {s s1 : State} (msg : String) (h : Reported s false s1) :
    Reported s true (LogError msg s1) := by
  refine ⟨msg, ?_⟩
  have h1 : s1.stderr = s.stderr := h
  simp [LogError, h1]

theorem Reported_then_getNextToken {s s1 : State} (h : Reported s false s1) :
    Reported s false (getNextToken s1) := by
  have h1 : s1.stderr = s.stderr := h
  show (getNextToken s1).stderr = s.stderr
  rw [getNextToken_stderr, h1]

theorem Reported_then {s s1 s2 : State} {b : Bool} (h : Reported s false s1)
    (h2 : Reported s1 b s2) : Reported s b s2 :=
  Reported_of_stderr_eq h h2

theorem Reported_getNextToken (s : State) : Reported s false (getNextToken s) :=
  getNextToken_stderr s

theorem Reported_GetTokPrecedence (s : State) : Reported s false (GetTokPrecedence s).2 :=
  GetTokPrecedence_stderr s

theorem parse_reports (n : Nat) :
    (∀ s r s1, ParseParenExpr n s = some (r, s1) → Reported s r.isNone s1) ∧
    (∀ Args s r s1, ParseIdentifierExprLoop n Args s = some (r, s1) →
      Reported s r.isNone s1) ∧
    (∀ s r s1, ParseIdentifierExpr n s = some (r, s1) → Reported s r.isNone s1) ∧
    (∀ s r s1, ParsePrimary n s = some (r, s1) → Reported s r.isNone s1) ∧
    (∀ p L s r s1, ParseBinOpRHS n p L s = some (r, s1) → Reported s r.isNone s1) ∧
    (∀ s r s1, ParseExpression n s = some (r, s1) → Reported s r.isNone s1) := by
  induction n with
  | zero =>
    refine ⟨?_, ?_, ?_, ?_, ?_, ?_⟩ <;> intros <;> rename_i h <;>
      simp [ParseParenExpr, ParseIdentifierExprLoop, ParseIdentifierExpr, ParsePrimary,
        ParseBinOpRHS, ParseExpression] at h
  | succ n ih =>
    obtain ⟨ihParen, ihLoop, ihIdent, ihPrim, ihBin, ihExpr⟩ := ih
    refine ⟨?_, ?_, ?_, ?_, ?_, ?_⟩
    · intro s r s1 h
      rw [ParseParenExpr] at h
      cases hE : ParseExpression n (getNextToken s) with
      | none => simp [hE] at h
      | some x =>
        obtain ⟨o, s2⟩ := x
        have h1 := Reported_then (Reported_getNextToken s) (ihExpr _ _ _ hE)
        rw [hE] at h
        cases o with
        | none =>
          simp only [Option.some.injEq, Prod.mk.injEq] at h
          obtain ⟨rfl, rfl⟩ := h; exact h1
        | some V =>
          simp only at h
          split at h
          · simp only [Option.some.injEq, Prod.mk.injEq] at h
            obtain ⟨rfl, rfl⟩ := h
            exact Reported_then_LogError _ h1
          · simp only [Option.some.injEq, Prod.mk.injEq] at h
            obtain ⟨rfl, rfl⟩ := h
            exact Reported_then_getNextToken h1
    · intro Args s r s1 h
      rw [ParseIdentifierExprLoop] at h
      cases hE : ParseExpression n s with
      | none => simp [hE] at h
      | some x =>
        obtain ⟨o, s2⟩ := x
        have h1 := ihExpr _ _ _ hE
        rw [hE] at h
        cases o with
        | none =>
          simp only [Option.some.injEq, Prod.mk.injEq] at h
          obtain ⟨rfl, rfl⟩ := h; exact h1
        | some Arg =>
          simp only at h
          split at h
          · simp only [Option.some.injEq, Prod.mk.injEq] at h
            obtain ⟨rfl, rfl⟩ := h; exact h1
          · split at h
            · simp only [Option.some.injEq, Prod.mk.injEq] at h
              obtain ⟨rfl, rfl⟩ := h
              exact Reported_then_LogError _ h1
            · exact Reported_then (Reported_then_getNextToken h1) (ihLoop _ _ _ _ h)
    · intro s r s1 h
      rw [ParseIdentifierExpr] at h
      simp only at h
      split at h
      · simp only [Option.some.injEq, Prod.mk.injEq] at h
        obtain ⟨rfl, rfl⟩ := h; exact Reported_getNextToken s
      · have h2 := Reported_then_getNextToken (Reported_getNextToken s)
        split at h
        · cases hE : ParseIdentifierExprLoop n [] (getNextToken (getNextToken s)) with
          | none => simp [hE] at h
          | some x =>
            obtain ⟨o, s3⟩ := x
            have h3 := Reported_then h2 (ihLoop _ _ _ _ hE)
            rw [hE] at h
            cases o with
            | none =>
              simp only [Option.some.injEq, Prod.mk.injEq] at h
              obtain ⟨rfl, rfl⟩ := h; exact h3
            | some Args =>
              simp only [Option.some.injEq, Prod.mk.injEq] at h
              obtain ⟨rfl, rfl⟩ := h
              exact Reported_then_getNextToken h3
        · simp only [Option.some.injEq, Prod.mk.injEq] at h
          obtain ⟨rfl, rfl⟩ := h
          exact Reported_then_getNextToken h2
    · intro s r s1 h
      rw [ParsePrimary] at h
      split at h
      · exact ihIdent _ _ _ h
      · split at h
        · simp only [ParseNumberExpr, Option.some.injEq, Prod.mk.injEq] at h
          obtain ⟨rfl, rfl⟩ := h; exact Reported_getNextToken s
        · split at h
          · exact ihParen _ _ _ h
          · simp only [Option.some.injEq, Prod.mk.injEq] at h
            obtain ⟨rfl, rfl⟩ := h; exact Reported_LogError _ _
    · intro p L s r s1 h
      rw [ParseBinOpRHS] at h
      simp only at h
      split at h
      · simp only [Option.some.injEq, Prod.mk.injEq] at h
        obtain ⟨rfl, rfl⟩ := h; exact Reported_GetTokPrecedence s
      · cases hP : ParsePrimary n (getNextToken (GetTokPrecedence s).2) with
        | none => simp [hP] at h
        | some x =>
          obtain ⟨o, s2⟩ := x
          have h1 := Reported_then (Reported_then_getNextToken (Reported_GetTokPrecedence s))
            (ihPrim _ _ _ hP)
          rw [hP] at h
          cases o with
          | none =>
            simp only [Option.some.injEq, Prod.mk.injEq] at h
            obtain ⟨rfl, rfl⟩ := h; exact h1
          | some RHS =>
            simp only at h
            have h2 := Reported_then h1 (Reported_GetTokPrecedence s2)
            split at h
            · cases hB : ParseBinOpRHS n ((GetTokPrecedence s).1 + 1) RHS
                  (GetTokPrecedence s2).2 with
              | none => simp [hB] at h
              | some y =>
                obtain ⟨o2, s3⟩ := y
                have h3 := Reported_then h2 (ihBin _ _ _ _ _ hB)
                rw [hB] at h
                cases o2 with
                | none =>
                  simp only [Option.some.injEq, Prod.mk.injEq] at h
                  obtain ⟨rfl, rfl⟩ := h; exact h3
                | some RHS1 => exact Reported_then h3 (ihBin _ _ _ _ _ h)
            · exact Reported_then h2 (ihBin _ _ _ _ _ h)
    · intro s r s1 h
      rw [ParseExpression] at h
      cases hP : ParsePrimary n s with
      | none => simp [hP] at h
      | some x =>
        obtain ⟨o, s2⟩ := x
        have h1 := ihPrim _ _ _ hP
        rw [hP] at h
        cases o with
        | none =>
          simp only [Option.some.injEq, Prod.mk.injEq] at h
          obtain ⟨rfl, rfl⟩ := h; exact h1
        | some LHS => exact Reported_then h1 (ihBin _ _ _ _ _ h)

theorem ParsePrototypeLoop_stderr (n : Nat) :
    ∀ (acc : List (List Char)) (s : State) (r : List (List Char) × State),
      ParsePrototypeLoop n acc s = some r → r.2.stderr = s.stderr := by
  induction n with
  | zero => intro acc s r h; simp [ParsePrototypeLoop] at h
  | succ n ih =>
    intro acc s r h
    rw [ParsePrototypeLoop] at h
    split at h
    · rw [ih _ _ _ h, getNextToken_stderr]
    · simp only [Option.some.injEq] at h; subst h; exact getNextToken_stderr s

theorem ParsePrototype_reports : ReportsOnce ParsePrototype := by
  intro n s r s1 h
  unfold ParsePrototype at h
  split at h
  · simp only [Option.some.injEq, Prod.mk.injEq] at h
    obtain ⟨rfl, rfl⟩ := h; exact Reported_LogError _ _
  · simp only at h
    split at h
    · simp only [Option.some.injEq, Prod.mk.injEq] at h
      obtain ⟨rfl, rfl⟩ := h
      exact Reported_then_LogError _ (Reported_getNextToken s)
    · cases hL : ParsePrototypeLoop n [] (getNextToken s) with
      | none => simp [hL] at h
      | some x =>
        obtain ⟨a, s2⟩ := x
        have h2 : Reported s false s2 := by
          have := ParsePrototypeLoop_stderr n _ _ _ hL
          show s2.stderr = s.stderr
          rw [this, getNextToken_stderr]
        rw [hL] at h
        simp only at h
        split at h
        · simp only [Option.some.injEq, Prod.mk.injEq] at h
          obtain ⟨rfl, rfl⟩ := h
          exact Reported_then_LogError _ h2
        · simp only [Option.some.injEq, Prod.mk.injEq] at h
          obtain ⟨rfl, rfl⟩ := h
          exact Reported_then_getNextToken h2

theorem ParseDefinition_reports : ReportsOnce ParseDefinition := by
  intro n s r s1 h
  unfold ParseDefinition at h
  simp only at h
  cases hP : ParsePrototype n (getNextToken s) with
  | none => simp [hP] at h
  | some x =>
    obtain ⟨o, s2⟩ := x
    have h1 := Reported_then (Reported_getNextToken s) (ParsePrototype_reports _ _ _ _ hP)
    rw [hP] at h
    cases o with
    | none =>
      simp only [Option.some.injEq, Prod.mk.injEq] at h
      obtain ⟨rfl, rfl⟩ := h; exact h1
    | some Proto =>
      simp only at h
      cases hE : ParseExpression n s2 with
      | none => simp [hE] at h
      | some y =>
        obtain ⟨o2, s3⟩ := y
        have h2 := Reported_then h1 ((parse_reports n).2.2.2.2.2 _ _ _ hE)
        rw [hE] at h
        cases o2 with
        | none =>
          simp only [Option.some.injEq, Prod.mk.injEq] at h
          obtain ⟨rfl, rfl⟩ := h; exact h2
        | some E =>
          simp only [Option.some.injEq, Prod.mk.injEq] at h
          obtain ⟨rfl, rfl⟩ := h; exact h2

theorem ParseExtern_reports : ReportsOnce ParseExtern := by
  intro n s r s1 h
  exact Reported_then (Reported_getNextToken s) (ParsePrototype_reports _ _ _ _ h)

theorem ParseTopLevelExpr_reports : ReportsOnce ParseTopLevelExpr := by
  intro n s r s1 h
  unfold ParseTopLevelExpr at h
  cases hE : ParseExpression n s with
  | none => simp [hE] at h
  | some y =>
    obtain ⟨o2, s3⟩ := y
    have h2 := (parse_reports n).2.2.2.2.2 _ _ _ hE
    rw [hE] at h
    cases o2 with
    | none =>
      simp only [Option.some.injEq, Prod.mk.injEq] at h
      obtain ⟨rfl, rfl⟩ := h; exact h2
    | some E =>
      simp only [Option.some.injEq, Prod.mk.injEq] at h
      obtain ⟨rfl, rfl⟩ := h; exact h2

/-! ## Tokens consumed by the parsing functions, and their termination -/

theorem parseSize_LogError (msg : String) (s : State) :
    parseSize (LogError msg s) = parseSize s := rfl

/-- No parsing function gives characters or tokens back. -/
theorem parse_parseSize_le (n : Nat) :
    (∀ s r, ParseParenExpr n s = some r → parseSize r.2 ≤ parseSize s) ∧
    (∀ Args s r, ParseIdentifierExprLoop n Args s = some r → parseSize r.2 ≤ parseSize s) ∧
    (∀ s r, ParseIdentifierExpr n s = some r → parseSize r.2 ≤ parseSize s) ∧
    (∀ s r, ParsePrimary n s = some r → parseSize r.2 ≤ parseSize s) ∧
    (∀ p L s r, ParseBinOpRHS n p L s = some r → parseSize r.2 ≤ parseSize s) ∧
    (∀ s r, ParseExpression n s = some r → parseSize r.2 ≤ parseSize s) :=
  parse_relates (fun a b => parseSize b ≤ parseSize a)
    (fun _ _ _ h1 h2 => le_trans h2 h1)
    (fun s => (parseSize_getNextToken s).1)
    (fun s => le_of_eq (parseSize_GetTokPrecedence s))
    (fun _ _ => le_refl _) n

theorem ParseIdentifierExpr_after_first (n : Nat) (s : State) (r : Option ExprAST × State)
    (h : ParseIdentifierExpr n s = some r) : parseSize r.2 ≤ parseSize (getNextToken s) := by
  cases n with
  | zero => simp [ParseIdentifierExpr] at h
  | succ n =>
    rw [ParseIdentifierExpr] at h
    simp only at h
    split at h
    · simp only [Option.some.injEq] at h; subst h; exact le_refl _
    · have h2 := (parseSize_getNextToken (getNextToken s)).1
      split at h
      · cases hE : ParseIdentifierExprLoop n [] (getNextToken (getNextToken s)) with
        | none => simp [hE] at h
        | some x =>
          have h3 := (parse_parseSize_le n).2.1 _ _ _ hE
          rw [hE] at h
          obtain ⟨o, s3⟩ := x
          cases o with
          | none => simp only [Option.some.injEq] at h; subst h; exact le_trans h3 h2
          | some Args =>
            simp only [Option.some.injEq] at h; subst h
            exact le_trans (parseSize_getNextToken s3).1 (le_trans h3 h2)
      · simp only [Option.some.injEq] at h; subst h
        exact le_trans (parseSize_getNextToken _).1 h2

theorem ParseParenExpr_after_first (n : Nat) (s : State) (r : Option ExprAST × State)
    (h : ParseParenExpr n s = some r) : parseSize r.2 ≤ parseSize (getNextToken s) := by
  cases n with
  | zero => simp [ParseParenExpr] at h
  | succ n =>
    rw [ParseParenExpr] at h
    cases hE : ParseExpression n (getNextToken s) with
    | none => simp [hE] at h
    | some x =>
      have h1 := (parse_parseSize_le n).2.2.2.2.2 _ _ hE
      rw [hE] at h
      obtain ⟨o, s2⟩ := x
      cases o with
      | none => simp only [Option.some.injEq] at h; subst h; exact h1
      | some V =>
        simp only at h
        split at h
        · simp only [Option.some.injEq] at h; subst h; exact h1
        · simp only [Option.some.injEq] at h; subst h
          exact le_trans (parseSize_getNextToken s2).1 h1

/-- The function `ParsePrimary` consumes at least one token, unless it fails on the spot,
in which
case the lookahead is the one it was called with. -/
theorem ParsePrimary_progress (n : Nat) (s : State) (r : Option ExprAST) (s1 : State)
    (h : ParsePrimary n s = some (r, s1)) :
    parseSize s1 < parseSize s ∨
      (r = none ∧ s1.currentToken = s.currentToken ∧ parseSize s1 = parseSize s) := by
  cases n with
  | zero => simp [ParsePrimary] at h
  | succ n =>
    rw [ParsePrimary] at h
    split at h
    · rename_i ht
      left
      have h1 := ParseIdentifierExpr_after_first n s _ h
      have h2 := (parseSize_getNextToken s).2 (by rw [ht]; decide)
      exact lt_of_le_of_lt h1 h2
    · split at h
      · rename_i ht
        left
        simp only [ParseNumberExpr, Option.some.injEq, Prod.mk.injEq] at h
        obtain ⟨_, rfl⟩ := h
        exact (parseSize_getNextToken s).2 (by rw [ht]; decide)
      · split at h
        · rename_i ht
          left
          have h1 := ParseParenExpr_after_first n s _ h
          have h2 := (parseSize_getNextToken s).2 (by rw [ht]; decide)
          exact lt_of_le_of_lt h1 h2
        · right
          simp only [Option.some.injEq, Prod.mk.injEq] at h
          obtain ⟨rfl, rfl⟩ := h
          exact ⟨rfl, rfl, rfl⟩

theorem ParseExpression_progress (n : Nat) (s : State) (r : Option ExprAST) (s1 : State)
    (h : ParseExpression n s = some (r, s1)) :
    parseSize s1 < parseSize s ∨
      (r = none ∧ s1.currentToken = s.currentToken ∧ parseSize s1 = parseSize s) := by
  cases n with
  | zero => simp [ParseExpression] at h
  | succ n =>
    rw [ParseExpression] at h
    cases hP : ParsePrimary n s with
    | none => simp [hP] at h
    | some x =>
      obtain ⟨o, s2⟩ := x
      have h1 := ParsePrimary_progress n s o s2 hP
      rw [hP] at h
      cases o with
      | none =>
        simp only [Option.some.injEq, Prod.mk.injEq] at h
        obtain ⟨rfl, rfl⟩ := h; exact h1
      | some LHS =>
        left
        have h2 := (parse_parseSize_le n).2.2.2.2.1 _ _ _ _ h
        rcases h1 with h1 | ⟨h1, _⟩
        · exact lt_of_le_of_lt h2 h1
        · cases h1

theorem GetTokPrecedence_nonneg_token (s : State) (h : 0 ≤ (GetTokPrecedence s).1) :
    s.currentToken ≠ EOFToken := by
  rw [GetTokPrecedence_fst] at h
  intro he
  rw [he] at h
  simp [isascii, EOFToken] at h

/-- With fuel four times the number of tokens left, and a little more, the parsing
functions return. -/
theorem parse_returns (n : Nat) :
    (∀ s, 4 * parseSize s + 1 ≤ n → s.currentToken ≠ EOFToken →
      ∃ r, ParseParenExpr n s = some r) ∧
    (∀ Args s, 4 * parseSize s + 4 ≤ n → ∃ r, ParseIdentifierExprLoop n Args s = some r) ∧
    (∀ s, 4 * parseSize s + 1 ≤ n → s.currentToken ≠ EOFToken →
      ∃ r, ParseIdentifierExpr n s = some r) ∧
    (∀ s, 4 * parseSize s + 2 ≤ n → ∃ r, ParsePrimary n s = some r) ∧
    (∀ p L s, 0 ≤ p → 4 * parseSize s + 1 ≤ n → ∃ r, ParseBinOpRHS n p L s = some r) ∧
    (∀ s, 4 * parseSize s + 3 ≤ n → ∃ r, ParseExpression n s = some r) := by
  induction n with
  | zero =>
    refine ⟨?_, ?_, ?_, ?_, ?_, ?_⟩ <;> intros <;> omega
  | succ n ih =>
    obtain ⟨ihParen, ihLoop, ihIdent, ihPrim, ihBin, ihExpr⟩ := ih
    refine ⟨?_, ?_, ?_, ?_, ?_, ?_⟩
    · intro s hn ht
      have h1 := (parseSize_getNextToken s).2 ht
      obtain ⟨x, hE⟩ := ihExpr (getNextToken s) (by omega)
      rw [ParseParenExpr, hE]
      obtain ⟨o, s2⟩ := x
      cases o with
      | none => exact ⟨_, rfl⟩
      | some V => simp only; split <;> exact ⟨_, rfl⟩
    · intro Args s hn
      obtain ⟨x, hE⟩ := ihExpr s (by omega)
      rw [ParseIdentifierExprLoop, hE]
      obtain ⟨o, s1⟩ := x
      cases o with
      | none => exact ⟨_, rfl⟩
      | some Arg =>
        simp only
        split
        · exact ⟨_, rfl⟩
        · split
          · exact ⟨_, rfl⟩
          · have h1 := ParseExpression_progress n s _ _ hE
            have h2 := (parseSize_getNextToken s1).1
            rcases h1 with h1 | ⟨h1, _⟩
            · exact ihLoop _ _ (by omega)
            · cases h1
    · intro s hn ht
      have h1 := (parseSize_getNextToken s).2 ht
      have h2 := (parseSize_getNextToken (getNextToken s)).1
      rw [ParseIdentifierExpr]
      simp only
      split
      · exact ⟨_, rfl⟩
      · split
        · obtain ⟨x, hE⟩ := ihLoop [] (getNextToken (getNextToken s)) (by omega)
          rw [hE]
          obtain ⟨o, s3⟩ := x
          cases o <;> exact ⟨_, rfl⟩
        · exact ⟨_, rfl⟩
    · intro s hn
      rw [ParsePrimary]
      split
      · rename_i ht
        exact ihIdent s (by omega) (by rw [ht]; decide)
      · split
        · exact ⟨_, rfl⟩
        · split
          · rename_i ht
            exact ihParen s (by omega) (by rw [ht]; decide)
          · exact ⟨_, rfl⟩
    · intro p L s hp hn
      rw [ParseBinOpRHS]
      simp only
      split
      · exact ⟨_, rfl⟩
      · rename_i hlt
        have ht : s.currentToken ≠ EOFToken :=
          GetTokPrecedence_nonneg_token s (by omega)
        have ht2 : (GetTokPrecedence s).2.currentToken ≠ EOFToken := by
          rw [GetTokPrecedence_currentToken]; exact ht
        have h1 := (parseSize_getNextToken (GetTokPrecedence s).2).2 ht2
        rw [parseSize_GetTokPrecedence] at h1
        obtain ⟨x, hP⟩ := ihPrim (getNextToken (GetTokPrecedence s).2) (by omega)
        rw [hP]
        have h2 := (parse_parseSize_le n).2.2.2.1 _ _ hP
        obtain ⟨o, s2⟩ := x
        cases o with
        | none => exact ⟨_, rfl⟩
        | some RHS =>
          simp only at h2 ⊢
          have h3 := parseSize_GetTokPrecedence s2
          split
          · obtain ⟨y, hB⟩ := ihBin ((GetTokPrecedence s).1 + 1) RHS (GetTokPrecedence s2).2
              (by omega) (by omega)
            rw [hB]
            have h4 := (parse_parseSize_le n).2.2.2.2.1 _ _ _ _ hB
            obtain ⟨o2, s3⟩ := y
            cases o2 with
            | none => exact ⟨_, rfl⟩
            | some RHS1 =>
              simp only at h4 ⊢
              exact ihBin _ _ _ hp (by omega)
          · exact ihBin _ _ _ hp (by omega)
    · intro s hn
      obtain ⟨x, hP⟩ := ihPrim s (by omega)
      rw [ParseExpression, hP]
      have h1 := (parse_parseSize_le n).2.2.2.1 _ _ hP
      obtain ⟨o, s1⟩ := x
      cases o with
      | none => exact ⟨_, rfl⟩
      | some LHS =>
        simp only at h1 ⊢
        exact ihBin _ _ _ (le_refl 0) (by omega)

theorem ParsePrototypeLoop_parseSize (n : Nat) :
    ∀ (acc : List (List Char)) (s : State) (r : List (List Char) × State),
      ParsePrototypeLoop n acc s = some r → parseSize r.2 ≤ parseSize s := by
  induction n with
  | zero => intro acc s r h; simp [ParsePrototypeLoop] at h
  | succ n ih =>
    intro acc s r h
    rw [ParsePrototypeLoop] at h
    have h1 := (parseSize_getNextToken s).1
    split at h
    · exact le_trans (ih _ _ _ h) h1
    · simp only [Option.some.injEq] at h; subst h; exact h1

theorem ParsePrototypeLoop_returns (n : Nat) :
    ∀ (acc : List (List Char)) (s : State), s.currentToken ≠ EOFToken →
      parseSize s + 1 ≤ n → ∃ r, ParsePrototypeLoop n acc s = some r := by
  induction n with
  | zero => intro acc s _ h; omega
  | succ n ih =>
    intro acc s ht hn
    rw [ParsePrototypeLoop]
    have h1 := (parseSize_getNextToken s).2 ht
    split
    · rename_i hi
      have hi1 : (getNextToken s).currentToken = identifierToken := by simpa using hi
      exact ih _ _ (by rw [hi1]; decide) (by omega)
    · exact ⟨_, rfl⟩

theorem ParsePrototype_parseSize (n : Nat) (s : State) (r : Option PrototypeAST × State)
    (h : ParsePrototype n s = some r) : parseSize r.2 ≤ parseSize s := by
  unfold ParsePrototype at h
  split at h
  · simp only [Option.some.injEq] at h; subst h; exact le_refl _
  · have h1 := (parseSize_getNextToken s).1
    simp only at h
    split at h
    · simp only [Option.some.injEq] at h; subst h; exact h1
    · cases hL : ParsePrototypeLoop n [] (getNextToken s) with
      | none => simp [hL] at h
      | some x =>
        have h2 := ParsePrototypeLoop_parseSize n _ _ _ hL
        rw [hL] at h
        obtain ⟨a, s2⟩ := x
        simp only at h h2
        split at h
        · simp only [Option.some.injEq] at h; subst h; exact le_trans h2 h1
        · simp only [Option.some.injEq] at h; subst h
          exact le_trans (parseSize_getNextToken s2).1 (le_trans h2 h1)

theorem ParsePrototype_returns (n : Nat) (s : State) (hn : parseSize s + 1 ≤ n) :
    ∃ r, ParsePrototype n s = some r := by
  unfold ParsePrototype
  split
  · exact ⟨_, rfl⟩
  · have h1 := (parseSize_getNextToken s).1
    simp only
    split
    · exact ⟨_, rfl⟩
    · rename_i ho
      have ho1 : (getNextToken s).currentToken = 40 := by simpa using ho
      obtain ⟨x, hL⟩ := ParsePrototypeLoop_returns n [] (getNextToken s)
        (by rw [ho1]; decide) (by omega)
      rw [hL]
      simp only
      split <;> exact ⟨_, rfl⟩

theorem ParseDefinition_returns (n : Nat) (s : State) (hn : 4 * parseSize s + 3 ≤ n) :
    ∃ r, ParseDefinition n s = some r := by
  unfold ParseDefinition
  have h1 := (parseSize_getNextToken s).1
  obtain ⟨x, hP⟩ := ParsePrototype_returns n (getNextToken s) (by omega)
  have h2 := ParsePrototype_parseSize n _ _ hP
  simp only [hP]
  obtain ⟨o, s2⟩ := x
  cases o with
  | none => exact ⟨_, rfl⟩
  | some Proto =>
    simp only at h2 ⊢
    obtain ⟨y, hE⟩ := (parse_returns n).2.2.2.2.2 s2 (by omega)
    rw [hE]
    obtain ⟨o2, s3⟩ := y
    cases o2 <;> exact ⟨_, rfl⟩

theorem ParseDefinition_parseSize (n : Nat) (s : State) (r : Option FunctionAST × State)
    (h : ParseDefinition n s = some r) : parseSize r.2 ≤ parseSize (getNextToken s) := by
  unfold ParseDefinition at h
  simp only at h
  cases hP : ParsePrototype n (getNextToken s) with
  | none => simp [hP] at h
  | some x =>
    have h2 := ParsePrototype_parseSize n _ _ hP
    rw [hP] at h
    obtain ⟨o, s2⟩ := x
    cases o with
    | none => simp only [Option.some.injEq] at h; subst h; exact h2
    | some Proto =>
      simp only at h h2
      cases hE : ParseExpression n s2 with
      | none => simp [hE] at h
      | some y =>
        have h3 := (parse_parseSize_le n).2.2.2.2.2 _ _ hE
        rw [hE] at h
        obtain ⟨o2, s3⟩ := y
        cases o2 with
        | none => simp only [Option.some.injEq] at h; subst h; exact le_trans h3 h2
        | some E => simp only [Option.some.injEq] at h; subst h; exact le_trans h3 h2

theorem parseSize_fprintf (text : String) (s : State) :
    parseSize (fprintf text s) = parseSize s := rfl

/-- Each of the three handlers of `MainLoop` returns, and consumes at least one token
when it is entered with a lookahead other than the end of input. -/
theorem HandleDefinition_returns (n : Nat) (s : State) (hn : 4 * parseSize s + 3 ≤ n)
    (ht : s.currentToken ≠ EOFToken) :
    ∃ s1, HandleDefinition n s = some s1 ∧ parseSize s1 < parseSize s := by
  obtain ⟨x, hD⟩ := ParseDefinition_returns n s hn
  have h1 := ParseDefinition_parseSize n s _ hD
  have h2 := (parseSize_getNextToken s).2 ht
  unfold HandleDefinition
  rw [hD]
  obtain ⟨o, s2⟩ := x
  cases o with
  | none =>
    refine ⟨_, rfl, ?_⟩
    have := (parseSize_getNextToken s2).1
    simp only at h1
    omega
  | some F =>
    refine ⟨_, rfl, ?_⟩
    simp only at h1
    rw [parseSize_fprintf]
    omega

theorem HandleExtern_returns (n : Nat) (s : State) (hn : 4 * parseSize s + 3 ≤ n)
    (ht : s.currentToken ≠ EOFToken) :
    ∃ s1, HandleExtern n s = some s1 ∧ parseSize s1 < parseSize s := by
  have h2 := (parseSize_getNextToken s).2 ht
  obtain ⟨x, hP⟩ := ParsePrototype_returns n (getNextToken s) (by omega)
  have h1 := ParsePrototype_parseSize n _ _ hP
  unfold HandleExtern ParseExtern
  rw [hP]
  obtain ⟨o, s2⟩ := x
  cases o with
  | none =>
    refine ⟨_, rfl, ?_⟩
    have := (parseSize_getNextToken s2).1
    simp only at h1
    omega
  | some F =>
    refine ⟨_, rfl, ?_⟩
    simp only at h1
    rw [parseSize_fprintf]
    omega

theorem HandleTopLevelExpression_returns (n : Nat) (s : State)
    (hn : 4 * parseSize s + 3 ≤ n) (ht : s.currentToken ≠ EOFToken) :
    ∃ s1, HandleTopLevelExpression n s = some s1 ∧ parseSize s1 < parseSize s := by
  obtain ⟨x, hE⟩ := (parse_returns n).2.2.2.2.2 s hn
  obtain ⟨o, s2⟩ := x
  have h1 := ParseExpression_progress n s o s2 hE
  unfold HandleTopLevelExpression ParseTopLevelExpr
  rw [hE]
  cases o with
  | none =>
    refine ⟨_, rfl, ?_⟩
    rcases h1 with h1 | ⟨_, h3, h4⟩
    · exact lt_of_le_of_lt (parseSize_getNextToken s2).1 h1
    · have := (parseSize_getNextToken s2).2 (by rw [h3]; exact ht)
      omega
  | some E =>
    refine ⟨_, rfl, ?_⟩
    rw [parseSize_fprintf]
    rcases h1 with h1 | ⟨h1, _⟩
    · exact h1
    · cases h1

theorem MainLoop_returns (n : Nat) :
    ∀ s : State, 4 * parseSize s + 5 ≤ n →
      ∃ s1, MainLoop n s = some s1 ∧ s1.currentToken = EOFToken := by
  induction n with
  | zero => intro s h; omega
  | succ n ih =>
    intro s hn
    rw [MainLoop]
    have hs : parseSize (fprintf "ready> " s) = parseSize s := rfl
    split
    · rename_i he
      exact ⟨_, rfl, he⟩
    · rename_i he
      split
      · have h1 := (parseSize_getNextToken (fprintf "ready> " s)).2 he
        exact ih _ (by omega)
      · split
        · obtain ⟨s1, h1, h2⟩ := HandleDefinition_returns n (fprintf "ready> " s)
            (by omega) he
          rw [h1]
          exact ih _ (by omega)
        · split
          · obtain ⟨s1, h1, h2⟩ := HandleExtern_returns n (fprintf "ready> " s)
              (by omega) he
            rw [h1]
            exact ih _ (by omega)
          · obtain ⟨s1, h1, h2⟩ := HandleTopLevelExpression_returns n (fprintf "ready> " s)
              (by omega) he
            rw [h1]
            exact ih _ (by omega)

/-! ## Precedence lookup (C7) -/

/-- C7: with the table that `main` installs, `GetTokPrecedence` returns 10 when the
current token is `<`, 20 for `+` and `-`, 40 for `/`, `*` and `%`, 50 for `^`, and -1 for
every other token value. -/
theorem GetTokPrecedence_declared (s : State)
    (h : s.BinopPrecedence = (installBinops (initialState [])).BinopPrecedence) :
    (GetTokPrecedence s).1 =
      (if s.currentToken = 60 then 10
       else if s.currentToken = 43 ∨ s.currentToken = 45 then 20
       else if s.currentToken = 47 ∨ s.currentToken = 42 ∨ s.currentToken = 37 then 40
       else if s.currentToken = 94 then 50
       else -1) := by
  have hok : TableOK s.BinopPrecedence := by
    intro k
    rw [h, installed_table _ rfl]
    exact tablePrecedence_installed k
  exact GetTokPrecedence_TableOK s hok

theorem GetTokPrecedence_declared_witness :
    (startState "*2").BinopPrecedence = (installBinops (initialState [])).BinopPrecedence ∧
    (GetTokPrecedence (startState "*2")).1 =
      (if (startState "*2").currentToken = 60 then 10
       else if (startState "*2").currentToken = 43 ∨ (startState "*2").currentToken = 45
         then 20
       else if (startState "*2").currentToken = 47 ∨ (startState "*2").currentToken = 42 ∨
         (startState "*2").currentToken = 37 then 40
       else if (startState "*2").currentToken = 94 then 50
       else -1) :=
  ⟨by decide, GetTokPrecedence_declared (startState "*2") (by decide)⟩

/-! ## Numeric literals (C3) -/

/-- C3, as the code behaves: the first character of a numeric literal enters the text
given to `strtod` twice, so the input `1` yields the number token with value 11 and the
input `42` the number token with value 442. -/
theorem GetToken_number_doubles_first_character :
    (GetToken (initialState ['1'])).1 = numberToken ∧
    (GetToken (initialState ['1'])).2.numberValue = 11 ∧
    (GetToken (initialState ['4', '2'])).1 = numberToken ∧
    (GetToken (initialState ['4', '2'])).2.numberValue = 442 := by
  decide

/-! ## Identifiers and keywords (C4) -/

/-- C4: when, after white space, `GetToken` is at an alphabetic character `c` followed by
the input `inp`, let `w` be `c` and the longest run of alphanumeric characters at the
head of `inp`.  The token is `def` exactly when `w` is "def", `extern` exactly when `w`
is "extern", and the identifier token in every other case; the identifier buffer is `w`,
and the pending character is the one that follows `w` (`EOF` when there is none).
"def foo(a b) a+b" scans as in the specification, and "Def", "define" are identifiers. -/
theorem GetToken_identifier :
    (∀ (s : State) (c : Int) (inp : List Char),
      skipSpaces s.lastChar s.input = (c, inp) → isalpha c = true →
      ((GetToken s).1 = defToken ↔
        toChar c :: inp.takeWhile (fun x => isalnum (x.toNat : Int)) = ['d', 'e', 'f']) ∧
      ((GetToken s).1 = externToken ↔
        toChar c :: inp.takeWhile (fun x => isalnum (x.toNat : Int))
          = ['e', 'x', 't', 'e', 'r', 'n']) ∧
      ((GetToken s).1 = identifierToken ↔
        (toChar c :: inp.takeWhile (fun x => isalnum (x.toNat : Int)) ≠ ['d', 'e', 'f'] ∧
         toChar c :: inp.takeWhile (fun x => isalnum (x.toNat : Int))
          ≠ ['e', 'x', 't', 'e', 'r', 'n'])) ∧
      (GetToken s).2.identifier = toChar c :: inp.takeWhile (fun x => isalnum (x.toNat : Int)) ∧
      (GetToken s).2.lastChar = (getchar (inp.dropWhile (fun x => isalnum (x.toNat : Int)))).1 ∧
      (GetToken s).2.input = (getchar (inp.dropWhile (fun x => isalnum (x.toNat : Int)))).2) ∧
    scan 10 (initialState "def foo(a b) a+b".toList) =
      [Token.keywordDef, Token.identifier "foo".toList, Token.character 40,
       Token.identifier "a".toList, Token.identifier "b".toList, Token.character 41,
       Token.identifier "a".toList, Token.character 43, Token.identifier "b".toList,
       Token.endOfInput] ∧
    scan 2 (initialState "Def define".toList) =
      [Token.identifier "Def".toList, Token.identifier "define".toList] := by
  refine ⟨?_, by decide, by decide⟩
  intro s c inp hsp hc
  rw [GetToken_unfold]
  simp only [hsp, hc, if_true, readIdentifier_eq, List.singleton_append]
  split
  · rename_i h1
    simp [h1, defToken, externToken, identifierToken]
  · split
    · rename_i h1 h2
      simp [h1, h2, defToken, externToken, identifierToken]
    · rename_i h1 h2
      simp [h1, h2, defToken, externToken, identifierToken]

theorem GetToken_identifier_witness :
    skipSpaces (initialState "  extern1 (".toList).lastChar
        (initialState "  extern1 (".toList).input = (101, "xtern1 (".toList) ∧
    isalpha 101 = true ∧
    (GetToken (initialState "  extern1 (".toList)).1 = identifierToken ∧
    (GetToken (initialState "  extern1 (".toList)).2.identifier = "extern1".toList ∧
    (GetToken (initialState "  extern1 (".toList)).2.lastChar = 32 ∧
    (GetToken (initialState "  extern1 (".toList)).2.input = ['('] :=
  have h := GetToken_identifier.1 (initialState "  extern1 (".toList) 101 "xtern1 (".toList
    (by decide) (by decide)
  ⟨by decide, by decide, h.2.2.1.2 (by decide), h.2.2.2.1.trans (by decide),
    h.2.2.2.2.1.trans (by decide), h.2.2.2.2.2.trans (by decide)⟩

/-! ## Parenthesised expressions (C8) -/

/-- C8: when `ParseParenExpr`, called with `(` as lookahead, returns a node, that node is
the one `ParseExpression` returns from the token after the `(`, the lookahead was then
`)`, and `ParseParenExpr` has read one more token; and when `ParseExpression` returns a
node there but the lookahead is then not `)`, `ParseParenExpr` returns no node after
logging "expected ')'". -/
theorem ParseParenExpr_yields_inner_expression :
    (∀ (s : State) (V : ExprAST) (s1 : State), s.currentToken = 40 →
      Returns ParseParenExpr s (some V) s1 →
      ∃ s2, Returns ParseExpression (getNextToken s) (some V) s2 ∧
        s2.currentToken = 41 ∧ s1 = getNextToken s2) ∧
    (∀ (s : State) (V : ExprAST) (s2 : State), s.currentToken = 40 →
      Returns ParseExpression (getNextToken s) (some V) s2 → s2.currentToken ≠ 41 →
      Returns ParseParenExpr s none (LogError "expected ')'" s2)) := by
  constructor
  · intro s V s1 _ h
    obtain ⟨fuel, h⟩ := h
    cases fuel with
    | zero => simp [ParseParenExpr] at h
    | succ n =>
      rw [ParseParenExpr] at h
      cases hE : ParseExpression n (getNextToken s) with
      | none => simp [hE] at h
      | some x =>
        rw [hE] at h
        obtain ⟨o, s2⟩ := x
        cases o with
        | none => simp at h
        | some V1 =>
          simp only at h
          by_cases hc : s2.currentToken = 41
          · simp [hc] at h
            refine ⟨s2, ⟨n, ?_⟩, hc, h.2.symm⟩
            rw [hE, h.1]
          · simp [hc] at h
  · intro s V s2 _ h hc
    obtain ⟨n, h⟩ := h
    refine ⟨n + 1, ?_⟩
    rw [ParseParenExpr, h]
    simp [hc]

theorem ParseParenExpr_yields_inner_expression_witness :
    (startState "(x+y)*z").currentToken = 40 ∧
    (∃ s2, Returns ParseExpression (getNextToken (startState "(x+y)*z"))
        (some (ExprAST.BinaryExprAST '+' (ExprAST.VariableExprAST ['x'])
          (ExprAST.VariableExprAST ['y']))) s2 ∧
      s2.currentToken = 41 ∧
      { input := [], lastChar := 122, identifier := ['y'], numberValue := 0,
        currentToken := 42,
        BinopPrecedence :=
          [(37, 40), (41, 0), (42, 40), (43, 20), (45, 20), (47, 40), (60, 10), (94, 50)],
        stderr := [] } = getNextToken s2) ∧
    (startState "(1+2").currentToken = 40 ∧
    Returns ParseParenExpr (startState "(1+2") none
      { input := [], lastChar := -1, identifier := [], numberValue := 22,
        currentToken := -1,
        BinopPrecedence := [(37, 40), (42, 40), (43, 20), (45, 20), (47, 40), (60, 10), (94, 50)],
        stderr := ["Error: expected ')'\n"] } :=
  ⟨by decide,
   ParseParenExpr_yields_inner_expression.1 (startState "(x+y)*z") _ _ (by decide)
      ⟨6, by rfl⟩,
   by decide,
   ParseParenExpr_yields_inner_expression.2 (startState "(1+2")
      (ExprAST.BinaryExprAST '+' (ExprAST.NumberExprAST 11) (ExprAST.NumberExprAST 22))
      { input := [], lastChar := -1, identifier := [], numberValue := 22,
        currentToken := -1,
        BinopPrecedence := [(37, 40), (42, 40), (43, 20), (45, 20), (47, 40), (60, 10), (94, 50)],
        stderr := [] } (by decide) ⟨6, by rfl⟩ (by decide)⟩

/-! ## Prototypes (C6) -/

theorem ParsePrototypeLoop_reads (ps : List (List Char)) :
    ∀ (acc : List (List Char)) (s s1 : State), ReadsIdentifiers s ps s1 →
      (getNextToken s1).currentToken ≠ identifierToken →
      ParsePrototypeLoop (ps.length + 1) acc s = some (acc ++ ps, getNextToken s1) := by
  induction ps with
  | nil =>
    intro acc s s1 h hne
    simp only [ReadsIdentifiers] at h
    subst h
    simp [ParsePrototypeLoop, hne]
  | cons p ps ih =>
    intro acc s s1 h hne
    obtain ⟨h1, h2, h3⟩ := h
    rw [List.length_cons, ParsePrototypeLoop]
    simp only [h1, beq_self_eq_true, if_true, h2]
    rw [ih _ _ _ h3 hne]
    simp

/-- C6: when the lookahead is the identifier `f`, the next token is `(`, the tokens after
it are the identifiers `ps` (any number of them, repetitions allowed) and the token after
these is `)`, `ParsePrototype` returns the prototype with the name `f` and the parameters
`ps` in their order, and leaves the lookahead on the token after the `)`. -/
theorem ParsePrototype_params_in_order (s : State) (f : List Char) (ps : List (List Char))
    (s1 : State)
    (hname : s.currentToken = identifierToken) (hf : s.identifier = f)
    (hopen : (getNextToken s).currentToken = 40)
    (hps : ReadsIdentifiers (getNextToken s) ps s1)
    (hclose : (getNextToken s1).currentToken = 41) :
    Returns ParsePrototype s (some { name := f, params := ps })
      (getNextToken (getNextToken s1)) := by
  refine ⟨ps.length + 1, ?_⟩
  have hne : (getNextToken s1).currentToken ≠ identifierToken := by
    rw [hclose]; decide
  unfold ParsePrototype
  simp [hname, hopen, ParsePrototypeLoop_reads ps [] _ _ hps hne, hclose, hf]

theorem ParsePrototype_params_in_order_witness :
    (startState "foo(a b a) x").currentToken = identifierToken ∧
    (startState "foo(a b a) x").identifier = ['f', 'o', 'o'] ∧
    (getNextToken (startState "foo(a b a) x")).currentToken = 40 ∧
    ReadsIdentifiers (getNextToken (startState "foo(a b a) x")) [['a'], ['b'], ['a']]
      { input := [' ', 'x'], lastChar := 41, identifier := ['a'], numberValue := 0,
        currentToken := -4,
        BinopPrecedence := [(37, 40), (42, 40), (43, 20), (45, 20), (47, 40), (60, 10), (94, 50)],
        stderr := [] } ∧
    Returns ParsePrototype (startState "foo(a b a) x")
      (some { name := ['f', 'o', 'o'], params := [['a'], ['b'], ['a']] })
      { input := [], lastChar := -1, identifier := ['x'], numberValue := 0,
        currentToken := -4,
        BinopPrecedence := [(37, 40), (42, 40), (43, 20), (45, 20), (47, 40), (60, 10), (94, 50)],
        stderr := [] } :=
  ⟨by decide, by decide, by decide, by simp only [ReadsIdentifiers]; decide,
   ParsePrototype_params_in_order (startState "foo(a b a) x") ['f', 'o', 'o']
    [['a'], ['b'], ['a']]
    { input := [' ', 'x'], lastChar := 41, identifier := ['a'], numberValue := 0,
      currentToken := -4,
      BinopPrecedence := [(37, 40), (42, 40), (43, 20), (45, 20), (47, 40), (60, 10), (94, 50)],
      stderr := [] }
    (by decide) (by decide) (by decide) (by simp only [ReadsIdentifiers]; decide) (by decide)⟩

/-! ## Calls (C5) -/

theorem ParsePrimary_some_token (n : Nat) (s : State) (E : ExprAST) (s1 : State)
    (h : ParsePrimary n s = some (some E, s1)) :
    s.currentToken = identifierToken ∨ s.currentToken = numberToken ∨ s.currentToken = 40 := by
  cases n with
  | zero => simp [ParsePrimary] at h
  | succ n =>
    rw [ParsePrimary] at h
    split at h
    · left; assumption
    · split at h
      · right; left; assumption
      · split at h
        · right; right; assumption
        · simp at h

theorem ParseExpression_some_token (n : Nat) (s : State) (E : ExprAST) (s1 : State)
    (h : ParseExpression n s = some (some E, s1)) :
    s.currentToken = identifierToken ∨ s.currentToken = numberToken ∨ s.currentToken = 40 := by
  cases n with
  | zero => simp [ParseExpression] at h
  | succ n =>
    rw [ParseExpression] at h
    cases hP : ParsePrimary n s with
    | none => simp [hP] at h
    | some x =>
      obtain ⟨o, s2⟩ := x
      cases o with
      | none => simp [hP] at h
      | some L => exact ParsePrimary_some_token n s L s2 hP

theorem ParseIdentifierExprLoop_arguments (Es : List ExprAST) :
    ∀ (acc : List ExprAST) (s s1 : State), ParsesArguments s Es s1 →
      ∃ n, ParseIdentifierExprLoop n acc s = some (some (acc ++ Es), s1) := by
  induction Es with
  | nil => intro acc s s1 h; exact absurd h (by simp [ParsesArguments])
  | cons E Es ih =>
    intro acc s s1 h
    cases Es with
    | nil =>
      obtain ⟨⟨n, hn⟩, hc⟩ := h
      refine ⟨n + 1, ?_⟩
      rw [ParseIdentifierExprLoop, hn]
      simp [hc]
    | cons E2 Es =>
      obtain ⟨t, ⟨n, hn⟩, hc, hrest⟩ := h
      obtain ⟨m, hm⟩ := ih (acc ++ [E]) _ _ hrest
      refine ⟨max n m + 1, ?_⟩
      rw [ParseIdentifierExprLoop, ParseExpression_mono hn (le_max_left n m)]
      simp only [hc]
      rw [ParseIdentifierExprLoop_mono hm (le_max_right n m)]
      simp

/-- C5: when the lookahead is the identifier `f`, the next token is `(`, the argument list
read after it yields the nodes `Es` (none at all when `)` follows at once) and the token
after the closing `)` is not a binary operator, `ParseExpression` returns the call node
of `f` with the arguments `Es` in their order, the closing `)` being consumed. -/
theorem ParseExpression_call (s : State) (f : List Char) (Es : List ExprAST) (s1 : State)
    (hname : s.currentToken = identifierToken) (hf : s.identifier = f)
    (hopen : (getNextToken s).currentToken = 40)
    (hargs : CallArguments (getNextToken (getNextToken s)) Es s1)
    (hend : (GetTokPrecedence (getNextToken s1)).1 < 0) :
    Returns ParseExpression s (some (ExprAST.CallExprAST f Es))
      (GetTokPrecedence (getNextToken s1)).2 := by
  have hident : ∃ n, ParseIdentifierExpr n s
      = some (some (ExprAST.CallExprAST f Es), getNextToken s1) := by
    cases Es with
    | nil =>
      obtain ⟨hc, hs⟩ := hargs
      subst hs
      refine ⟨1, ?_⟩
      rw [ParseIdentifierExpr]
      simp [hopen, hc, hf]
    | cons E Es =>
      obtain ⟨n, hn⟩ := ParseIdentifierExprLoop_arguments (E :: Es) [] _ _ hargs
      have hne : (getNextToken (getNextToken s)).currentToken ≠ 41 := by
        have hE : ∃ m t, ParseExpression m (getNextToken (getNextToken s)) = some (some E, t) := by
          cases Es with
          | nil => obtain ⟨⟨m, hm⟩, _⟩ := hargs; exact ⟨m, _, hm⟩
          | cons E2 Es => obtain ⟨t, ⟨m, hm⟩, _⟩ := hargs; exact ⟨m, _, hm⟩
        obtain ⟨m, t, hm⟩ := hE
        rcases ParseExpression_some_token _ _ _ _ hm with h | h | h <;> rw [h] <;> decide
      refine ⟨n + 1, ?_⟩
      rw [ParseIdentifierExpr]
      simp [hopen, hne, hn, hf]
  obtain ⟨n, hn⟩ := hident
  refine ⟨n + 2, ?_⟩
  rw [ParseExpression, ParsePrimary]
  simp only [hname, if_true, hn]
  rw [ParseBinOpRHS]
  simp [hend]

theorem ParseExpression_call_witness :
    (startState "foo(1,2,3)").currentToken = identifierToken ∧
    (startState "foo(1,2,3)").identifier = ['f', 'o', 'o'] ∧
    (getNextToken (startState "foo(1,2,3)")).currentToken = 40 ∧
    Returns ParseExpression (startState "foo(1,2,3)")
      (some (ExprAST.CallExprAST ['f', 'o', 'o']
        [ExprAST.NumberExprAST 11, ExprAST.NumberExprAST 22, ExprAST.NumberExprAST 33]))
      { input := [], lastChar := -1, identifier := ['f', 'o', 'o'], numberValue := 33,
        currentToken := -1,
        BinopPrecedence := [(37, 40), (41, 0), (42, 40), (43, 20), (44, 0), (45, 20),
          (47, 40), (60, 10), (94, 50)],
        stderr := [] } ∧
    Returns ParseExpression (startState "foo()")
      (some (ExprAST.CallExprAST ['f', 'o', 'o'] []))
      { input := [], lastChar := -1, identifier := ['f', 'o', 'o'], numberValue := 0,
        currentToken := -1,
        BinopPrecedence := [(37, 40), (42, 40), (43, 20), (45, 20), (47, 40), (60, 10),
          (94, 50)],
        stderr := [] } :=
  ⟨by decide, by decide, by decide,
   ParseExpression_call (startState "foo(1,2,3)") ['f', 'o', 'o']
    [ExprAST.NumberExprAST 11, ExprAST.NumberExprAST 22, ExprAST.NumberExprAST 33]
    { input := [], lastChar := -1, identifier := ['f', 'o', 'o'], numberValue := 33,
      currentToken := 41,
      BinopPrecedence := [(37, 40), (41, 0), (42, 40), (43, 20), (44, 0), (45, 20),
        (47, 40), (60, 10), (94, 50)],
      stderr := [] }
    (by decide) (by decide) (by decide)
    (by
      simp only [CallArguments, ParsesArguments]
      exact ⟨{ input := [',', '3', ')'], lastChar := 50, identifier := ['f', 'o', 'o'],
               numberValue := 11, currentToken := 44,
               BinopPrecedence := [(37, 40), (42, 40), (43, 20), (44, 0), (45, 20),
                 (47, 40), (60, 10), (94, 50)],
               stderr := [] }, ⟨3, by rfl⟩, by decide,
             { input := [')'], lastChar := 51, identifier := ['f', 'o', 'o'],
               numberValue := 22, currentToken := 44,
               BinopPrecedence := [(37, 40), (42, 40), (43, 20), (44, 0), (45, 20),
                 (47, 40), (60, 10), (94, 50)],
               stderr := [] }, ⟨3, by rfl⟩, by decide, ⟨3, by rfl⟩, by decide⟩)
    (by decide),
   ParseExpression_call (startState "foo()") ['f', 'o', 'o'] []
    (getNextToken (getNextToken (startState "foo()")))
    (by decide) (by decide) (by decide) ⟨by decide, rfl⟩ (by decide)⟩

/-! ## Error reports (C9) -/

/-- C9: each of the nine parsing functions, whenever it returns, has written exactly one
line `Error: <message>` if it returns no result and nothing if it returns a node. -/
theorem parse_failure_reports_once :
    ReportsOnce ParsePrimary ∧ ReportsOnce ParseExpression ∧
    (∀ (ExprPrec : Int) (LHS : ExprAST),
      ReportsOnce (fun fuel s => ParseBinOpRHS fuel ExprPrec LHS s)) ∧
    ReportsOnce ParseParenExpr ∧ ReportsOnce ParseIdentifierExpr ∧
    ReportsOnce ParsePrototype ∧ ReportsOnce ParseDefinition ∧ ReportsOnce ParseExtern ∧
    ReportsOnce ParseTopLevelExpr :=
  ⟨fun n => (parse_reports n).2.2.2.1, fun n => (parse_reports n).2.2.2.2.2,
   fun p L n => (parse_reports n).2.2.2.2.1 p L, fun n => (parse_reports n).1,
   fun n => (parse_reports n).2.2.1, ParsePrototype_reports, ParseDefinition_reports,
   ParseExtern_reports, ParseTopLevelExpr_reports⟩

theorem parse_failure_reports_once_witness :
    ParseExpression 6 (startState "(1+2") = some (none,
      { input := [], lastChar := -1, identifier := [], numberValue := 22,
        currentToken := -1,
        BinopPrecedence := [(37, 40), (42, 40), (43, 20), (45, 20), (47, 40), (60, 10), (94, 50)],
        stderr := ["Error: expected ')'\n"] }) ∧
    Reported (startState "(1+2") true
      { input := [], lastChar := -1, identifier := [], numberValue := 22,
        currentToken := -1,
        BinopPrecedence := [(37, 40), (42, 40), (43, 20), (45, 20), (47, 40), (60, 10), (94, 50)],
        stderr := ["Error: expected ')'\n"] } ∧
    (startState "(1+2").stderr = [] :=
  ⟨by rfl, parse_failure_reports_once.2.1 6 (startState "(1+2") none _ (by rfl), by decide⟩

theorem startState_TableOK (text : String) : TableOK (startState text).BinopPrecedence := by
  intro k
  unfold startState
  rw [getNextToken_BinopPrecedence, installed_table _ rfl]
  exact tablePrecedence_installed k

/-! ## Operator precedence (C1, C2) -/

/-- C1: with the declared table, for operators `op1`, `op2` where `op2` binds more
tightly than `op1`, and primary expressions yielding `A`, `B`, `C` followed by a token
that is no operator: on `a op1 b op2 c` `ParseExpression` returns `A op1 (B op2 C)`, and
on `a op2 b op1 c` it returns `(A op2 B) op1 C`. -/
theorem ParseExpression_precedence_grouping (s0 s5 : State) (A B C : ExprAST)
    (op1 op2 : Int)
    (hok : TableOK s0.BinopPrecedence)
    (h1 : 0 < declaredPrecedence op1)
    (h12 : declaredPrecedence op1 < declaredPrecedence op2)
    (hend : declaredPrecedence s5.currentToken = -1) :
    (ThreeOperands s0 A op1 B op2 C s5 →
      Returns ParseExpression s0
        (some (ExprAST.BinaryExprAST (toChar op1) A
          (ExprAST.BinaryExprAST (toChar op2) B C)))
        (GetTokPrecedence s5).2) ∧
    (ThreeOperands s0 A op2 B op1 C s5 →
      Returns ParseExpression s0
        (some (ExprAST.BinaryExprAST (toChar op1)
          (ExprAST.BinaryExprAST (toChar op2) A B) C))
        (GetTokPrecedence s5).2) :=
  ⟨ParseExpression_groups_right s0 s5 A B C op1 op2 hok h1 h12 hend,
   ParseExpression_groups_left s0 s5 A B C op2 op1 hok h1 (le_of_lt h12) hend⟩

theorem ParseExpression_precedence_grouping_witness :
    TableOK (startState "1+2*3").BinopPrecedence ∧
    0 < declaredPrecedence 43 ∧ declaredPrecedence 43 < declaredPrecedence 42 ∧
    Returns ParseExpression (startState "1+2*3")
      (some (ExprAST.BinaryExprAST '+' (ExprAST.NumberExprAST 11)
        (ExprAST.BinaryExprAST '*' (ExprAST.NumberExprAST 22) (ExprAST.NumberExprAST 33))))
      { input := [], lastChar := -1, identifier := [], numberValue := 33,
        currentToken := -1,
        BinopPrecedence := [(37, 40), (42, 40), (43, 20), (45, 20), (47, 40), (60, 10),
          (94, 50)],
        stderr := [] } ∧
    Returns ParseExpression (startState "1*2+3")
      (some (ExprAST.BinaryExprAST '+'
        (ExprAST.BinaryExprAST '*' (ExprAST.NumberExprAST 11) (ExprAST.NumberExprAST 22))
        (ExprAST.NumberExprAST 33)))
      { input := [], lastChar := -1, identifier := [], numberValue := 33,
        currentToken := -1,
        BinopPrecedence := [(37, 40), (42, 40), (43, 20), (45, 20), (47, 40), (60, 10),
          (94, 50)],
        stderr := [] } :=
  ⟨startState_TableOK _, by decide, by decide,
   (ParseExpression_precedence_grouping (startState "1+2*3")
      (getNextToken (getNextToken (getNextToken (getNextToken (getNextToken
        (startState "1+2*3"))))))
      (ExprAST.NumberExprAST 11) (ExprAST.NumberExprAST 22) (ExprAST.NumberExprAST 33) 43 42
      (startState_TableOK _) (by decide) (by decide) (by decide)).1
      ⟨_, _, ⟨1, by rfl⟩, by decide, ⟨1, by rfl⟩, by decide, ⟨1, by rfl⟩⟩,
   (ParseExpression_precedence_grouping (startState "1*2+3")
      (getNextToken (getNextToken (getNextToken (getNextToken (getNextToken
        (startState "1*2+3"))))))
      (ExprAST.NumberExprAST 11) (ExprAST.NumberExprAST 22) (ExprAST.NumberExprAST 33) 43 42
      (startState_TableOK _) (by decide) (by decide) (by decide)).2
      ⟨_, _, ⟨1, by rfl⟩, by decide, ⟨1, by rfl⟩, by decide, ⟨1, by rfl⟩⟩⟩

/-- C2: with the declared table, for operators `op1`, `op2` of one and the same
precedence, and primary expressions yielding `A`, `B`, `C` followed by a token that is no
operator: on `a op1 b op2 c` `ParseExpression` returns `(A op1 B) op2 C`. -/
theorem ParseExpression_equal_precedence_groups_left (s0 s5 : State) (A B C : ExprAST)
    (op1 op2 : Int)
    (hok : TableOK s0.BinopPrecedence)
    (h1 : 0 < declaredPrecedence op1)
    (h12 : declaredPrecedence op1 = declaredPrecedence op2)
    (hend : declaredPrecedence s5.currentToken = -1)
    (h : ThreeOperands s0 A op1 B op2 C s5) :
    Returns ParseExpression s0
      (some (ExprAST.BinaryExprAST (toChar op2)
        (ExprAST.BinaryExprAST (toChar op1) A B) C))
      (GetTokPrecedence s5).2 :=
  ParseExpression_groups_left s0 s5 A B C op1 op2 hok (by omega) (by omega) hend h

theorem ParseExpression_equal_precedence_groups_left_witness :
    TableOK (startState "2^3^2").BinopPrecedence ∧
    0 < declaredPrecedence 94 ∧
    ThreeOperands (startState "2^3^2") (ExprAST.NumberExprAST 22) 94
      (ExprAST.NumberExprAST 33) 94 (ExprAST.NumberExprAST 22)
      (getNextToken (getNextToken (getNextToken (getNextToken (getNextToken
        (startState "2^3^2")))))) ∧
    Returns ParseExpression (startState "2^3^2")
      (some (ExprAST.BinaryExprAST '^'
        (ExprAST.BinaryExprAST '^' (ExprAST.NumberExprAST 22) (ExprAST.NumberExprAST 33))
        (ExprAST.NumberExprAST 22)))
      { input := [], lastChar := -1, identifier := [], numberValue := 22,
        currentToken := -1,
        BinopPrecedence := [(37, 40), (42, 40), (43, 20), (45, 20), (47, 40), (60, 10),
          (94, 50)],
        stderr := [] } :=
  ⟨startState_TableOK _, by decide,
   ⟨_, _, ⟨1, by rfl⟩, by decide, ⟨1, by rfl⟩, by decide, ⟨1, by rfl⟩⟩,
   ParseExpression_equal_precedence_groups_left (startState "2^3^2")
      (getNextToken (getNextToken (getNextToken (getNextToken (getNextToken
        (startState "2^3^2"))))))
      (ExprAST.NumberExprAST 22) (ExprAST.NumberExprAST 33) (ExprAST.NumberExprAST 22) 94 94
      (startState_TableOK _) (by decide) (by decide) (by decide)
      ⟨_, _, ⟨1, by rfl⟩, by decide, ⟨1, by rfl⟩, by decide, ⟨1, by rfl⟩⟩⟩

/-! ## Termination of the driver (C10) -/

theorem parseSize_main_start (input : List Char) :
    parseSize (getNextToken (fprintf "ready> " (installBinops (initialState input))))
      ≤ input.length + 2 := by
  have h := (parseSize_getNextToken (fprintf "ready> " (installBinops (initialState input)))).1
  have e : parseSize (fprintf "ready> " (installBinops (initialState input)))
      = input.length + 2 := by
    simp [parseSize, scanSize, charsLeft, fprintf, installBinops, initialState, EOF, EOFToken]
  omega

/-- C10: `MainLoop` returns from every state, at the end of input, as soon as the fuel
exceeds four times the number of tokens that are left; so does `main` on every input;
and each turn of the loop entered with a lookahead other than the end of input, be it
the skip of a `;` or one of the three handlers, returns with fewer tokens left. -/
theorem MainLoop_terminates :
    (∀ (s : State) (fuel : Nat), 4 * parseSize s + 5 ≤ fuel →
      ∃ s1, MainLoop fuel s = some s1 ∧ s1.currentToken = EOFToken) ∧
    (∀ (input : List Char) (fuel : Nat), 4 * input.length + 13 ≤ fuel →
      ∃ s1, main fuel input = some s1 ∧ s1.currentToken = EOFToken) ∧
    (∀ (s : State) (fuel : Nat), s.currentToken ≠ EOFToken → 4 * parseSize s + 3 ≤ fuel →
      parseSize (getNextToken s) < parseSize s ∧
      (∃ s1, HandleDefinition fuel s = some s1 ∧ parseSize s1 < parseSize s) ∧
      (∃ s1, HandleExtern fuel s = some s1 ∧ parseSize s1 < parseSize s) ∧
      (∃ s1, HandleTopLevelExpression fuel s = some s1 ∧ parseSize s1 < parseSize s)) := by
  refine ⟨fun s fuel h => MainLoop_returns fuel s h, ?_, ?_⟩
  · intro input fuel h
    have := parseSize_main_start input
    exact MainLoop_returns fuel _ (by omega)
  · intro s fuel ht h
    exact ⟨(parseSize_getNextToken s).2 ht, HandleDefinition_returns fuel s h ht,
      HandleExtern_returns fuel s h ht, HandleTopLevelExpression_returns fuel s h ht⟩

theorem MainLoop_terminates_witness :
    4 * parseSize (startState "(1+2") + 5 ≤ 30 ∧
    (∃ s1, MainLoop 30 (startState "(1+2") = some s1 ∧ s1.currentToken = EOFToken) ∧
    4 * "def f(x) x#".toList.length + 13 ≤ 60 ∧
    (∃ s1, main 60 "def f(x) x#".toList = some s1 ∧ s1.currentToken = EOFToken) :=
  ⟨by decide, MainLoop_terminates.1 (startState "(1+2") 30 (by decide), by decide,
   MainLoop_terminates.2.1 "def f(x) x#".toList 60 (by decide)⟩

/-! ## Fuel of the driver -/

theorem ParsePrototypeLoop_succ (n : Nat) :
    ∀ acc s r, ParsePrototypeLoop n acc s = some r →
      ParsePrototypeLoop (n + 1) acc s = some r := by
  induction n with
  | zero => intro acc s r h; simp [ParsePrototypeLoop] at h
  | succ n ih =>
    intro acc s r h
    rw [ParsePrototypeLoop] at h ⊢
    split
    · rename_i hi
      simp only [hi, if_true] at h
      exact ih _ _ _ h
    · rename_i hi
      simpa [hi] using h

theorem ParsePrototype_succ (n : Nat) (s : State) (r : Option PrototypeAST × State)
    (h : ParsePrototype n s = some r) : ParsePrototype (n + 1) s = some r := by
  unfold ParsePrototype at h ⊢
  split
  · rename_i h1; simpa [h1] using h
  · rename_i h1
    simp only [h1, if_false] at h ⊢
    split
    · rename_i h2; simpa [h2] using h
    · rename_i h2
      simp only [h2, if_false] at h
      cases hL : ParsePrototypeLoop n [] (getNextToken s) with
      | none => simp [hL] at h
      | some x =>
        rw [ParsePrototypeLoop_succ n _ _ _ hL]
        rw [hL] at h
        exact h

theorem ParseExpression_succ (n : Nat) (s : State) (r : Option ExprAST × State)
    (h : ParseExpression n s = some r) : ParseExpression (n + 1) s = some r :=
  ParseExpression_mono h (Nat.le_succ n)

theorem ParseDefinition_succ (n : Nat) (s : State) (r : Option FunctionAST × State)
    (h : ParseDefinition n s = some r) : ParseDefinition (n + 1) s = some r := by
  unfold ParseDefinition at h ⊢
  simp only at h ⊢
  cases hP : ParsePrototype n (getNextToken s) with
  | none => simp [hP] at h
  | some x =>
    rw [ParsePrototype_succ n _ _ hP]
    rw [hP] at h
    obtain ⟨o, s2⟩ := x
    cases o with
    | none => exact h
    | some Proto =>
      simp only at h ⊢
      cases hE : ParseExpression n s2 with
      | none => simp [hE] at h
      | some y =>
        rw [ParseExpression_succ n _ _ hE]
        rw [hE] at h
        exact h

theorem ParseTopLevelExpr_succ (n : Nat) (s : State) (r : Option FunctionAST × State)
    (h : ParseTopLevelExpr n s = some r) : ParseTopLevelExpr (n + 1) s = some r := by
  unfold ParseTopLevelExpr at h ⊢
  cases hE : ParseExpression n s with
  | none => simp [hE] at h
  | some y =>
    rw [ParseExpression_succ n _ _ hE]
    rw [hE] at h
    exact h

theorem HandleDefinition_succ (n : Nat) (s s1 : State)
    (h : HandleDefinition n s = some s1) : HandleDefinition (n + 1) s = some s1 := by
  unfold HandleDefinition at h ⊢
  cases hD : ParseDefinition n s with
  | none => simp [hD] at h
  | some x =>
    rw [ParseDefinition_succ n _ _ hD]
    rw [hD] at h
    exact h

theorem HandleExtern_succ (n : Nat) (s s1 : State)
    (h : HandleExtern n s = some s1) : HandleExtern (n + 1) s = some s1 := by
  unfold HandleExtern ParseExtern at h ⊢
  cases hD : ParsePrototype n (getNextToken s) with
  | none => simp [hD] at h
  | some x =>
    rw [ParsePrototype_succ n _ _ hD]
    rw [hD] at h
    exact h

theorem HandleTopLevelExpression_succ (n : Nat) (s s1 : State)
    (h : HandleTopLevelExpression n s = some s1) :
    HandleTopLevelExpression (n + 1) s = some s1 := by
  unfold HandleTopLevelExpression at h ⊢
  cases hD : ParseTopLevelExpr n s with
  | none => simp [hD] at h
  | some x =>
    rw [ParseTopLevelExpr_succ n _ _ hD]
    rw [hD] at h
    exact h

theorem MainLoop_succ (n : Nat) :
    ∀ s s1, MainLoop n s = some s1 → MainLoop (n + 1) s = some s1 := by
  induction n with
  | zero => intro s s1 h; simp [MainLoop] at h
  | succ n ih =>
    intro s s1 h
    rw [MainLoop] at h ⊢
    split
    · rename_i h1; simpa [h1] using h
    · rename_i h1
      simp only [h1, if_false] at h
      split
      · rename_i h2
        simp only [h2, if_true] at h
        exact ih _ _ h
      · rename_i h2
        simp only [h2, if_false] at h
        split
        · rename_i h3
          simp only [h3, if_true] at h
          cases hH : HandleDefinition n (fprintf "ready> " s) with
          | none => simp [hH] at h
          | some s2 =>
            rw [HandleDefinition_succ n _ _ hH]
            rw [hH] at h
            exact ih _ _ h
        · rename_i h3
          simp only [h3, if_false] at h
          split
          · rename_i h4
            simp only [h4, if_true] at h
            cases hH : HandleExtern n (fprintf "ready> " s) with
            | none => simp [hH] at h
            | some s2 =>
              rw [HandleExtern_succ n _ _ hH]
              rw [hH] at h
              exact ih _ _ h
          · rename_i h4
            simp only [h4, if_false] at h
            cases hH : HandleTopLevelExpression n (fprintf "ready> " s) with
            | none => simp [hH] at h
            | some s2 =>
              rw [HandleTopLevelExpression_succ n _ _ hH]
              rw [hH] at h
              exact ih _ _ h

/-- More fuel does not change the state in which `main` returns. -/
theorem main_mono (n m : Nat) (input : List Char) (s1 : State)
    (h : main n input = some s1) (hnm : n ≤ m) : main m input = some s1 := by
  induction hnm with
  | refl => exact h
  | step _ ih => exact MainLoop_succ _ _ _ ih

/-! ## A full run of the driver (C11) -/

/-- C11: with enough fuel, `main` on the input `def foo(x) x+1; foo(2);` returns at the
end of input, and what it has written to `stderr` besides the prompts is
"Parsed a function definition." followed by "Parsed a top-level expr" and nothing else,
hence no error report. -/
theorem main_reports_definition_then_expression (fuel : Nat) (hfuel : 30 ≤ fuel) :
    ∃ s1, main fuel "def foo(x) x+1; foo(2);".toList = some s1 ∧
      s1.stderr.filter (fun line => line != "ready> ")
        = ["Parsed a function definition.\n", "Parsed a top-level expr\n"] ∧
      s1.currentToken = EOFToken ∧ s1.input = [] ∧ s1.lastChar = EOF :=
  ⟨{ input := [], lastChar := -1, identifier := ['f', 'o', 'o'], numberValue := 22,
     currentToken := -1,
     BinopPrecedence := [(37, 40), (41, 0), (42, 40), (43, 20), (45, 20), (47, 40),
       (59, 0), (60, 10), (94, 50)],
     stderr := ["ready> ", "ready> ", "Parsed a function definition.\n", "ready> ",
       "ready> ", "Parsed a top-level expr\n", "ready> ", "ready> "] },
   main_mono 30 fuel _ _ (by rfl) hfuel, by decide, by decide, by decide, by decide⟩

theorem main_reports_definition_then_expression_witness :
    30 ≤ 45 ∧
    ∃ s1, main 45 "def foo(x) x+1; foo(2);".toList = some s1 ∧
      s1.stderr.filter (fun line => line != "ready> ")
        = ["Parsed a function definition.\n", "Parsed a top-level expr\n"] ∧
      s1.currentToken = EOFToken ∧ s1.input = [] ∧ s1.lastChar = EOF :=
  ⟨by decide, main_reports_definition_then_expression 45 (by decide)⟩

/-! ## End of input in the scanner (C20) -/

theorem skipSpaces_not_space (lc : Int) (inp : List Char) (h : isspace lc = false) :
    skipSpaces lc inp = (lc, inp) := by
  cases inp <;> simp [skipSpaces, h]

theorem GetTokenFuel_EOF_lastChar (fuel : Nat) (s : State) (r : Int × State)
    (h : GetTokenFuel fuel s = some r) (hr : r.1 = EOFToken) : r.2.lastChar = EOF := by
  induction fuel generalizing s with
  | zero => simp [GetTokenFuel] at h
  | succ n ih =>
    unfold GetTokenFuel at h
    simp only at h
    split at h
    · split at h
      · injection h with h; subst h
        simp [defToken, externToken, identifierToken, numberToken, EOFToken] at hr
      · split at h
        · injection h with h; subst h
          simp [defToken, externToken, identifierToken, numberToken, EOFToken] at hr
        · injection h with h; subst h
          simp [defToken, externToken, identifierToken, numberToken, EOFToken] at hr
    · split at h
      · injection h with h; subst h
        simp [defToken, externToken, identifierToken, numberToken, EOFToken] at hr
      · split at h
        · split at h
          · exact ih _ h
          · rename_i hne
            injection h with h; subst h
            simpa using hne
        · split at h
          · rename_i he
            injection h with h; subst h
            simpa using he
          · rename_i he
            injection h with h; subst h
            simp only at hr
            exact absurd hr (by simpa [EOF, EOFToken] using he)

theorem GetToken_EOF_lastChar (s : State) (h : (GetToken s).1 = EOFToken) :
    (GetToken s).2.lastChar = EOF := by
  obtain ⟨r, hr⟩ := GetTokenFuel_length (s.input.length + 1) s (Nat.lt_succ_self _)
  rw [GetToken_of_fuel _ _ _ hr] at h ⊢
  exact GetTokenFuel_EOF_lastChar _ _ _ hr h

theorem GetToken_at_EOF (s : State) (h : s.lastChar = EOF) : GetToken s = (EOFToken, s) := by
  rw [GetToken_unfold]
  have hsp : skipSpaces s.lastChar s.input = (EOF, s.input) := by
    rw [h]; exact skipSpaces_not_space _ _ (by decide)
  simp only [hsp]
  have e1 : isalpha EOF = false := by decide
  have e2 : (isdigit EOF || EOF == 46) = false := by decide
  have e3 : (EOF == 35) = false := by decide
  simp only [e1, e2, e3, Bool.false_eq_true, if_false, beq_self_eq_true, if_true]
  rw [← h]

/-- C20: once `GetToken` has returned the end-of-input token, the next call returns it
again and leaves the whole state as it is (pending character, unread input, identifier
buffer and numeric value included), and so does every later call. -/
theorem GetToken_EOF_absorbing (s : State) (h : (GetToken s).1 = EOFToken) :
    GetToken (GetToken s).2 = (EOFToken, (GetToken s).2) ∧
    ∀ k : Nat, (fun t => (GetToken t).2)^[k] (GetToken s).2 = (GetToken s).2 ∧
      (GetToken ((fun t => (GetToken t).2)^[k] (GetToken s).2)).1 = EOFToken := by
  have h1 := GetToken_at_EOF (GetToken s).2 (GetToken_EOF_lastChar s h)
  refine ⟨h1, ?_⟩
  intro k
  have hk : (fun t => (GetToken t).2)^[k] (GetToken s).2 = (GetToken s).2 := by
    induction k with
    | zero => rfl
    | succ k ih => rw [Function.iterate_succ_apply', ih, h1]
  rw [hk, h1]
  exact ⟨rfl, rfl⟩

theorem GetToken_EOF_absorbing_witness :
    (GetToken (initialState "x #c".toList)).1 = identifierToken ∧
    (GetToken (GetToken (initialState "x #c".toList)).2).1 = EOFToken ∧
    GetToken (GetToken (GetToken (initialState "x #c".toList)).2).2
      = (EOFToken,
          { input := [], lastChar := -1, identifier := ['x'], numberValue := 0,
            currentToken := 0, BinopPrecedence := [], stderr := [] }) :=
  ⟨by decide, by decide,
   (GetToken_EOF_absorbing (GetToken (initialState "x #c".toList)).2 (by decide)).1⟩

/-! ## White space and comments (C12) -/

theorem skipSpaces_onlyBlank (inp : List Char) :
    ∀ lc : Int, isspace lc = true → onlyBlank false inp = true →
      skipSpaces lc inp = (EOF, []) ∨
      ∃ rest, skipSpaces lc inp = (35, rest) ∧ onlyBlank true rest = true ∧
        rest.length < inp.length := by
  induction inp with
  | nil => intro lc h _; left; simp [skipSpaces, h]
  | cons c cs ih =>
    intro lc h hb
    simp only [skipSpaces, h, if_true]
    simp only [onlyBlank] at hb
    by_cases hs : isspace (c.toNat : Int) = true
    · simp only [hs, if_true] at hb
      rcases ih _ hs hb with h1 | ⟨rest, h1, h2, h3⟩
      · left; exact h1
      · right; exact ⟨rest, h1, h2, by simp only [List.length_cons]; omega⟩
    · simp only [hs, Bool.false_eq_true, if_false] at hb
      by_cases h35 : (c.toNat : Int) = 35
      · simp only [h35, if_true] at hb
        right
        refine ⟨cs, ?_, hb, by simp⟩
        rw [skipSpaces_not_space _ _ (by simpa using hs), h35]
      · simp [h35] at hb

theorem skipComment_onlyBlank (inp : List Char) :
    ∀ lc : Int, (lc != EOF && lc != 10 && lc != 13) = true → onlyBlank true inp = true →
      skipComment lc inp = (EOF, []) ∨
      ∃ c rest, skipComment lc inp = (c, rest) ∧ (c = 10 ∨ c = 13) ∧
        onlyBlank false rest = true ∧ rest.length < inp.length := by
  induction inp with
  | nil => intro lc h _; left; simp [skipComment, h]
  | cons c cs ih =>
    intro lc h hb
    simp only [skipComment, h, if_true]
    simp only [onlyBlank] at hb
    by_cases hn : (c.toNat : Int) = 10 ∨ (c.toNat : Int) = 13
    · simp only [hn, if_true] at hb
      right
      refine ⟨(c.toNat : Int), cs, ?_, hn, hb, by simp⟩
      have hstop : ((c.toNat : Int) != EOF && (c.toNat : Int) != 10 && (c.toNat : Int) != 13)
          = false := by
        rcases hn with hn | hn <;> rw [hn] <;> decide
      cases cs <;> simp [skipComment, hstop]
    · simp only [hn, if_false] at hb
      have hgo : ((c.toNat : Int) != EOF && (c.toNat : Int) != 10 && (c.toNat : Int) != 13)
          = true := by
        have h0 : (c.toNat : Int) ≠ EOF := by unfold EOF; omega
        have h1 : (c.toNat : Int) ≠ 10 := fun e => hn (Or.inl e)
        have h2 : (c.toNat : Int) ≠ 13 := fun e => hn (Or.inr e)
        simp [h0, h1, h2]
      rcases ih _ hgo hb with h1 | ⟨c1, rest, h1, h2, h3, h4⟩
      · left; exact h1
      · right; exact ⟨c1, rest, h1, h2, h3, by simp only [List.length_cons]; omega⟩

theorem GetToken_onlyBlank (n : Nat) :
    ∀ s : State, s.input.length ≤ n →
      ((isspace s.lastChar = true ∧ onlyBlank false s.input = true) ∨
       (s.lastChar = 35 ∧ onlyBlank true s.input = true)) →
      GetToken s = (EOFToken, { s with lastChar := EOF, input := [] }) := by
  induction n using Nat.strong_induction_on with
  | _ n ih =>
    intro s hn hb
    -- the comment branch, entered with `#` pending and the rest of a comment ahead
    have comment : ∀ rest : List Char, rest.length ≤ s.input.length →
        skipSpaces s.lastChar s.input = (35, rest) → onlyBlank true rest = true →
        GetToken s = (EOFToken, { s with lastChar := EOF, input := [] }) := by
      intro rest hlen hsp hrest
      rw [GetToken_unfold]
      simp only [hsp]
      have e1 : isalpha 35 = false := by decide
      have e2 : (isdigit 35 || (35 : Int) == 46) = false := by decide
      simp only [e1, e2, Bool.false_eq_true, if_false, beq_self_eq_true, if_true]
      rcases skipComment_onlyBlank rest 35 (by decide) hrest with h1 | ⟨c, r2, h1, h2, h3, h4⟩
      · simp [h1]
      · have hc : (c != EOF) = true := by
          rcases h2 with h2 | h2 <;> rw [h2] <;> decide
        have hcs : isspace c = true := by
          rcases h2 with h2 | h2 <;> rw [h2] <;> decide
        simp only [h1, hc, if_true]
        exact ih r2.length (by omega) { s with lastChar := c, input := r2 } (le_refl _)
          (Or.inl ⟨hcs, h3⟩)
    rcases hb with ⟨hs, hb⟩ | ⟨h35, hb⟩
    · rcases skipSpaces_onlyBlank s.input s.lastChar hs hb with h1 | ⟨rest, h1, h2, h3⟩
      · rw [GetToken_unfold]
        simp only [h1]
        have e1 : isalpha EOF = false := by decide
        have e2 : (isdigit EOF || EOF == 46) = false := by decide
        have e3 : (EOF == 35) = false := by decide
        simp [e1, e2, e3]
      · exact comment rest (by omega) h1 h2
    · have hsp : skipSpaces s.lastChar s.input = (35, s.input) := by
        rw [h35]; exact skipSpaces_not_space _ _ (by decide)
      exact comment s.input (le_refl _) hsp hb

/-- C12: on every input made of white space and `#` comments only, the first call of
`GetToken` returns the end-of-input token; the identifier buffer and the numeric value
are untouched and the input is read to its end. -/
theorem GetToken_blank_input (input : List Char) (h : onlyBlank false input = true) :
    GetToken (initialState input)
      = (EOFToken, { initialState input with lastChar := EOF, input := [] }) :=
  GetToken_onlyBlank input.length (initialState input) (le_refl _) (Or.inl ⟨rfl, h⟩)

theorem GetToken_blank_input_witness :
    onlyBlank false " \t# def 1 + x\r\n  \n#( # 2".toList = true ∧
    GetToken (initialState " \t# def 1 + x\r\n  \n#( # 2".toList)
      = (EOFToken,
          { input := [], lastChar := -1, identifier := [], numberValue := 0,
            currentToken := 0, BinopPrecedence := [], stderr := [] }) :=
  ⟨by decide, GetToken_blank_input " \t# def 1 + x\r\n  \n#( # 2".toList (by decide)⟩

/-! ## Failures of `ParsePrototype` (C13) -/

theorem ParsePrototypeLoop_run (n : Nat) :
    ∀ (acc : List (List Char)) (s : State), s.currentToken ≠ EOFToken →
      parseSize s + 1 ≤ n →
      ∃ ps s1, ReadsIdentifiers s ps s1 ∧
        (getNextToken s1).currentToken ≠ identifierToken ∧
        ParsePrototypeLoop n acc s = some (acc ++ ps, getNextToken s1) := by
  induction n with
  | zero => intro acc s _ h; omega
  | succ n ih =>
    intro acc s ht hn
    rw [ParsePrototypeLoop]
    have h1 := (parseSize_getNextToken s).2 ht
    by_cases hi : (getNextToken s).currentToken = identifierToken
    · obtain ⟨ps, s1, hr, hne, hl⟩ := ih (acc ++ [(getNextToken s).identifier])
        (getNextToken s) (by rw [hi]; decide) (by omega)
      refine ⟨(getNextToken s).identifier :: ps, s1, ⟨hi, rfl, hr⟩, hne, ?_⟩
      simp only [hi, beq_self_eq_true, if_true, hl]
      simp
    · refine ⟨[], s, rfl, hi, ?_⟩
      have hb : ((getNextToken s).currentToken == identifierToken) = false := by
        simpa using hi
      simp [hb]

/-- C13: with fuel for the parameter loop, `ParsePrototype` returns no result with
"Expected function name in prototype" when the lookahead is no identifier; otherwise with
"Expected '(' in prototype" when the next token is not `(`; otherwise it reads the run of
identifiers that follows and returns no result with "Expected ')' in prototype" when the
first token after the run is not `)`, and the prototype in the remaining case. -/
theorem ParsePrototype_failures (s : State) (fuel : Nat) (hfuel : parseSize s + 1 ≤ fuel) :
    (s.currentToken ≠ identifierToken →
      ParsePrototype fuel s
        = some (none, LogError "Expected function name in prototype" s)) ∧
    (s.currentToken = identifierToken → (getNextToken s).currentToken ≠ 40 →
      ParsePrototype fuel s
        = some (none, LogError "Expected '(' in prototype" (getNextToken s))) ∧
    (s.currentToken = identifierToken → (getNextToken s).currentToken = 40 →
      ∃ ps s1, ReadsIdentifiers (getNextToken s) ps s1 ∧
        (getNextToken s1).currentToken ≠ identifierToken ∧
        ((getNextToken s1).currentToken ≠ 41 →
          ParsePrototype fuel s
            = some (none, LogError "Expected ')' in prototype" (getNextToken s1))) ∧
        ((getNextToken s1).currentToken = 41 →
          ParsePrototype fuel s
            = some (some { name := s.identifier, params := ps },
                getNextToken (getNextToken s1)))) := by
  refine ⟨?_, ?_, ?_⟩
  · intro h
    unfold ParsePrototype
    simp [h]
  · intro h1 h2
    unfold ParsePrototype
    simp [h1, h2]
  · intro h1 h2
    have hsz := (parseSize_getNextToken s).1
    obtain ⟨ps, s1, hr, hne, hl⟩ := ParsePrototypeLoop_run fuel [] (getNextToken s)
      (by rw [h2]; decide) (by omega)
    refine ⟨ps, s1, hr, hne, ?_, ?_⟩
    · intro hc
      unfold ParsePrototype
      simp [h1, h2, hl, hc]
    · intro hc
      unfold ParsePrototype
      simp [h1, h2, hl, hc]

theorem ParsePrototype_failures_witness :
    parseSize (startState "(a)") + 1 ≤ 20 ∧
    (startState "(a)").currentToken ≠ identifierToken ∧
    ParsePrototype 20 (startState "(a)")
      = some (none, LogError "Expected function name in prototype" (startState "(a)")) ∧
    (startState "foo a").currentToken = identifierToken ∧
    (getNextToken (startState "foo a")).currentToken ≠ 40 ∧
    ParsePrototype 20 (startState "foo a")
      = some (none, LogError "Expected '(' in prototype" (getNextToken (startState "foo a"))) ∧
    (∃ ps s1, ReadsIdentifiers (getNextToken (startState "foo(a, b)")) ps s1 ∧
      (getNextToken s1).currentToken ≠ identifierToken ∧
      ((getNextToken s1).currentToken ≠ 41 →
        ParsePrototype 20 (startState "foo(a, b)")
          = some (none, LogError "Expected ')' in prototype" (getNextToken s1))) ∧
      ((getNextToken s1).currentToken = 41 →
        ParsePrototype 20 (startState "foo(a, b)")
          = some (some { name := (startState "foo(a, b)").identifier, params := ps },
              getNextToken (getNextToken s1)))) ∧
    ParsePrototype 20 (startState "foo(a, b)")
      = some (none,
          { input := ['b', ')'], lastChar := 32, identifier := ['a'], numberValue := 0,
            currentToken := 44,
            BinopPrecedence := [(37, 40), (42, 40), (43, 20), (45, 20), (47, 40), (60, 10),
              (94, 50)],
            stderr := ["Error: Expected ')' in prototype\n"] }) :=
  ⟨by decide, by decide,
   (ParsePrototype_failures (startState "(a)") 20 (by decide)).1 (by decide),
   by decide, by decide,
   (ParsePrototype_failures (startState "foo a") 20 (by decide)).2.1 (by decide) (by decide),
   (ParsePrototype_failures (startState "foo(a, b)") 20 (by decide)).2.2 (by decide)
     (by decide),
   by rfl⟩

/-! ## Rejection by `ParsePrimary` (C15) -/

/-- C15: when the lookahead is neither an identifier, a numeric literal nor `(`,
`ParsePrimary` returns no result after logging "unknown token when expecting an
expression", and the state it leaves differs from the one it was called in by that line
on `stderr` only: lookahead, pending character, unread input and buffers are the same. -/
theorem ParsePrimary_rejects_without_consuming (fuel : Nat) (s : State)
    (h1 : s.currentToken ≠ identifierToken) (h2 : s.currentToken ≠ numberToken)
    (h3 : s.currentToken ≠ 40) :
    ParsePrimary (fuel + 1) s
        = some (none, LogError "unknown token when expecting an expression" s) ∧
    (LogError "unknown token when expecting an expression" s).currentToken = s.currentToken ∧
    (LogError "unknown token when expecting an expression" s).lastChar = s.lastChar ∧
    (LogError "unknown token when expecting an expression" s).input = s.input ∧
    (LogError "unknown token when expecting an expression" s).identifier = s.identifier ∧
    (LogError "unknown token when expecting an expression" s).numberValue = s.numberValue ∧
    (LogError "unknown token when expecting an expression" s).stderr
      = s.stderr ++ ["Error: unknown token when expecting an expression\n"] := by
  refine ⟨?_, rfl, rfl, rfl, rfl, rfl, rfl⟩
  rw [ParsePrimary]
  simp [h1, h2, h3]

theorem ParsePrimary_rejects_without_consuming_witness :
    (startState ") + 1").currentToken ≠ identifierToken ∧
    (startState ") + 1").currentToken ≠ numberToken ∧
    (startState ") + 1").currentToken ≠ 40 ∧
    ParsePrimary 1 (startState ") + 1")
      = some (none,
          { input := ['+', ' ', '1'], lastChar := 32, identifier := [], numberValue := 0,
            currentToken := 41,
            BinopPrecedence := [(37, 40), (42, 40), (43, 20), (45, 20), (47, 40), (60, 10),
              (94, 50)],
            stderr := ["Error: unknown token when expecting an expression\n"] }) :=
  ⟨by decide, by decide, by decide,
   (ParsePrimary_rejects_without_consuming 0 (startState ") + 1") (by decide) (by decide)
     (by decide)).1⟩

/-! ## Top-level expressions (C16) -/

/-- C16: from every state and with every fuel, `ParseTopLevelExpr` returns a function
exactly when `ParseExpression` returns a node `E`, and the function is then the one with
the prototype `__anon_expr` without parameters and the body `E`; it returns no result
exactly when `ParseExpression` does, leaving the same state. -/
theorem ParseTopLevelExpr_wraps (fuel : Nat) (s : State) :
    (∀ (E : ExprAST) (s1 : State), ParseExpression fuel s = some (some E, s1) →
      ParseTopLevelExpr fuel s
        = some (some { proto := { name := "__anon_expr".toList, params := [] }, body := E },
            s1)) ∧
    (∀ (F : FunctionAST) (s1 : State), ParseTopLevelExpr fuel s = some (some F, s1) →
      ParseExpression fuel s = some (some F.body, s1) ∧
      F.proto = { name := "__anon_expr".toList, params := [] }) ∧
    (∀ s1 : State, ParseExpression fuel s = some (none, s1) ↔
      ParseTopLevelExpr fuel s = some (none, s1)) ∧
    (ParseExpression fuel s = none ↔ ParseTopLevelExpr fuel s = none) := by
  unfold ParseTopLevelExpr
  cases hE : ParseExpression fuel s with
  | none => simp
  | some x =>
    obtain ⟨o, s2⟩ := x
    cases o with
    | none => simp
    | some E =>
      refine ⟨?_, ?_, ?_, ?_⟩
      · intro E1 s1 h
        simp only [Option.some.injEq, Prod.mk.injEq] at h
        obtain ⟨h1, h2⟩ := h
        subst h1; subst h2; rfl
      · intro F s1 h
        simp only [Option.some.injEq, Prod.mk.injEq] at h
        obtain ⟨h1, h2⟩ := h
        subst h1; subst h2
        exact ⟨rfl, rfl⟩
      · intro s1; simp
      · simp

theorem ParseTopLevelExpr_wraps_witness :
    ParseExpression 5 (startState "x+1")
      = some (some (ExprAST.BinaryExprAST '+' (ExprAST.VariableExprAST ['x'])
            (ExprAST.NumberExprAST 11)),
          { input := [], lastChar := -1, identifier := ['x'], numberValue := 11,
            currentToken := -1,
            BinopPrecedence := [(37, 40), (42, 40), (43, 20), (45, 20), (47, 40), (60, 10),
              (94, 50)],
            stderr := [] }) ∧
    ParseTopLevelExpr 5 (startState "x+1")
      = some (some
          { proto := { name := "__anon_expr".toList, params := [] },
            body := ExprAST.BinaryExprAST '+' (ExprAST.VariableExprAST ['x'])
              (ExprAST.NumberExprAST 11) },
          { input := [], lastChar := -1, identifier := ['x'], numberValue := 11,
            currentToken := -1,
            BinopPrecedence := [(37, 40), (42, 40), (43, 20), (45, 20), (47, 40), (60, 10),
              (94, 50)],
            stderr := [] }) ∧
    ParseTopLevelExpr 5 (startState "+")
      = some (none, LogError "unknown token when expecting an expression" (startState "+")) :=
  ⟨by rfl, (ParseTopLevelExpr_wraps 5 (startState "x+1")).1 _ _ (by rfl),
   ((ParseTopLevelExpr_wraps 5 (startState "+")).2.2.1 _).1 (by rfl)⟩

/-! ## The precedence table during a run (C17) -/

theorem TableKeeps_refl (a : List (Int × Int)) : TableKeeps a a :=
  fun _ => ⟨fun _ h => h, fun h => Or.inl h⟩

theorem TableKeeps_trans {a b c : List (Int × Int)} (h1 : TableKeeps a b)
    (h2 : TableKeeps b c) : TableKeeps a c := by
  intro k
  refine ⟨fun v h => (h2 k).1 v ((h1 k).1 v h), fun h => ?_⟩
  rcases (h1 k).2 h with h3 | h3
  · exact (h2 k).2 h3
  · exact Or.inr ((h2 k).1 0 h3)

theorem TableKeeps_tablePrecedence {a b : List (Int × Int)} (h : TableKeeps a b) (k : Int) :
    tablePrecedence b k = tablePrecedence a k := by
  unfold tablePrecedence
  cases ha : a.lookup k with
  | some v => rw [(h k).1 v ha]
  | none =>
    rcases (h k).2 ha with hb | hb <;> rw [hb]
    simp

/-- What `GetTokPrecedence` does to the table: nothing, or it adds the current token with
the value 0. -/
theorem GetTokPrecedence_table (s : State) :
    (GetTokPrecedence s).2.BinopPrecedence = s.BinopPrecedence ∨
    (isascii s.currentToken = true ∧ s.BinopPrecedence.lookup s.currentToken = none ∧
      (GetTokPrecedence s).2.BinopPrecedence = mapInsert s.currentToken 0 s.BinopPrecedence) := by
  unfold GetTokPrecedence
  by_cases ha : isascii s.currentToken = true
  · cases hl : s.BinopPrecedence.lookup s.currentToken with
    | some v =>
      left
      simp only [ha, mapIndex, hl]
      simp only [Bool.not_true, Bool.false_eq_true, if_false]
      split <;> rfl
    | none =>
      right
      refine ⟨ha, rfl, ?_⟩
      simp [ha, mapIndex, hl]
  · left; simp [ha]

theorem GetTokPrecedence_TableKeeps (s : State) :
    TableKeeps s.BinopPrecedence (GetTokPrecedence s).2.BinopPrecedence := by
  rcases GetTokPrecedence_table s with h | ⟨_, hl, h⟩
  · rw [h]; exact TableKeeps_refl _
  · rw [h]
    intro k
    rw [lookup_mapInsert]
    constructor
    · intro v hv
      by_cases hk : k = s.currentToken
      · subst hk; rw [hl] at hv; cases hv
      · simp [hk, hv]
    · intro hk0
      by_cases hk : k = s.currentToken
      · right; simp [hk]
      · left; simp [hk, hk0]

/-- A relation between states that is transitive and holds across the elementary steps
of the parser and of the driver holds between the state in which a function of the
driver is called and the state in which it returns. -/
theorem driver_relates (R : State → State → Prop)
    (htrans : ∀ a b c, R a b → R b c → R a c)
    (hnext : ∀ s, R s (getNextToken s)) (hprec : ∀ s, R s (GetTokPrecedence s).2)
    (hlog : ∀ msg s, R s (LogError msg s)) (hprint : ∀ text s, R s (fprintf text s))
    (n : Nat) :
    (∀ acc s r, ParsePrototypeLoop n acc s = some r → R s r.2) ∧
    (∀ s r, ParsePrototype n s = some r → R s r.2) ∧
    (∀ s r, ParseDefinition n s = some r → R s r.2) ∧
    (∀ s r, ParseExtern n s = some r → R s r.2) ∧
    (∀ s r, ParseTopLevelExpr n s = some r → R s r.2) ∧
    (∀ s s1, HandleDefinition n s = some s1 → R s s1) ∧
    (∀ s s1, HandleExtern n s = some s1 → R s s1) ∧
    (∀ s s1, HandleTopLevelExpression n s = some s1 → R s s1) ∧
    (∀ s s1, MainLoop n s = some s1 → R s s1) := by
  have hExpr := fun n => (parse_relates R htrans hnext hprec hlog n).2.2.2.2.2
  have hLoop : ∀ n acc s r, ParsePrototypeLoop n acc s = some r → R s r.2 := by
    intro n
    induction n with
    | zero => intro acc s r h; simp [ParsePrototypeLoop] at h
    | succ n ih =>
      intro acc s r h
      rw [ParsePrototypeLoop] at h
      split at h
      · exact htrans _ _ _ (hnext s) (ih _ _ _ h)
      · simp only [Option.some.injEq] at h; subst h; exact hnext s
  have hProto : ∀ n s r, ParsePrototype n s = some r → R s r.2 := by
    intro n s r h
    unfold ParsePrototype at h
    split at h
    · simp only [Option.some.injEq] at h; subst h; exact hlog _ _
    · simp only at h
      split at h
      · simp only [Option.some.injEq] at h; subst h
        exact htrans _ _ _ (hnext s) (hlog _ _)
      · cases hL : ParsePrototypeLoop n [] (getNextToken s) with
        | none => simp [hL] at h
        | some x =>
          have h2 := htrans _ _ _ (hnext s) (hLoop n _ _ _ hL)
          rw [hL] at h
          obtain ⟨a, s2⟩ := x
          simp only at h h2
          split at h
          · simp only [Option.some.injEq] at h; subst h
            exact htrans _ _ _ h2 (hlog _ _)
          · simp only [Option.some.injEq] at h; subst h
            exact htrans _ _ _ h2 (hnext _)
  have hDef : ∀ n s r, ParseDefinition n s = some r → R s r.2 := by
    intro n s r h
    unfold ParseDefinition at h
    simp only at h
    cases hP : ParsePrototype n (getNextToken s) with
    | none => simp [hP] at h
    | some x =>
      have h2 := htrans _ _ _ (hnext s) (hProto n _ _ hP)
      rw [hP] at h
      obtain ⟨o, s2⟩ := x
      cases o with
      | none => simp only [Option.some.injEq] at h; subst h; exact h2
      | some Proto =>
        simp only at h h2
        cases hE : ParseExpression n s2 with
        | none => simp [hE] at h
        | some y =>
          have h3 := htrans _ _ _ h2 (hExpr n _ _ hE)
          rw [hE] at h
          obtain ⟨o2, s3⟩ := y
          cases o2 with
          | none => simp only [Option.some.injEq] at h; subst h; exact h3
          | some E => simp only [Option.some.injEq] at h; subst h; exact h3
  have hExt : ∀ n s r, ParseExtern n s = some r → R s r.2 := by
    intro n s r h
    exact htrans _ _ _ (hnext s) (hProto n _ _ h)
  have hTop : ∀ n s r, ParseTopLevelExpr n s = some r → R s r.2 := by
    intro n s r h
    unfold ParseTopLevelExpr at h
    cases hE : ParseExpression n s with
    | none => simp [hE] at h
    | some y =>
      have h3 := hExpr n _ _ hE
      rw [hE] at h
      obtain ⟨o2, s3⟩ := y
      cases o2 with
      | none => simp only [Option.some.injEq] at h; subst h; exact h3
      | some E => simp only [Option.some.injEq] at h; subst h; exact h3
  have hHD : ∀ n s s1, HandleDefinition n s = some s1 → R s s1 := by
    intro n s s1 h
    unfold HandleDefinition at h
    cases hD : ParseDefinition n s with
    | none => simp [hD] at h
    | some x =>
      have h1 := hDef n _ _ hD
      rw [hD] at h
      obtain ⟨o, s2⟩ := x
      cases o with
      | none =>
        simp only [Option.some.injEq] at h; subst h
        exact htrans _ _ _ h1 (hnext _)
      | some F =>
        simp only [Option.some.injEq] at h; subst h
        exact htrans _ _ _ h1 (hprint _ _)
  have hHE : ∀ n s s1, HandleExtern n s = some s1 → R s s1 := by
    intro n s s1 h
    unfold HandleExtern at h
    cases hD : ParseExtern n s with
    | none => simp [hD] at h
    | some x =>
      have h1 := hExt n _ _ hD
      rw [hD] at h
      obtain ⟨o, s2⟩ := x
      cases o with
      | none =>
        simp only [Option.some.injEq] at h; subst h
        exact htrans _ _ _ h1 (hnext _)
      | some F =>
        simp only [Option.some.injEq] at h; subst h
        exact htrans _ _ _ h1 (hprint _ _)
  have hHT : ∀ n s s1, HandleTopLevelExpression n s = some s1 → R s s1 := by
    intro n s s1 h
    unfold HandleTopLevelExpression at h
    cases hD : ParseTopLevelExpr n s with
    | none => simp [hD] at h
    | some x =>
      have h1 := hTop n _ _ hD
      rw [hD] at h
      obtain ⟨o, s2⟩ := x
      cases o with
      | none =>
        simp only [Option.some.injEq] at h; subst h
        exact htrans _ _ _ h1 (hnext _)
      | some F =>
        simp only [Option.some.injEq] at h; subst h
        exact htrans _ _ _ h1 (hprint _ _)
  refine ⟨hLoop n, hProto n, hDef n, hExt n, hTop n, hHD n, hHE n, hHT n, ?_⟩
  induction n with
  | zero => intro s s1 h; simp [MainLoop] at h
  | succ n ih =>
    intro s s1 h
    rw [MainLoop] at h
    have h0 := hprint "ready> " s
    split at h
    · simp only [Option.some.injEq] at h; subst h; exact h0
    · split at h
      · exact htrans _ _ _ (htrans _ _ _ h0 (hnext _)) (ih _ _ h)
      · split at h
        · cases hH : HandleDefinition n (fprintf "ready> " s) with
          | none => simp [hH] at h
          | some s2 =>
            rw [hH] at h
            exact htrans _ _ _ (htrans _ _ _ h0 (hHD n _ _ hH)) (ih _ _ h)
        · split at h
          · cases hH : HandleExtern n (fprintf "ready> " s) with
            | none => simp [hH] at h
            | some s2 =>
              rw [hH] at h
              exact htrans _ _ _ (htrans _ _ _ h0 (hHE n _ _ hH)) (ih _ _ h)
          · cases hH : HandleTopLevelExpression n (fprintf "ready> " s) with
            | none => simp [hH] at h
            | some s2 =>
              rw [hH] at h
              exact htrans _ _ _ (htrans _ _ _ h0 (hHT n _ _ hH)) (ih _ _ h)

/-- C17, as the claim states it, fails: with the table that `main` installs and `;` as
current token, `GetTokPrecedence` adds the entry `(59, 0)` to the table, and so do
`ParseExpression` and `main` on the text `x;`. -/
theorem GetTokPrecedence_alters_table :
    (GetTokPrecedence (startState ";")).2.BinopPrecedence ≠ (startState ";").BinopPrecedence ∧
    (startState ";").BinopPrecedence
      = [(37, 40), (42, 40), (43, 20), (45, 20), (47, 40), (60, 10), (94, 50)] ∧
    (GetTokPrecedence (startState ";")).2.BinopPrecedence
      = [(37, 40), (42, 40), (43, 20), (45, 20), (47, 40), (59, 0), (60, 10), (94, 50)] ∧
    (ParseExpression 3 (startState "x;")).map (fun r => r.2.BinopPrecedence)
      = some [(37, 40), (42, 40), (43, 20), (45, 20), (47, 40), (59, 0), (60, 10), (94, 50)] ∧
    (main 10 ['x', ';']).map (fun s => s.BinopPrecedence)
      = some [(37, 40), (42, 40), (43, 20), (45, 20), (47, 40), (59, 0), (60, 10), (94, 50)] := by
  refine ⟨by decide, by decide, by decide, by rfl, by rfl⟩

/-- C17, amended: a call of `GetTokPrecedence` keeps every entry of the precedence table
and adds at most one, the current token with the value 0 (when that token is a
seven-bit code without entry); every parsing function and the driver loop therefore keep
every entry and add only entries with the value 0, and the precedence that the table
gives to any token is the same before and after. -/
theorem precedence_table_keeps_entries :
    (∀ s : State,
      TableKeeps s.BinopPrecedence (GetTokPrecedence s).2.BinopPrecedence ∧
      ((GetTokPrecedence s).2.BinopPrecedence = s.BinopPrecedence ∨
        (isascii s.currentToken = true ∧ s.BinopPrecedence.lookup s.currentToken = none ∧
          (GetTokPrecedence s).2.BinopPrecedence
            = mapInsert s.currentToken 0 s.BinopPrecedence))) ∧
    (∀ (fuel : Nat) (s : State),
      (∀ r, ParsePrimary fuel s = some r → TableKeeps s.BinopPrecedence r.2.BinopPrecedence) ∧
      (∀ r, ParseExpression fuel s = some r →
        TableKeeps s.BinopPrecedence r.2.BinopPrecedence) ∧
      (∀ p L r, ParseBinOpRHS fuel p L s = some r →
        TableKeeps s.BinopPrecedence r.2.BinopPrecedence) ∧
      (∀ r, ParseParenExpr fuel s = some r →
        TableKeeps s.BinopPrecedence r.2.BinopPrecedence) ∧
      (∀ r, ParseIdentifierExpr fuel s = some r →
        TableKeeps s.BinopPrecedence r.2.BinopPrecedence) ∧
      (∀ r, ParsePrototype fuel s = some r →
        TableKeeps s.BinopPrecedence r.2.BinopPrecedence) ∧
      (∀ r, ParseDefinition fuel s = some r →
        TableKeeps s.BinopPrecedence r.2.BinopPrecedence) ∧
      (∀ r, ParseExtern fuel s = some r → TableKeeps s.BinopPrecedence r.2.BinopPrecedence) ∧
      (∀ r, ParseTopLevelExpr fuel s = some r →
        TableKeeps s.BinopPrecedence r.2.BinopPrecedence) ∧
      (∀ s1, MainLoop fuel s = some s1 → TableKeeps s.BinopPrecedence s1.BinopPrecedence)) ∧
    (∀ (a b : List (Int × Int)) (k : Int), TableKeeps a b →
      tablePrecedence b k = tablePrecedence a k) := by
  have hp := parse_relates
    (fun a b => TableKeeps a.BinopPrecedence b.BinopPrecedence)
    (fun _ _ _ h1 h2 => TableKeeps_trans h1 h2)
    (fun s => by
      show TableKeeps s.BinopPrecedence (getNextToken s).BinopPrecedence
      rw [getNextToken_BinopPrecedence]; exact TableKeeps_refl _)
    GetTokPrecedence_TableKeeps (fun _ _ => TableKeeps_refl _)
  have hd := driver_relates
    (fun a b => TableKeeps a.BinopPrecedence b.BinopPrecedence)
    (fun _ _ _ h1 h2 => TableKeeps_trans h1 h2)
    (fun s => by
      show TableKeeps s.BinopPrecedence (getNextToken s).BinopPrecedence
      rw [getNextToken_BinopPrecedence]; exact TableKeeps_refl _)
    GetTokPrecedence_TableKeeps (fun _ _ => TableKeeps_refl _) (fun _ _ => TableKeeps_refl _)
  refine ⟨fun s => ⟨GetTokPrecedence_TableKeeps s, GetTokPrecedence_table s⟩, ?_,
    fun a b k h => TableKeeps_tablePrecedence h k⟩
  intro fuel s
  exact ⟨(hp fuel).2.2.2.1 s, (hp fuel).2.2.2.2.2 s, fun p L => (hp fuel).2.2.2.2.1 p L s,
    (hp fuel).1 s, (hp fuel).2.2.1 s, (hd fuel).2.1 s, (hd fuel).2.2.1 s,
    (hd fuel).2.2.2.1 s, (hd fuel).2.2.2.2.1 s, (hd fuel).2.2.2.2.2.2.2.2 s⟩

theorem precedence_table_keeps_entries_witness :
    ParseExpression 8 (startState "f(x);")
      = some (some (ExprAST.CallExprAST ['f'] [ExprAST.VariableExprAST ['x']]),
          { input := [], lastChar := -1, identifier := ['x'], numberValue := 0,
            currentToken := 59,
            BinopPrecedence := [(37, 40), (41, 0), (42, 40), (43, 20), (45, 20), (47, 40),
              (59, 0), (60, 10), (94, 50)],
            stderr := [] }) ∧
    (startState "f(x);").BinopPrecedence
      = [(37, 40), (42, 40), (43, 20), (45, 20), (47, 40), (60, 10), (94, 50)] ∧
    TableKeeps (startState "f(x);").BinopPrecedence
      [(37, 40), (41, 0), (42, 40), (43, 20), (45, 20), (47, 40), (59, 0), (60, 10),
        (94, 50)] :=
  ⟨by rfl, by decide,
   (precedence_table_keeps_entries.2.1 8 (startState "f(x);")).2.1
     (some (ExprAST.CallExprAST ['f'] [ExprAST.VariableExprAST ['x']]),
       { input := [], lastChar := -1, identifier := ['x'], numberValue := 0,
         currentToken := 59,
         BinopPrecedence := [(37, 40), (41, 0), (42, 40), (43, 20), (45, 20), (47, 40),
           (59, 0), (60, 10), (94, 50)],
         stderr := [] })
     (by rfl)⟩

/-! ## Lookahead after an expression (C19) -/

theorem GetTokPrecedence_range (s : State) :
    (GetTokPrecedence s).1 = -1 ∨ 0 < (GetTokPrecedence s).1 := by
  unfold GetTokPrecedence
  split
  · left; rfl
  · simp only
    split
    · left; rfl
    · right; simp only; omega

theorem declaredPrecedence_pos_cases (tok : Int) (h : 0 < declaredPrecedence tok) :
    tok = 60 ∨ tok = 43 ∨ tok = 45 ∨ tok = 47 ∨ tok = 42 ∨ tok = 37 ∨ tok = 94 := by
  unfold declaredPrecedence at h
  split at h
  · left; assumption
  · split at h
    · rename_i h1; rcases h1 with h1 | h1 <;> simp [h1]
    · split at h
      · rename_i h1; rcases h1 with h1 | h1 | h1 <;> simp [h1]
      · split at h
        · rename_i h1; simp [h1]
        · omega

theorem opPrecedence_toChar (tok : Int) (h : 0 < declaredPrecedence tok) :
    opPrecedence (toChar tok) = declaredPrecedence tok := by
  rcases declaredPrecedence_pos_cases tok h with h | h | h | h | h | h | h <;>
    subst h <;> decide

theorem EveryNodeList_append (P : ExprAST → Prop) (as bs : List ExprAST) :
    EveryNodeList P (as ++ bs) ↔ EveryNodeList P as ∧ EveryNodeList P bs := by
  induction as with
  | nil => simp [EveryNodeList]
  | cons a as ih => simp [EveryNodeList, ih, and_assoc]

/-- When `ParseBinOpRHS` returns a node, the lookahead binds less tightly than the
minimum precedence it was called with. -/
theorem ParseBinOpRHS_lookahead (n : Nat) :
    ∀ (p : Int) (L : ExprAST) (s : State) (T : ExprAST) (s1 : State),
      ParseBinOpRHS n p L s = some (some T, s1) → (GetTokPrecedence s1).1 < p := by
  induction n with
  | zero => intro p L s T s1 h; simp [ParseBinOpRHS] at h
  | succ n ih =>
    intro p L s T s1 h
    rw [ParseBinOpRHS] at h
    simp only at h
    split at h
    · rename_i hlt
      simp only [Option.some.injEq, Prod.mk.injEq] at h
      obtain ⟨_, rfl⟩ := h
      rw [GetTokPrecedence_idem]; exact hlt
    · cases hP : ParsePrimary n (getNextToken (GetTokPrecedence s).2) with
      | none => simp [hP] at h
      | some x =>
        rw [hP] at h
        obtain ⟨o, s2⟩ := x
        cases o with
        | none => simp at h
        | some RHS =>
          simp only at h
          split at h
          · cases hB : ParseBinOpRHS n ((GetTokPrecedence s).1 + 1) RHS
                (GetTokPrecedence s2).2 with
            | none => simp [hB] at h
            | some y =>
              rw [hB] at h
              obtain ⟨o2, s3⟩ := y
              cases o2 with
              | none => simp at h
              | some RHS1 => exact ih _ _ _ _ _ h
          · exact ih _ _ _ _ _ h

theorem ParseExpression_lookahead (n : Nat) (s : State) (E : ExprAST) (s1 : State)
    (h : ParseExpression n s = some (some E, s1)) : (GetTokPrecedence s1).1 = -1 := by
  cases n with
  | zero => simp [ParseExpression] at h
  | succ n =>
    rw [ParseExpression] at h
    cases hP : ParsePrimary n s with
    | none => simp [hP] at h
    | some x =>
      rw [hP] at h
      obtain ⟨o, s2⟩ := x
      cases o with
      | none => simp at h
      | some LHS =>
        have := ParseBinOpRHS_lookahead n _ _ _ _ _ h
        rcases GetTokPrecedence_range s1 with h1 | h1
        · exact h1
        · omega

theorem parse_TableOK (n : Nat) :
    (∀ s r, ParseParenExpr n s = some r → TableOK s.BinopPrecedence →
      TableOK r.2.BinopPrecedence) ∧
    (∀ Args s r, ParseIdentifierExprLoop n Args s = some r → TableOK s.BinopPrecedence →
      TableOK r.2.BinopPrecedence) ∧
    (∀ s r, ParseIdentifierExpr n s = some r → TableOK s.BinopPrecedence →
      TableOK r.2.BinopPrecedence) ∧
    (∀ s r, ParsePrimary n s = some r → TableOK s.BinopPrecedence →
      TableOK r.2.BinopPrecedence) ∧
    (∀ p L s r, ParseBinOpRHS n p L s = some r → TableOK s.BinopPrecedence →
      TableOK r.2.BinopPrecedence) ∧
    (∀ s r, ParseExpression n s = some r → TableOK s.BinopPrecedence →
      TableOK r.2.BinopPrecedence) := by
  obtain ⟨h1, h2, h3, h4, h5, h6⟩ := parse_tablePrecedence n
  exact ⟨fun s r h hok k => (h1 s r h k).trans (hok k),
    fun a s r h hok k => (h2 a s r h k).trans (hok k),
    fun s r h hok k => (h3 s r h k).trans (hok k),
    fun s r h hok k => (h4 s r h k).trans (hok k),
    fun p L s r h hok k => (h5 p L s r h k).trans (hok k),
    fun s r h hok k => (h6 s r h k).trans (hok k)⟩

theorem GetTokPrecedence_snd_TableOK (s : State) (hok : TableOK s.BinopPrecedence) :
    TableOK (GetTokPrecedence s).2.BinopPrecedence :=
  fun k => (tablePrecedence_GetTokPrecedence s k).trans (hok k)

/-- Every operator that the parsing functions put into a tree is a declared one. -/
theorem parse_operators_declared (n : Nat) :
    (∀ s E s1, TableOK s.BinopPrecedence → ParseParenExpr n s = some (some E, s1) →
      EveryNode DeclaredAt E) ∧
    (∀ Args s As s1, TableOK s.BinopPrecedence → EveryNodeList DeclaredAt Args →
      ParseIdentifierExprLoop n Args s = some (some As, s1) → EveryNodeList DeclaredAt As) ∧
    (∀ s E s1, TableOK s.BinopPrecedence → ParseIdentifierExpr n s = some (some E, s1) →
      EveryNode DeclaredAt E) ∧
    (∀ s E s1, TableOK s.BinopPrecedence → ParsePrimary n s = some (some E, s1) →
      EveryNode DeclaredAt E) ∧
    (∀ p L s T s1, TableOK s.BinopPrecedence → 0 ≤ p → EveryNode DeclaredAt L →
      ParseBinOpRHS n p L s = some (some T, s1) → EveryNode DeclaredAt T) ∧
    (∀ s E s1, TableOK s.BinopPrecedence → ParseExpression n s = some (some E, s1) →
      EveryNode DeclaredAt E) := by
  induction n with
  | zero =>
    refine ⟨?_, ?_, ?_, ?_, ?_, ?_⟩ <;> intros <;> rename_i h <;>
      simp [ParseParenExpr, ParseIdentifierExprLoop, ParseIdentifierExpr, ParsePrimary,
        ParseBinOpRHS, ParseExpression] at h
  | succ n ih =>
    obtain ⟨ihParen, ihLoop, ihIdent, ihPrim, ihBin, ihExpr⟩ := ih
    obtain ⟨okParen, okLoop, okIdent, okPrim, okBin, okExpr⟩ := parse_TableOK n
    refine ⟨?_, ?_, ?_, ?_, ?_, ?_⟩
    · intro s E s1 hok h
      rw [ParseParenExpr] at h
      cases hE : ParseExpression n (getNextToken s) with
      | none => simp [hE] at h
      | some x =>
        rw [hE] at h
        obtain ⟨o, s2⟩ := x
        cases o with
        | none => simp at h
        | some V =>
          simp only at h
          split at h
          · simp at h
          · simp only [Option.some.injEq, Prod.mk.injEq] at h
            obtain ⟨h1, _⟩ := h
            subst h1
            exact ihExpr _ _ _ (getNextToken_TableOK hok) hE
    · intro Args s As s1 hok hA h
      rw [ParseIdentifierExprLoop] at h
      cases hE : ParseExpression n s with
      | none => simp [hE] at h
      | some x =>
        have hok2 := okExpr _ _ hE hok
        rw [hE] at h
        obtain ⟨o, s2⟩ := x
        cases o with
        | none => simp at h
        | some Arg =>
          have hArg := ihExpr _ _ _ hok hE
          have hnew : EveryNodeList DeclaredAt (Args ++ [Arg]) := by
            rw [EveryNodeList_append]
            exact ⟨hA, by simp [EveryNodeList, hArg]⟩
          simp only at h
          split at h
          · simp only [Option.some.injEq, Prod.mk.injEq] at h
            obtain ⟨h1, _⟩ := h
            subst h1
            exact hnew
          · split at h
            · simp at h
            · exact ihLoop _ _ _ _ (getNextToken_TableOK hok2) hnew h
    · intro s E s1 hok h
      rw [ParseIdentifierExpr] at h
      simp only at h
      split at h
      · simp only [Option.some.injEq, Prod.mk.injEq] at h
        obtain ⟨h1, _⟩ := h
        subst h1
        simp [EveryNode, DeclaredAt]
      · split at h
        · cases hE : ParseIdentifierExprLoop n [] (getNextToken (getNextToken s)) with
          | none => simp [hE] at h
          | some x =>
            rw [hE] at h
            obtain ⟨o, s3⟩ := x
            cases o with
            | none => simp at h
            | some Args =>
              have hArgs := ihLoop [] _ _ _
                (getNextToken_TableOK (getNextToken_TableOK hok)) (by simp [EveryNodeList]) hE
              simp only [Option.some.injEq, Prod.mk.injEq] at h
              obtain ⟨h1, _⟩ := h
              subst h1
              simp [EveryNode, DeclaredAt, hArgs]
        · simp only [Option.some.injEq, Prod.mk.injEq] at h
          obtain ⟨h1, _⟩ := h
          subst h1
          simp [EveryNode, DeclaredAt, EveryNodeList]
    · intro s E s1 hok h
      rw [ParsePrimary] at h
      split at h
      · exact ihIdent _ _ _ hok h
      · split at h
        · simp only [ParseNumberExpr, Option.some.injEq, Prod.mk.injEq] at h
          obtain ⟨h1, _⟩ := h
          subst h1
          simp [EveryNode, DeclaredAt]
        · split at h
          · exact ihParen _ _ _ hok h
          · simp at h
    · intro p L s T s1 hok hp hL h
      rw [ParseBinOpRHS] at h
      simp only at h
      split at h
      · simp only [Option.some.injEq, Prod.mk.injEq] at h
        obtain ⟨h1, _⟩ := h
        subst h1
        exact hL
      · rename_i hlt
        have hpos : 0 < declaredPrecedence s.currentToken := by
          have e := GetTokPrecedence_TableOK s hok
          rcases GetTokPrecedence_range s with h1 | h1 <;> omega
        have hop : 0 < opPrecedence (toChar (GetTokPrecedence s).2.currentToken) := by
          rw [GetTokPrecedence_currentToken, opPrecedence_toChar _ hpos]; exact hpos
        have hok1 := getNextToken_TableOK (GetTokPrecedence_snd_TableOK s hok)
        cases hP : ParsePrimary n (getNextToken (GetTokPrecedence s).2) with
        | none => simp [hP] at h
        | some x =>
          have hok2 := okPrim _ _ hP hok1
          rw [hP] at h
          obtain ⟨o, s2⟩ := x
          cases o with
          | none => simp at h
          | some RHS =>
            have hR := ihPrim _ _ _ hok1 hP
            have hok3 := GetTokPrecedence_snd_TableOK s2 hok2
            simp only at h
            split at h
            · cases hB : ParseBinOpRHS n ((GetTokPrecedence s).1 + 1) RHS
                  (GetTokPrecedence s2).2 with
              | none => simp [hB] at h
              | some y =>
                have hok4 := okBin _ _ _ _ hB hok3
                rw [hB] at h
                obtain ⟨o2, s3⟩ := y
                cases o2 with
                | none => simp at h
                | some RHS1 =>
                  have hR1 := ihBin _ _ _ _ _ hok3 (by omega) hR hB
                  exact ihBin _ _ _ _ _ hok4 hp
                    (by simp only [EveryNode, DeclaredAt]; exact ⟨hop, hL, hR1⟩) h
            · exact ihBin _ _ _ _ _ hok3 hp
                (by simp only [EveryNode, DeclaredAt]; exact ⟨hop, hL, hR⟩) h
    · intro s E s1 hok h
      rw [ParseExpression] at h
      cases hP : ParsePrimary n s with
      | none => simp [hP] at h
      | some x =>
        have hok2 := okPrim _ _ hP hok
        rw [hP] at h
        obtain ⟨o, s2⟩ := x
        cases o with
        | none => simp at h
        | some LHS =>
          exact ihBin _ _ _ _ _ hok2 (le_refl 0) (ihPrim _ _ _ hok hP) h

/-- C19: when `ParseExpression` returns a node, `GetTokPrecedence` gives -1 for the
lookahead left behind, which with the declared table is no declared binary operator, and
every operator in the tree is a declared one; `ParseBinOpRHS` returns a node only in front
of a lookahead that binds less tightly than its minimum precedence; and in a call with a
minimum precedence of at least 0, a token is taken as operator only if its precedence is
positive, the minimum precedence of the nested call being then at least 0 again. -/
theorem ParseExpression_stops_before_no_operator :
    (∀ (fuel : Nat) (s : State) (E : ExprAST) (s1 : State),
      ParseExpression fuel s = some (some E, s1) →
      (GetTokPrecedence s1).1 = -1 ∧
      (TableOK s.BinopPrecedence →
        declaredPrecedence s1.currentToken = -1 ∧ EveryNode DeclaredAt E)) ∧
    (∀ (fuel : Nat) (ExprPrec : Int) (LHS : ExprAST) (s : State) (T : ExprAST) (s1 : State),
      ParseBinOpRHS fuel ExprPrec LHS s = some (some T, s1) →
      (GetTokPrecedence s1).1 < ExprPrec ∧
      (TableOK s.BinopPrecedence → 0 ≤ ExprPrec → EveryNode DeclaredAt LHS →
        EveryNode DeclaredAt T)) ∧
    (∀ (s : State) (ExprPrec : Int), 0 ≤ ExprPrec → ¬ (GetTokPrecedence s).1 < ExprPrec →
      0 < (GetTokPrecedence s).1 ∧ 0 ≤ (GetTokPrecedence s).1 + 1) := by
  refine ⟨?_, ?_, ?_⟩
  · intro fuel s E s1 h
    have h1 := ParseExpression_lookahead fuel s E s1 h
    refine ⟨h1, fun hok => ⟨?_, (parse_operators_declared fuel).2.2.2.2.2 s E s1 hok h⟩⟩
    have hok1 : TableOK s1.BinopPrecedence := (parse_TableOK fuel).2.2.2.2.2 _ _ h hok
    rw [← GetTokPrecedence_TableOK s1 hok1]
    exact h1
  · intro fuel p L s T s1 h
    exact ⟨ParseBinOpRHS_lookahead fuel p L s T s1 h,
      fun hok hp hL => (parse_operators_declared fuel).2.2.2.2.1 p L s T s1 hok hp hL h⟩
  · intro s p hp hlt
    rcases GetTokPrecedence_range s with h1 | h1 <;> omega

theorem ParseExpression_stops_before_no_operator_witness :
    ParseExpression 5 (startState "x*y)+z")
      = some (some (ExprAST.BinaryExprAST '*' (ExprAST.VariableExprAST ['x'])
            (ExprAST.VariableExprAST ['y'])),
          { input := ['z'], lastChar := 43, identifier := ['y'], numberValue := 0,
            currentToken := 41,
            BinopPrecedence := [(37, 40), (41, 0), (42, 40), (43, 20), (45, 20), (47, 40),
              (60, 10), (94, 50)],
            stderr := [] }) ∧
    declaredPrecedence 41 = -1 ∧
    EveryNode DeclaredAt (ExprAST.BinaryExprAST '*' (ExprAST.VariableExprAST ['x'])
      (ExprAST.VariableExprAST ['y'])) :=
  ⟨by rfl,
   ((ParseExpression_stops_before_no_operator.1 5 (startState "x*y)+z") _ _ (by rfl)).2
     (startState_TableOK _))⟩

/-! ## Shape of the trees (C18) -/

theorem GetTokenFuel_table (fuel : Nat) (t : List (Int × Int)) :
    ∀ s : State, GetTokenFuel fuel { s with BinopPrecedence := t }
      = (GetTokenFuel fuel s).map (fun r => (r.1, { r.2 with BinopPrecedence := t })) := by
  induction fuel with
  | zero => intro s; rfl
  | succ n ih =>
    intro s
    unfold GetTokenFuel
    simp only
    split
    · split
      · rfl
      · split <;> rfl
    · split
      · rfl
      · split
        · split
          · exact ih { s with
              lastChar := (skipComment (skipSpaces s.lastChar s.input).1
                (skipSpaces s.lastChar s.input).2).1,
              input := (skipComment (skipSpaces s.lastChar s.input).1
                (skipSpaces s.lastChar s.input).2).2 }
          · rfl
        · split <;> rfl

theorem GetToken_table (s : State) (t : List (Int × Int)) :
    GetToken { s with BinopPrecedence := t }
      = ((GetToken s).1, { (GetToken s).2 with BinopPrecedence := t }) := by
  obtain ⟨r, hr⟩ := GetTokenFuel_length (s.input.length + 1) s (Nat.lt_succ_self _)
  have h := GetTokenFuel_table (s.input.length + 1) t s
  rw [hr] at h
  rw [GetToken_of_fuel _ _ _ hr, GetToken_of_fuel _ _ _ h]

theorem getNextToken_table (s : State) (t : List (Int × Int)) :
    getNextToken { s with BinopPrecedence := t }
      = { getNextToken s with BinopPrecedence := t } := by
  unfold getNextToken
  rw [GetToken_table]

theorem iterate_getNextToken_table (k : Nat) (s : State) (t : List (Int × Int)) :
    getNextToken^[k] { s with BinopPrecedence := t }
      = { getNextToken^[k] s with BinopPrecedence := t } := by
  induction k generalizing s with
  | zero => rfl
  | succ k ih =>
    rw [Function.iterate_succ_apply, Function.iterate_succ_apply, getNextToken_table, ih]

theorem OperandsAndOperators_table {s : State} (h : OperandsAndOperators s)
    (t : List (Int × Int)) : OperandsAndOperators { s with BinopPrecedence := t } := by
  intro k
  rw [iterate_getNextToken_table]
  exact h k

theorem OperandsAndOperators_GetTokPrecedence {s : State} (h : OperandsAndOperators s) :
    OperandsAndOperators (GetTokPrecedence s).2 := by
  rw [GetTokPrecedence_snd]
  exact OperandsAndOperators_table h _

theorem OperandsAndOperators_getNextToken {s : State} (h : OperandsAndOperators s) :
    OperandsAndOperators (getNextToken s) := by
  intro k
  have := h (k + 1)
  rw [Function.iterate_succ_apply] at this
  exact this

theorem OperandsAndOperators_no_paren {s : State} (h : OperandsAndOperators s) :
    s.currentToken ≠ 40 := by
  intro h40
  have := h 0
  simp only [Function.iterate_zero, id_eq, h40] at this
  revert this
  decide

theorem ParsePrimary_leaf (n : Nat) (s : State) (R : ExprAST) (s2 : State)
    (h1 : s.currentToken ≠ 40) (h2 : (getNextToken s).currentToken ≠ 40)
    (h : ParsePrimary n s = some (some R, s2)) :
    s2 = getNextToken s ∧ rootOperator R = none ∧ EveryNode ClimbedAt R := by
  cases n with
  | zero => simp [ParsePrimary] at h
  | succ n =>
    rw [ParsePrimary] at h
    split at h
    · cases n with
      | zero => simp [ParseIdentifierExpr] at h
      | succ n =>
        rw [ParseIdentifierExpr] at h
        simp only [bne_iff_ne, ne_eq, h2, not_false_eq_true, if_true, Option.some.injEq,
          Prod.mk.injEq] at h
        obtain ⟨rfl, rfl⟩ := h
        exact ⟨rfl, rfl, by simp [EveryNode, ClimbedAt]⟩
    · split at h
      · simp only [ParseNumberExpr, Option.some.injEq, Prod.mk.injEq] at h
        obtain ⟨rfl, rfl⟩ := h
        exact ⟨rfl, rfl, by simp [EveryNode, ClimbedAt]⟩
      · simp [h1] at h

/-- The loop of `ParseBinOpRHS` on operands and operators: when the tree built so far is
well shaped and its root operator binds at least as tightly as the lookahead, the tree
returned is well shaped, and it is the tree built so far or has a root operator of at
least the minimum precedence. -/
theorem ParseBinOpRHS_climbs (n : Nat) :
    ∀ (p : Int) (L : ExprAST) (s : State) (T : ExprAST) (s1 : State),
      TableOK s.BinopPrecedence → OperandsAndOperators s → 0 ≤ p →
      EveryNode ClimbedAt L →
      (∀ opl, rootOperator L = some opl → (GetTokPrecedence s).1 ≤ opPrecedence opl) →
      ParseBinOpRHS n p L s = some (some T, s1) →
      EveryNode ClimbedAt T ∧ OperandsAndOperators s1 ∧
      (T = L ∨ ∃ opt, rootOperator T = some opt ∧ p ≤ opPrecedence opt) := by
  induction n with
  | zero => intro p L s T s1 _ _ _ _ _ h; simp [ParseBinOpRHS] at h
  | succ n ih =>
    intro p L s T s1 hok hoo hp hL hroot h
    rw [ParseBinOpRHS] at h
    simp only at h
    split at h
    · simp only [Option.some.injEq, Prod.mk.injEq] at h
      obtain ⟨rfl, rfl⟩ := h
      exact ⟨hL, OperandsAndOperators_GetTokPrecedence hoo, Or.inl rfl⟩
    · rename_i hlt
      have etp := GetTokPrecedence_TableOK s hok
      have hpos : 0 < declaredPrecedence s.currentToken := by
        rcases GetTokPrecedence_range s with h1 | h1 <;> omega
      have hg := GetTokPrecedence_operator s hok hpos
      have hop : opPrecedence (toChar s.currentToken) = declaredPrecedence s.currentToken :=
        opPrecedence_toChar _ hpos
      rw [hg] at h hroot
      simp only at h hroot
      have hoo1 := OperandsAndOperators_getNextToken hoo
      have hoo2 := OperandsAndOperators_getNextToken hoo1
      have hok1 : TableOK (getNextToken s).BinopPrecedence := getNextToken_TableOK hok
      cases hP : ParsePrimary n (getNextToken s) with
      | none => simp [hP] at h
      | some x =>
        rw [hP] at h
        obtain ⟨o, s2⟩ := x
        cases o with
        | none => simp at h
        | some RHS =>
          obtain ⟨hs2, hRroot, hR⟩ := ParsePrimary_leaf n _ _ _
            (OperandsAndOperators_no_paren hoo1) (OperandsAndOperators_no_paren hoo2) hP
          subst hs2
          have hok2 : TableOK (getNextToken (getNextToken s)).BinopPrecedence :=
            getNextToken_TableOK hok1
          have hok3 := GetTokPrecedence_snd_TableOK _ hok2
          have hoo3 := OperandsAndOperators_GetTokPrecedence hoo2
          simp only at h
          split at h
          · cases hB : ParseBinOpRHS n (declaredPrecedence s.currentToken + 1) RHS
                (GetTokPrecedence (getNextToken (getNextToken s))).2 with
            | none => simp [hB] at h
            | some y =>
              rw [hB] at h
              obtain ⟨o2, s3⟩ := y
              cases o2 with
              | none => simp at h
              | some RHS1 =>
                simp only at h
                obtain ⟨hR1, hoo4, hR1root⟩ := ih _ _ _ _ _ hok3 hoo3 (by omega) hR
                  (by intro opl ho; rw [hRroot] at ho; cases ho) hB
                have hlook := ParseBinOpRHS_lookahead n _ _ _ _ _ hB
                have hok4 : TableOK s3.BinopPrecedence :=
                  (parse_TableOK n).2.2.2.2.1 _ _ _ _ hB hok3
                have hnew : EveryNode ClimbedAt
                    (ExprAST.BinaryExprAST (toChar s.currentToken) L RHS1) := by
                  simp only [EveryNode, ClimbedAt]
                  refine ⟨⟨?_, ?_⟩, hL, hR1⟩
                  · intro opr ho
                    rcases hR1root with e | ⟨opt, e1, e2⟩
                    · rw [e, hRroot] at ho; cases ho
                    · rw [e1] at ho; injection ho with ho; subst ho
                      rw [hop]; omega
                  · intro opl ho
                    rw [hop]; exact hroot opl ho
                obtain ⟨hT, hoo5, hTroot⟩ := ih _ _ _ _ _ hok4 hoo4 hp hnew
                  (by
                    intro opl ho
                    simp only [rootOperator, Option.some.injEq] at ho
                    subst ho
                    rw [hop]; omega) h
                refine ⟨hT, hoo5, Or.inr ?_⟩
                rcases hTroot with e | e
                · exact ⟨toChar s.currentToken, by rw [e]; rfl, by rw [hop]; omega⟩
                · exact e
          · rename_i hnp
            have hnew : EveryNode ClimbedAt
                (ExprAST.BinaryExprAST (toChar s.currentToken) L RHS) := by
              simp only [EveryNode, ClimbedAt]
              refine ⟨⟨?_, ?_⟩, hL, hR⟩
              · intro opr ho; rw [hRroot] at ho; cases ho
              · intro opl ho
                rw [hop]; exact hroot opl ho
            obtain ⟨hT, hoo5, hTroot⟩ := ih _ _ _ _ _ hok3 hoo3 hp hnew
              (by
                intro opl ho
                simp only [rootOperator, Option.some.injEq] at ho
                subst ho
                rw [hop, GetTokPrecedence_idem]; omega) h
            refine ⟨hT, hoo5, Or.inr ?_⟩
            rcases hTroot with e | e
            · exact ⟨toChar s.currentToken, by rw [e]; rfl, by rw [hop]; omega⟩
            · exact e

/-- C18: with the declared table, on a token stream made only of identifiers, numeric
literals and declared binary operators, every `BinaryExpr` of the tree that
`ParseExpression` returns has, as right child, no `BinaryExpr` or one whose operator
binds strictly more tightly, and as left child, no `BinaryExpr` or one whose operator
binds at least as tightly. -/
theorem ParseExpression_climbed (fuel : Nat) (s : State) (E : ExprAST) (s1 : State)
    (hok : TableOK s.BinopPrecedence) (hoo : OperandsAndOperators s)
    (h : ParseExpression fuel s = some (some E, s1)) : EveryNode ClimbedAt E := by
  cases fuel with
  | zero => simp [ParseExpression] at h
  | succ n =>
    rw [ParseExpression] at h
    cases hP : ParsePrimary n s with
    | none => simp [hP] at h
    | some x =>
      rw [hP] at h
      obtain ⟨o, s2⟩ := x
      cases o with
      | none => simp at h
      | some LHS =>
        obtain ⟨hs2, hroot, hL⟩ := ParsePrimary_leaf n _ _ _
          (OperandsAndOperators_no_paren hoo)
          (OperandsAndOperators_no_paren (OperandsAndOperators_getNextToken hoo)) hP
        subst hs2
        exact (ParseBinOpRHS_climbs n 0 LHS _ E s1 (getNextToken_TableOK hok)
          (OperandsAndOperators_getNextToken hoo) (le_refl 0) hL
          (by intro opl ho; rw [hroot] at ho; cases ho) h).1

theorem iterate_getNextToken_fixed (t : State) (h : getNextToken t = t) (k : Nat) :
    getNextToken^[k] t = t := by
  induction k with
  | zero => rfl
  | succ k ih => rw [Function.iterate_succ_apply, h, ih]

/-- A token stream that reaches a state left unchanged by `getNextToken` after `n` tokens
is made of operands and operators when its first `n` tokens and that last one are. -/
theorem OperandsAndOperators_of_finite (s : State) (n : Nat)
    (hfix : getNextToken (getNextToken^[n] s) = getNextToken^[n] s)
    (h : ∀ k, k ≤ n →
      (getNextToken^[k] s).currentToken = identifierToken ∨
      (getNextToken^[k] s).currentToken = numberToken ∨
      0 < declaredPrecedence (getNextToken^[k] s).currentToken ∨
      (getNextToken^[k] s).currentToken = EOFToken) :
    OperandsAndOperators s := by
  intro k
  by_cases hk : k ≤ n
  · exact h k hk
  · have e : k = (k - n) + n := by omega
    rw [e, Function.iterate_add_apply, iterate_getNextToken_fixed _ hfix]
    exact h n (le_refl n)

theorem ParseExpression_climbed_witness :
    TableOK (startState "a+b*c^d-e*2").BinopPrecedence ∧
    OperandsAndOperators (startState "a+b*c^d-e*2") ∧
    ParseExpression 12 (startState "a+b*c^d-e*2")
      = some (some
          (ExprAST.BinaryExprAST '-'
            (ExprAST.BinaryExprAST '+' (ExprAST.VariableExprAST ['a'])
              (ExprAST.BinaryExprAST '*' (ExprAST.VariableExprAST ['b'])
                (ExprAST.BinaryExprAST '^' (ExprAST.VariableExprAST ['c'])
                  (ExprAST.VariableExprAST ['d']))))
            (ExprAST.BinaryExprAST '*' (ExprAST.VariableExprAST ['e'])
              (ExprAST.NumberExprAST 22))),
          { input := [], lastChar := -1, identifier := ['e'], numberValue := 22,
            currentToken := -1,
            BinopPrecedence := [(37, 40), (42, 40), (43, 20), (45, 20), (47, 40), (60, 10),
              (94, 50)],
            stderr := [] }) ∧
    EveryNode ClimbedAt
      (ExprAST.BinaryExprAST '-'
        (ExprAST.BinaryExprAST '+' (ExprAST.VariableExprAST ['a'])
          (ExprAST.BinaryExprAST '*' (ExprAST.VariableExprAST ['b'])
            (ExprAST.BinaryExprAST '^' (ExprAST.VariableExprAST ['c'])
              (ExprAST.VariableExprAST ['d']))))
        (ExprAST.BinaryExprAST '*' (ExprAST.VariableExprAST ['e'])
          (ExprAST.NumberExprAST 22))) :=
  have hoo : OperandsAndOperators (startState "a+b*c^d-e*2") :=
    OperandsAndOperators_of_finite _ 11 (by decide) (by decide)
  ⟨startState_TableOK _, hoo, by rfl,
   ParseExpression_climbed 12 (startState "a+b*c^d-e*2") _ _ (startState_TableOK _) hoo
     (by rfl)⟩

/-! ## Comments are transparent to the scanner (C14) -/

theorem skipComment_stop (lc : Int) (inp : List Char)
    (h : (lc != EOF && lc != 10 && lc != 13) = false) : skipComment lc inp = (lc, inp) := by
  cases inp <;> simp [skipComment, h]

theorem readNumber_stop (acc : List Char) (lc : Int) (inp : List Char)
    (h : (isdigit lc || lc == 46) = false) : readNumber acc lc inp = (acc, lc, inp) := by
  cases inp <;> simp [readNumber, h]

theorem toNat_ne_EOF (x : Char) : ((x.toNat : Int) != EOF) = true := by
  have : (x.toNat : Int) ≠ EOF := by unfold EOF; omega
  simpa using this

theorem lineEnd_stops (n : Int) (h : n = 10 ∨ n = 13) :
    (n != EOF && n != 10 && n != 13) = false ∧ isalnum n = false ∧
    (isdigit n || n == 46) = false ∧ isspace n = true := by
  rcases h with h | h <;> subst h <;> decide

theorem noLineEnd_goes (x : Char) (h : (x.toNat : Int) ≠ 10 ∧ (x.toNat : Int) ≠ 13) :
    ((x.toNat : Int) != EOF && (x.toNat : Int) != 10 && (x.toNat : Int) != 13) = true := by
  have h0 : (x.toNat : Int) ≠ EOF := by unfold EOF; omega
  simp [h0, h.1, h.2]

/-- A comment is skipped up to the line end that follows it. -/
theorem skipComment_through (c s2 : List Char) (hc : NoLineEnd c) (hs : AtLineEnd s2) :
    ∀ lc : Int, (lc != EOF && lc != 10 && lc != 13) = true →
      skipComment lc (c ++ s2) = getchar s2 := by
  induction c with
  | nil =>
    intro lc hl
    rcases hs with rfl | ⟨n, t, rfl, hn⟩
    · simp [skipComment, hl, getchar]
    · simp only [List.nil_append, skipComment, hl, if_true, getchar]
      exact skipComment_stop _ _ (lineEnd_stops _ hn).1
  | cons x c ih =>
    intro lc hl
    simp only [List.cons_append, skipComment, hl, if_true]
    exact ih (fun y hy => hc y (List.mem_cons_of_mem _ hy)) _
      (noLineEnd_goes x (hc x (List.mem_cons_self _ _)))

theorem getchar_AtLineEnd (s2 : List Char) (hs : AtLineEnd s2) :
    (getchar s2).1 = EOF ∨ (getchar s2).1 = 10 ∨ (getchar s2).1 = 13 := by
  rcases hs with rfl | ⟨n, t, rfl, hn⟩
  · left; rfl
  · right; exact hn

theorem readIdentifier_comment (c s2 : List Char) (hs : AtLineEnd s2) (p : List Char) :
    ∀ acc : List Char,
      (readIdentifier acc (p ++ '#' :: (c ++ s2))).1 = (readIdentifier acc (p ++ s2)).1 ∧
      CommentRel c s2 (readIdentifier acc (p ++ '#' :: (c ++ s2))).2
        (readIdentifier acc (p ++ s2)).2 := by
  induction p with
  | nil =>
    intro acc
    have e : isalnum (35 : Int) = false := by decide
    have ha : readIdentifier acc ('#' :: (c ++ s2)) = (acc, 35, c ++ s2) := by
      simp [readIdentifier, e]
    have hb : readIdentifier acc s2 = (acc, getchar s2) := by
      rcases hs with rfl | ⟨n, t, rfl, hn⟩
      · rfl
      · simp [readIdentifier, (lineEnd_stops _ hn).2.1, getchar]
    simp only [List.nil_append]
    rw [ha, hb]
    exact ⟨rfl, Or.inr (Or.inl ⟨rfl, rfl, rfl⟩)⟩
  | cons x p ih =>
    intro acc
    by_cases hx : isalnum (x.toNat : Int) = true
    · simp only [List.cons_append, readIdentifier, hx, if_true]
      exact ih _
    · simp only [List.cons_append, readIdentifier, hx, if_false]
      exact ⟨rfl, Or.inl ⟨rfl, p, rfl, rfl⟩⟩

theorem readNumber_comment (c s2 : List Char) (hs : AtLineEnd s2) (p : List Char) :
    ∀ (acc : List Char) (l : Int),
      (readNumber acc l (p ++ '#' :: (c ++ s2))).1 = (readNumber acc l (p ++ s2)).1 ∧
      CommentRel c s2 (readNumber acc l (p ++ '#' :: (c ++ s2))).2
        (readNumber acc l (p ++ s2)).2 := by
  induction p with
  | nil =>
    intro acc l
    by_cases hl : (isdigit l || l == 46) = true
    · have e : (isdigit (35 : Int) || (35 : Int) == 46) = false := by decide
      have ha : readNumber acc l ('#' :: (c ++ s2)) = (acc ++ [toChar l], 35, c ++ s2) := by
        simp only [readNumber, hl, if_true]
        exact readNumber_stop _ _ _ e
      have hb : readNumber acc l s2 = (acc ++ [toChar l], getchar s2) := by
        rcases hs with rfl | ⟨n, t, rfl, hn⟩
        · simp [readNumber, hl, getchar]
        · simp only [readNumber, hl, if_true, getchar]
          exact readNumber_stop _ _ _ (lineEnd_stops _ hn).2.2.1
      simp only [List.nil_append]
      rw [ha, hb]
      exact ⟨rfl, Or.inr (Or.inl ⟨rfl, rfl, rfl⟩)⟩
    · have hl1 : (isdigit l || l == 46) = false := by simpa using hl
      rw [readNumber_stop _ _ _ hl1, readNumber_stop _ _ _ hl1]
      exact ⟨rfl, Or.inl ⟨rfl, [], rfl, rfl⟩⟩
  | cons x p ih =>
    intro acc l
    by_cases hl : (isdigit l || l == 46) = true
    · simp only [List.cons_append, readNumber, hl, if_true]
      exact ih _ _
    · have hl1 : (isdigit l || l == 46) = false := by simpa using hl
      rw [readNumber_stop _ _ _ hl1, readNumber_stop _ _ _ hl1]
      exact ⟨rfl, Or.inl ⟨rfl, x :: p, rfl, rfl⟩⟩

theorem skipComment_comment (c s2 : List Char) (hc : NoLineEnd c) (hs : AtLineEnd s2)
    (p : List Char) :
    ∀ l : Int,
      skipComment l (p ++ '#' :: (c ++ s2)) = skipComment l (p ++ s2) ∨
      ((skipComment l (p ++ '#' :: (c ++ s2))).1 = (skipComment l (p ++ s2)).1 ∧
        ∃ q, q.length ≤ p.length ∧
          (skipComment l (p ++ '#' :: (c ++ s2))).2 = q ++ '#' :: (c ++ s2) ∧
          (skipComment l (p ++ s2)).2 = q ++ s2) := by
  induction p with
  | nil =>
    intro l
    by_cases hl : (l != EOF && l != 10 && l != 13) = true
    · left
      have ha : skipComment l ('#' :: (c ++ s2)) = getchar s2 := by
        simp only [skipComment, hl, if_true]
        exact skipComment_through c s2 hc hs _ (by decide)
      have hb : skipComment l s2 = getchar s2 :=
        skipComment_through [] s2 (fun _ h => by cases h) hs l hl
      simp only [List.nil_append, ha, hb]
    · right
      have hl1 : (l != EOF && l != 10 && l != 13) = false := by simpa using hl
      rw [skipComment_stop _ _ hl1, skipComment_stop _ _ hl1]
      exact ⟨rfl, [], le_refl _, rfl, rfl⟩
  | cons x p ih =>
    intro l
    by_cases hl : (l != EOF && l != 10 && l != 13) = true
    · simp only [List.cons_append, skipComment, hl, if_true]
      rcases ih (x.toNat : Int) with h | ⟨h1, q, hq, h2, h3⟩
      · left; exact h
      · right
        exact ⟨h1, q, by simp only [List.length_cons]; omega, h2, h3⟩
    · right
      have hl1 : (l != EOF && l != 10 && l != 13) = false := by simpa using hl
      rw [skipComment_stop _ _ hl1, skipComment_stop _ _ hl1]
      exact ⟨rfl, x :: p, le_refl _, rfl, rfl⟩

theorem GetToken_congr (base : State) (l l1 : Int) (i i1 : List Char)
    (h : skipSpaces l i = skipSpaces l1 i1) :
    GetToken (withScan base l i) = GetToken (withScan base l1 i1) := by
  rw [GetToken_unfold, GetToken_unfold (withScan base l1 i1)]
  simp only [withScan, h]

theorem GetToken_skips_space (base : State) (l : Int) (i : List Char)
    (h : isspace l = true) :
    GetToken (withScan base l i) = GetToken (withScan base (getchar i).1 (getchar i).2) := by
  apply GetToken_congr
  cases i with
  | nil => simp [skipSpaces, h, getchar]
  | cons x xs => simp [skipSpaces, h, getchar]

theorem GetToken_alpha (base : State) (l : Int) (i : List Char)
    (hs : isspace l = false) (h : isalpha l = true) :
    GetToken (withScan base l i)
      = (keywordToken (readIdentifier [toChar l] i).1,
          withScan { base with identifier := (readIdentifier [toChar l] i).1 }
            (readIdentifier [toChar l] i).2.1 (readIdentifier [toChar l] i).2.2) := by
  rw [GetToken_unfold]
  simp only [withScan, skipSpaces_not_space _ _ hs, h, if_true, keywordToken]
  split
  · rfl
  · split <;> rfl

theorem GetToken_digit (base : State) (l : Int) (i : List Char)
    (hs : isspace l = false) (h : isalpha l = false)
    (hd : (isdigit l || l == 46) = true) :
    GetToken (withScan base l i)
      = (numberToken,
          withScan { base with numberValue := strtod (readNumber [toChar l] l i).1 }
            (readNumber [toChar l] l i).2.1 (readNumber [toChar l] l i).2.2) := by
  rw [GetToken_unfold]
  simp only [withScan, skipSpaces_not_space _ _ hs, h, hd, if_true, Bool.false_eq_true,
    if_false]

theorem GetToken_hash (base : State) (i : List Char) :
    GetToken (withScan base 35 i)
      = if (skipComment 35 i).1 != EOF then
          GetToken (withScan base (skipComment 35 i).1 (skipComment 35 i).2)
        else (EOFToken, withScan base (skipComment 35 i).1 (skipComment 35 i).2) := by
  rw [GetToken_unfold]
  have e1 : isalpha 35 = false := by decide
  have e2 : (isdigit 35 || (35 : Int) == 46) = false := by decide
  simp only [withScan, skipSpaces_not_space 35 _ (by decide), e1, e2, Bool.false_eq_true,
    if_false, beq_self_eq_true, if_true]

theorem GetToken_other (base : State) (l : Int) (i : List Char)
    (hs : isspace l = false) (h : isalpha l = false)
    (hd : (isdigit l || l == 46) = false) (h35 : l ≠ 35) (he : l ≠ EOF) :
    GetToken (withScan base l i) = (l, withScan base (getchar i).1 (getchar i).2) := by
  rw [GetToken_unfold]
  have e1 : (l == 35) = false := by simpa using h35
  have e2 : (l == EOF) = false := by simpa using he
  simp only [withScan, skipSpaces_not_space _ _ hs, h, hd, e1, e2, Bool.false_eq_true,
    if_false]

theorem GetToken_withScan_EOF (base : State) (i : List Char) :
    GetToken (withScan base EOF i) = (EOFToken, withScan base EOF i) :=
  GetToken_at_EOF (withScan base EOF i) rfl

/-- With `#` pending and the comment text ahead, `GetToken` does what it does at the line
end that follows the comment. -/
theorem GetToken_comment_pending (base : State) (c s2 : List Char) (hc : NoLineEnd c)
    (hs : AtLineEnd s2) :
    GetToken (withScan base 35 (c ++ s2))
      = GetToken (withScan base (getchar s2).1 (getchar s2).2) := by
  rw [GetToken_hash, skipComment_through c s2 hc hs 35 (by decide)]
  by_cases he : (getchar s2).1 = EOF
  · have e2 : (getchar s2).2 = [] := by
      rcases hs with rfl | ⟨n, t, rfl, hn⟩
      · rfl
      · exfalso
        simp only [getchar] at he
        unfold EOF at he
        omega
    simp only [he, bne_self_eq_false, Bool.false_eq_true, if_false, e2]
    exact (GetToken_withScan_EOF base []).symm
  · have : ((getchar s2).1 != EOF) = true := by simpa using he
    simp only [this, if_true]

theorem GetToken_same (A B : State) (c s2 : List Char)
    (h : GetToken A = GetToken B) :
    ∃ (tok : Int) (base1 : State) (a b : Int × List Char),
      GetToken A = (tok, withScan base1 a.1 a.2) ∧
      GetToken B = (tok, withScan base1 b.1 b.2) ∧ CommentRel c s2 a b :=
  ⟨(GetToken B).1, (GetToken B).2, ((GetToken B).2.lastChar, (GetToken B).2.input),
    ((GetToken B).2.lastChar, (GetToken B).2.input), by rw [h]; rfl, rfl, Or.inr (Or.inr rfl)⟩

theorem skipComment_comment_hash (c s2 : List Char) (hc : NoLineEnd c) (hs : AtLineEnd s2)
    (p : List Char) :
    skipComment 35 (p ++ '#' :: (c ++ s2)) = skipComment 35 (p ++ s2) ∨
    ((skipComment 35 (p ++ '#' :: (c ++ s2))).1 = (skipComment 35 (p ++ s2)).1 ∧
      ∃ q, q.length < p.length ∧
        (skipComment 35 (p ++ '#' :: (c ++ s2))).2 = q ++ '#' :: (c ++ s2) ∧
        (skipComment 35 (p ++ s2)).2 = q ++ s2) := by
  have h35 : ((35 : Int) != EOF && (35 : Int) != 10 && (35 : Int) != 13) = true := by decide
  cases p with
  | nil =>
    rcases skipComment_comment c s2 hc hs [] 35 with h | ⟨h1, q, hq, h2, h3⟩
    · left; exact h
    · left
      have ha : skipComment 35 ('#' :: (c ++ s2)) = getchar s2 := by
        simp only [skipComment, h35, if_true]
        exact skipComment_through c s2 hc hs _ (by decide)
      have hb : skipComment 35 s2 = getchar s2 :=
        skipComment_through [] s2 (fun _ h => by cases h) hs 35 h35
      simp only [List.nil_append]
      rw [ha, hb]
  | cons x p =>
    simp only [List.cons_append, skipComment, h35, if_true]
    rcases skipComment_comment c s2 hc hs p (x.toNat : Int) with h | ⟨h1, q, hq, h2, h3⟩
    · left; exact h
    · right
      exact ⟨h1, q, by simp only [List.length_cons]; omega, h2, h3⟩

/-- One call of `GetToken` with the comment ahead in the input and the same call without
the comment: the same token, the same buffers, and positions that are related again. -/
theorem GetToken_comment_ahead (c s2 : List Char) (hc : NoLineEnd c) (hs : AtLineEnd s2) :
    ∀ (p : List Char) (base : State) (l : Int),
      ∃ (tok : Int) (base1 : State) (a b : Int × List Char),
        GetToken (withScan base l (p ++ '#' :: (c ++ s2))) = (tok, withScan base1 a.1 a.2) ∧
        GetToken (withScan base l (p ++ s2)) = (tok, withScan base1 b.1 b.2) ∧
        CommentRel c s2 a b := by
  intro p
  generalize hn : p.length = n
  induction n using Nat.strong_induction_on generalizing p with
  | _ n ih =>
    intro base l
    by_cases hsp : isspace l = true
    · -- white space pending: it is skipped on both sides
      rw [GetToken_skips_space _ _ _ hsp, GetToken_skips_space base l (p ++ s2) hsp]
      cases p with
      | nil =>
        apply GetToken_same
        simp only [List.nil_append, getchar]
        exact GetToken_comment_pending base c s2 hc hs
      | cons x p =>
        simp only [List.cons_append, getchar]
        exact ih p.length (by rw [← hn]; simp) p rfl base _
    · have hsp1 : isspace l = false := by simpa using hsp
      by_cases hal : isalpha l = true
      · -- an identifier or keyword
        obtain ⟨h1, h2⟩ := readIdentifier_comment c s2 hs p [toChar l]
        refine ⟨keywordToken (readIdentifier [toChar l] (p ++ s2)).1,
          { base with identifier := (readIdentifier [toChar l] (p ++ s2)).1 },
          (readIdentifier [toChar l] (p ++ '#' :: (c ++ s2))).2,
          (readIdentifier [toChar l] (p ++ s2)).2, ?_, ?_, h2⟩
        · rw [GetToken_alpha _ _ _ hsp1 hal, h1]
        · rw [GetToken_alpha _ _ _ hsp1 hal]
      · have hal1 : isalpha l = false := by simpa using hal
        by_cases hd : (isdigit l || l == 46) = true
        · -- a numeric literal
          obtain ⟨h1, h2⟩ := readNumber_comment c s2 hs p [toChar l] l
          refine ⟨numberToken,
            { base with numberValue := strtod (readNumber [toChar l] l (p ++ s2)).1 },
            (readNumber [toChar l] l (p ++ '#' :: (c ++ s2))).2,
            (readNumber [toChar l] l (p ++ s2)).2, ?_, ?_, h2⟩
          · rw [GetToken_digit _ _ _ hsp1 hal1 hd, h1]
          · rw [GetToken_digit _ _ _ hsp1 hal1 hd]
        · have hd1 : (isdigit l || l == 46) = false := by simpa using hd
          by_cases h35 : l = 35
          · -- an earlier comment
            subst h35
            rcases skipComment_comment_hash c s2 hc hs p with h | ⟨h1, q, hq, h2, h3⟩
            · apply GetToken_same
              rw [GetToken_hash, GetToken_hash base (p ++ s2), h]
            · rw [GetToken_hash, GetToken_hash base (p ++ s2), h1, h2, h3]
              by_cases he : ((skipComment 35 (p ++ s2)).1 != EOF) = true
              · simp only [he, if_true]
                exact ih q.length (by rw [← hn]; exact hq) q rfl base _
              · simp only [he, if_false]
                exact ⟨EOFToken, base, (_, _), (_, _), rfl, rfl, Or.inl ⟨rfl, q, rfl, rfl⟩⟩
          · by_cases he : l = EOF
            · subst he
              rw [GetToken_withScan_EOF, GetToken_withScan_EOF]
              exact ⟨EOFToken, base, (_, _), (_, _), rfl, rfl, Or.inl ⟨rfl, p, rfl, rfl⟩⟩
            · -- a single character
              rw [GetToken_other _ _ _ hsp1 hal1 hd1 h35 he,
                GetToken_other _ _ _ hsp1 hal1 hd1 h35 he]
              refine ⟨l, base, getchar (p ++ '#' :: (c ++ s2)), getchar (p ++ s2), rfl,
                rfl, ?_⟩
              cases p with
              | nil => exact Or.inr (Or.inl ⟨rfl, rfl, rfl⟩)
              | cons x p => exact Or.inl ⟨rfl, p, rfl, rfl⟩

theorem GetToken_CommentRel (c s2 : List Char) (hc : NoLineEnd c) (hs : AtLineEnd s2)
    (base : State) (a b : Int × List Char) (h : CommentRel c s2 a b) :
    ∃ (tok : Int) (base1 : State) (a1 b1 : Int × List Char),
      GetToken (withScan base a.1 a.2) = (tok, withScan base1 a1.1 a1.2) ∧
      GetToken (withScan base b.1 b.2) = (tok, withScan base1 b1.1 b1.2) ∧
      CommentRel c s2 a1 b1 := by
  rcases h with ⟨h1, p, h2, h3⟩ | ⟨h1, h2, h3⟩ | h
  · rw [h1, h2, h3]
    exact GetToken_comment_ahead c s2 hc hs p base _
  · apply GetToken_same
    rw [h1, h2, h3]
    exact GetToken_comment_pending base c s2 hc hs
  · apply GetToken_same
    rw [h]

theorem tokenOf_withScan (tok : Int) (base : State) (l : Int) (i : List Char) :
    tokenOf tok (withScan base l i) = tokenOf tok base := rfl

theorem scan_CommentRel (c s2 : List Char) (hc : NoLineEnd c) (hs : AtLineEnd s2) (k : Nat) :
    ∀ (base : State) (a b : Int × List Char), CommentRel c s2 a b →
      scan k (withScan base a.1 a.2) = scan k (withScan base b.1 b.2) := by
  induction k with
  | zero => intros; rfl
  | succ k ih =>
    intro base a b h
    obtain ⟨tok, base1, a1, b1, e1, e2, h1⟩ := GetToken_CommentRel c s2 hc hs base a b h
    simp only [scan, e1, e2, tokenOf_withScan]
    rw [ih base1 a1 b1 h1]

/-- C14: for all texts `s1`, `c`, `s2` where `c` holds neither `\n` nor `\r` and `s2` is
empty or begins with `\n` or `\r`, any number of successive calls of `GetToken` produce on
`s1 ++ "#" ++ c ++ s2` the same tokens, with the same identifier names and numeric
values, as on `s1 ++ s2`. -/
theorem scan_comment_transparent (s1 c s2 : List Char)
    (hc : ∀ x ∈ c, x ≠ '\n' ∧ x ≠ '\r')
    (hs : s2 = [] ∨ ∃ t, s2 = '\n' :: t ∨ s2 = '\r' :: t) (k : Nat) :
    scan k (initialState (s1 ++ '#' :: (c ++ s2))) = scan k (initialState (s1 ++ s2)) := by
  have hc1 : NoLineEnd c := by
    intro x hx
    have := hc x hx
    constructor
    · intro h
      apply this.1
      have h2 : x.toNat = 10 := by exact_mod_cast h
      rw [← Char.ofNat_toNat x, h2]
    · intro h
      apply this.2
      have h2 : x.toNat = 13 := by exact_mod_cast h
      rw [← Char.ofNat_toNat x, h2]
  have hs1 : AtLineEnd s2 := by
    rcases hs with h | ⟨t, h | h⟩
    · exact Or.inl h
    · exact Or.inr ⟨'\n', t, h, Or.inl rfl⟩
    · exact Or.inr ⟨'\r', t, h, Or.inr rfl⟩
  exact scan_CommentRel c s2 hc1 hs1 k (initialState []) (32, s1 ++ '#' :: (c ++ s2))
    (32, s1 ++ s2) (Or.inl ⟨rfl, s1, rfl, rfl⟩)

theorem scan_comment_transparent_witness :
    scan 6 (initialState ("x = 1 ".toList ++ '#' :: (" def y# ".toList ++ "\n + z".toList)))
      = scan 6 (initialState ("x = 1 ".toList ++ "\n + z".toList)) ∧
    scan 6 (initialState ("x = 1 ".toList ++ "\n + z".toList))
      = [Token.identifier ['x'], Token.character 61, Token.number 11, Token.character 43,
         Token.identifier ['z'], Token.endOfInput] :=
  ⟨scan_comment_transparent "x = 1 ".toList " def y# ".toList "\n + z".toList
     (by decide) (Or.inr ⟨" + z".toList, Or.inl rfl⟩) 6, by decide⟩

end BasicCompiler
